import Mathlib

/-!
# Load / store / prefetch lowering of `LoadStoreOpToLLVM.cpp`

A shallow embedding of the lowering helpers of
`third_party/intel/lib/TritonIntelGPUToLLVM/LoadStoreOpToLLVM.cpp`.

Number model.  Machine integers are natural numbers with their wrap-around
written out.  The `i32` arithmetic of the emitted code (thread coordinates of
the redundancy mask, offsets of the block prefetches, loads and stores), the
`unsigned` products, ceilings and doublings of the tiling planner and the
conversions of `int64_t` extents to `unsigned` or `i32` are reduced modulo
`2 ^ 32`; a signed comparison reads the 32-bit pattern as a signed integer.
Bit patterns (elements packed into transfer words, addresses) carry their
widths explicitly.  Quotients of `int64_t` extents, and the element, vector and
repetition counts of one lane, are natural numbers.

The emitted code is modelled by its value on one lane: an `i1` value is the
`Bool` it evaluates to for the lane described by a `LaneEnv`.
-/

namespace LoadStoreOpToLLVM

/-! ## Data model -/

/-- Layout queries used by the lowering: the results of `getSizePerThread`,
`getThreadsPerWarp`, `getWarpsPerCTA`, `getOrder`, `getShapePerCTATile`,
`getNumCTAs`, `getCTAsPerCGA`, `getCTASplitNum` and `getCTAOrder` on the
encoding of a tensor type. -/
structure Layout where
  sizePerThread : List Nat
  threadsPerWarp : List Nat
  warpsPerCTA : List Nat
  order : List Nat
  shapePerCTATile : List Nat
  numCTAs : Nat
  CTAsPerCGA : List Nat
  CTASplitNum : List Nat
  CTAOrder : List Nat

/-- A ranked tensor type: its shape and the layout queries of its encoding. -/
structure RankedTensorType where
  shape : List Nat
  layout : Layout

/-- What the emitted code reads for one lane: the thread id (`tid_val`), the
cluster CTA id (`getClusterCTAId`), the module warp size, and the
delinearisation helper of `Utility.h` (linear index, shape, order), which is
not part of this file and is taken as a parameter. -/
structure LaneEnv where
  tid : Nat
  clusterCTAId : Nat
  warpSize : Nat
  delinearize : Nat → List Nat → List Nat → List Nat

/-- Integer ceiling division of `Utility.h`: `ceil(m, n) = (m + n - 1) / n`. -/
def ceil (m n : Nat) : Nat :=
  (m + n - 1) / n

/-! ## Redundancy mask (`redundantDataMask`) -/

/-- The value of a 32-bit pattern read as a signed integer, as the operands of
`icmp_slt` are. -/
def toSigned32 (x : Nat) : Int :=
  if x % 2 ^ 32 < 2 ^ 31 then ((x % 2 ^ 32 : Nat) : Int)
  else ((x % 2 ^ 32 : Nat) : Int) - 2 ^ 32

/-- The thread index on one dimension for the CTA:
`add(mul(multiDimWarpId[dim], threadsPerWarp[dim]), multiDimThreadId[dim])`,
in `i32` arithmetic. -/
def threadDim (warpCoord threadsPerWarp laneCoord : Nat) : Nat :=
  (warpCoord * threadsPerWarp % 2 ^ 32 + laneCoord) % 2 ^ 32

/-- The mask term of a replicated dimension:
`icmp_slt(mul(threadDim, sizePerThread[dim]), shape[dim])`: the `i32` product
and the extent truncated to `i32` are compared as signed integers. -/
def replicationTerm (threadDim sizePerThread shape : Nat) : Bool :=
  decide (toSigned32 (threadDim * sizePerThread) < toSigned32 shape)

/-- The wrapping rule of the multicast mask:
`splitNum = std::min<unsigned>(shape[dim], CTASplitNum[dim])`; the `int64_t`
extent is converted to `unsigned` first. -/
def splitNum (shape ctaSplitNum : Nat) : Nat :=
  min (shape % 2 ^ 32) ctaSplitNum

/-- The mask term of a multicast dimension: `repId = udiv(clusterCoord,
splitNum)` and `icmp_eq(repId, 0)`. -/
def multicastTerm (shape ctaSplitNum clusterCoord : Nat) : Bool :=
  decide (clusterCoord / splitNum shape ctaSplitNum = 0)

/-- The first loop of `redundantDataMask`: for every dimension, skip it when
`shape[dim] >= shapePerCTATile[dim]`, otherwise and the replication term into
the mask. -/
def replicationLoop (shape : List Nat) (layout : Layout)
    (multiDimWarpId multiDimThreadId : List Nat) (mask : Bool) : Bool :=
  (List.range shape.length).foldl
    (fun mask dim =>
      if shape.getD dim 0 ≥ layout.shapePerCTATile.getD dim 0 then mask
      else
        mask && replicationTerm
          (threadDim (multiDimWarpId.getD dim 0) (layout.threadsPerWarp.getD dim 0)
            (multiDimThreadId.getD dim 0))
          (layout.sizePerThread.getD dim 0) (shape.getD dim 0))
    mask

/-- The second loop of `redundantDataMask` (run when the layout has more than
one CTA): for every dimension, skip it when `CTAsPerCGA[dim] ==
CTASplitNum[dim]`, otherwise and the multicast term into the mask. -/
def multicastLoop (shape : List Nat) (layout : Layout)
    (multiDimClusterCTAId : List Nat) (mask : Bool) : Bool :=
  (List.range shape.length).foldl
    (fun mask dim =>
      if layout.CTAsPerCGA.getD dim 0 = layout.CTASplitNum.getD dim 0 then mask
      else
        mask && multicastTerm (shape.getD dim 0) (layout.CTASplitNum.getD dim 0)
          (multiDimClusterCTAId.getD dim 0))
    mask

/-- The value, on the lane `env`, of the mask built by `redundantDataMask`.
`valueTy` is `some tensorTy` when the value type is a ranked tensor and `none`
otherwise (a scalar). -/
def redundantDataMask (valueTy : Option RankedTensorType) (env : LaneEnv) : Bool :=
  let mask := true
  match valueTy with
  | some tensorTy =>
    let layout := tensorTy.layout
    let shape := tensorTy.shape
    let laneId := env.tid % env.warpSize
    let warpId := env.tid / env.warpSize
    let multiDimWarpId := env.delinearize warpId layout.warpsPerCTA layout.order
    let multiDimThreadId := env.delinearize laneId layout.threadsPerWarp layout.order
    let mask := replicationLoop shape layout multiDimWarpId multiDimThreadId mask
    if layout.numCTAs > 1 then
      let multiDimClusterCTAId :=
        env.delinearize env.clusterCTAId layout.CTAsPerCGA layout.CTAOrder
      multicastLoop shape layout multiDimClusterCTAId mask
    else mask
  | none =>
    let mask := mask && decide (env.clusterCTAId = 0)
    mask && decide (env.tid = 0)

/-- Modelled from the spec: the delinearisation helper declared in `Utility.h`
(not part of this file), for the one-dimensional case, where the single
coordinate is the linear index itself. -/
def delinearize1D (linear : Nat) (_shape _order : List Nat) : List Nat :=
  [linear]

/-- The layout of the boundary scenario: one dimension, 1 element per lane,
4 lanes per warp, 1 warp, one CTA. -/
def scenarioLayout : Layout :=
  { sizePerThread := [1], threadsPerWarp := [4], warpsPerCTA := [1], order := [0],
    shapePerCTATile := [4], numCTAs := 1, CTAsPerCGA := [1], CTASplitNum := [1],
    CTAOrder := [0] }

/-- The tensor of the boundary scenario: length 7 on `scenarioLayout`. -/
def scenarioTensor : RankedTensorType :=
  { shape := [7], layout := scenarioLayout }

/-- A lane of the boundary scenario. -/
def scenarioLane (tid : Nat) : LaneEnv :=
  { tid := tid, clusterCTAId := 0, warpSize := 4, delinearize := delinearize1D }

/-- The layout of the multicast example in the source comment: one dimension,
`CTAsPerCGA = [4]`, `CTASplitNum = [2]`, with 32 lanes, 4 warps and 1 element
per lane. -/
def multicastLayout : Layout :=
  { sizePerThread := [1], threadsPerWarp := [32], warpsPerCTA := [4], order := [0],
    shapePerCTATile := [128], numCTAs := 4, CTAsPerCGA := [4], CTASplitNum := [2],
    CTAOrder := [0] }

/-- A tensor of length 256 on `multicastLayout`. -/
def multicastTensor : RankedTensorType :=
  { shape := [256], layout := multicastLayout }

/-- A lane of the multicast example: thread `tid` of cluster CTA `cta`. -/
def multicastLane (tid cta : Nat) : LaneEnv :=
  { tid := tid, clusterCTAId := cta, warpSize := 32, delinearize := delinearize1D }

/-! ## Block transfer tiling planner -/

/-- The 2D prefetch shape for each warp (`get2DPrefetchShapePerWarp`), given
the tensor shape and the bit width of its element type.  The row count is
converted to `unsigned` by `std::min<unsigned>`. -/
def get2DPrefetchShapePerWarp (tensorShape : List Nat) (elemSizeInBits : Nat) : List Nat :=
  let elemSizeInBytes := elemSizeInBits / 8
  let maxBytesPerCol := 64
  let numRows := min (tensorShape.getD 0 0 % 2 ^ 32) 32
  let numCols := maxBytesPerCol / elemSizeInBytes
  [numRows, numCols]

/-- Integer division that fails on a zero divisor. -/
def divChecked (a b : Nat) : Option Nat :=
  if b = 0 then none else some (a / b)

/-- Integer ceiling division `ceil(m, n)` that fails on a zero divisor. -/
def ceilChecked (m n : Nat) : Option Nat :=
  if n = 0 then none else some (ceil m n)

/-- `ceil<unsigned>(m, n) = (m + n - 1) / n` with the 32-bit wrap-around of the
sum; `none` on a zero divisor. -/
def ceilU32 (m n : Nat) : Option Nat :=
  if n = 0 then none else some ((m + n - 1) % 2 ^ 32 / n)

/-- One pass through the body of the loop of `getWarpsPerCTA` after the break
test, with the 32-bit wrap-around of the `unsigned` products and doublings.
The quotients are `int64_t` divisions of the tensor extents. -/
def getWarpsPerCTAStepU32 (tensorShape shapePerWarp : List Nat)
    (rowColRatio colRowRatio w0 w1 : Nat) : Option (Nat × Nat) := do
  let lhsTiles ←
    divChecked (tensorShape.getD 0 0) (shapePerWarp.getD 0 0 * colRowRatio % 2 ^ 32)
  let lhs ← divChecked lhsTiles w0
  let rhsTiles ←
    divChecked (tensorShape.getD 1 0) (shapePerWarp.getD 1 0 * rowColRatio % 2 ^ 32)
  let rhs ← divChecked rhsTiles w1
  if lhs ≥ rhs then do
    let rowTiles ← divChecked (tensorShape.getD 0 0) (shapePerWarp.getD 0 0)
    if w0 < rowTiles then some (w0 * 2 % 2 ^ 32, w1) else some (w0, w1 * 2 % 2 ^ 32)
  else some (w0, w1 * 2 % 2 ^ 32)

/-- The loop of `getWarpsPerCTA` with the 32-bit wrap-around of the grid total
`warpsPerCTA[0] * warpsPerCTA[1]`.  `fuel` bounds the number of passes through
the doubling body; the result is `none` when the fuel runs out or a division
has a zero divisor. -/
def getWarpsPerCTALoopU32 (tensorShape shapePerWarp : List Nat)
    (numWarps rowColRatio colRowRatio : Nat) : Nat → Nat → Nat → Option (List Nat)
  | 0, w0, w1 => if w0 * w1 % 2 ^ 32 ≥ numWarps then some [w0, w1] else none
  | fuel + 1, w0, w1 =>
    if w0 * w1 % 2 ^ 32 ≥ numWarps then some [w0, w1]
    else
      match getWarpsPerCTAStepU32 tensorShape shapePerWarp rowColRatio colRowRatio w0 w1 with
      | none => none
      | some (w0', w1') =>
        getWarpsPerCTALoopU32 tensorShape shapePerWarp numWarps rowColRatio colRowRatio
          fuel w0' w1'

/-- The planner `getWarpsPerCTA` in 32-bit unsigned arithmetic.  `none` when
the shapes are not 2D (the assertion), when a division has a zero divisor or
when `fuel` doublings do not suffice. -/
def getWarpsPerCTAU32 (fuel : Nat) (tensorShape shapePerWarp : List Nat) (numWarps : Nat) :
    Option (List Nat) :=
  if tensorShape.length = 2 ∧ shapePerWarp.length = 2 then do
    let rowColRatio ← ceilU32 (shapePerWarp.getD 0 0) (shapePerWarp.getD 1 0)
    let colRowRatio ← ceilU32 (shapePerWarp.getD 1 0) (shapePerWarp.getD 0 0)
    getWarpsPerCTALoopU32 tensorShape shapePerWarp numWarps rowColRatio colRowRatio fuel 1 1
  else none

/-- The 2D warps per CTA (`getWarpsPerCTA`) given the tensor shape and the
prefetch shape per warp: the planner above, in the 32-bit unsigned arithmetic
of the code. -/
def getWarpsPerCTA (fuel : Nat) (tensorShape shapePerWarp : List Nat) (numWarps : Nat) :
    Option (List Nat) :=
  getWarpsPerCTAU32 fuel tensorShape shapePerWarp numWarps

/-! ## Prefetch lowering (`rewriteTensorPointerPrefetch`) -/

/-- The repetition counts of the prefetch lowering:
`numReps[d] = ceil<int64_t>(tensorShape[d], shapePerWarp[d] * warpsPerCTA[d])`,
the divisor being an `unsigned` product; `none` on a zero divisor. -/
def prefetchNumReps (tensorShape shapePerWarp warpsPerCTA : List Nat) : Option (List Nat) := do
  let reps0 ← ceilChecked (tensorShape.getD 0 0)
    (shapePerWarp.getD 0 0 * warpsPerCTA.getD 0 0 % 2 ^ 32)
  let reps1 ← ceilChecked (tensorShape.getD 1 0)
    (shapePerWarp.getD 1 0 * warpsPerCTA.getD 1 0 % 2 ^ 32)
  some [reps0, reps1]

/-- The offset of a tile before it is rounded into the tensor shape: the offset
of this warp plus the replica offset with a warp stride,
`add(mul(warpCoord, shapePerWarp), rep * warpsPerCTA * shapePerWarp)`, in
32-bit arithmetic. -/
def prefetchUnwrappedOffset (warpCoord shapePerWarp warpsPerCTA rep : Nat) : Nat :=
  (warpCoord * shapePerWarp % 2 ^ 32 + rep * warpsPerCTA * shapePerWarp % 2 ^ 32) % 2 ^ 32

/-- The `x` operand of the block prefetch of repetition `col`:
`urem(offsetX, i32_val(tensorShape[0]))`. -/
def prefetchOffsetX (tensorShape shapePerWarp warpsPerCTA multiDimWarpId : List Nat)
    (col : Nat) : Nat :=
  prefetchUnwrappedOffset (multiDimWarpId.getD 1 0) (shapePerWarp.getD 1 0)
    (warpsPerCTA.getD 1 0) col % (tensorShape.getD 0 0 % 2 ^ 32)

/-- The `y` operand of the block prefetch of repetition `row`:
`urem(offsetY, i32_val(tensorShape[0]))`. -/
def prefetchOffsetY (tensorShape shapePerWarp warpsPerCTA multiDimWarpId : List Nat)
    (row : Nat) : Nat :=
  prefetchUnwrappedOffset (multiDimWarpId.getD 0 0) (shapePerWarp.getD 0 0)
    (warpsPerCTA.getD 0 0) row % (tensorShape.getD 0 0 % 2 ^ 32)

/-- The operands of one emitted `Matrix2DBlockPrefetchOp` that the lowering
computes itself: the offsets and the tile description. -/
structure BlockPrefetch where
  x : Nat
  y : Nat
  elemSizeInBits : Nat
  tileWidth : Nat
  tileHeight : Nat
deriving DecidableEq

/-- The block prefetches emitted by `rewriteTensorPointerPrefetch` for the warp
with coordinate `multiDimWarpId` (the delinearised warp id, a parameter), in
emission order: rows outer, columns inner.  `none` when the planner does not
return or a division has a zero divisor. -/
def rewriteTensorPointerPrefetch (fuel : Nat) (tensorShape : List Nat) (elemBits numWarps : Nat)
    (multiDimWarpId : List Nat) : Option (List BlockPrefetch) := do
  let shapePerWarp := get2DPrefetchShapePerWarp tensorShape elemBits
  let warpsPerCTA ← getWarpsPerCTA fuel tensorShape shapePerWarp numWarps
  let numReps ← prefetchNumReps tensorShape shapePerWarp warpsPerCTA
  let bytesPerCol := shapePerWarp.getD 1 0 * elemBits % 2 ^ 32 / 8
  let elemSizeInBits := if bytesPerCol ≥ 4 then 32 else bytesPerCol * 8
  let tileWidthInElem ← ceilU32 (bytesPerCol * 8 % 2 ^ 32) elemSizeInBits
  let tileHeightInElem := shapePerWarp.getD 0 0
  some ((List.range (numReps.getD 0 0)).flatMap fun row =>
    (List.range (numReps.getD 1 0)).map fun col =>
      { x := prefetchOffsetX tensorShape shapePerWarp warpsPerCTA multiDimWarpId col
        y := prefetchOffsetY tensorShape shapePerWarp warpsPerCTA multiDimWarpId row
        elemSizeInBits := elemSizeInBits
        tileWidth := tileWidthInElem
        tileHeight := tileHeightInElem })

/-! ## Generic vectorized / predicated path: shared helpers -/

/-- The vector size of `LoadStoreConversionBase::getVectorSize`: 1 for a
pointer that is not a tensor, otherwise `min(128 / pointeeBitWidth,
contiguity)`, where the contiguity comes from the axis analysis. -/
def getVectorSize (ptrIsTensor : Bool) (pointeeBitWidth contiguity : Nat) : Nat :=
  if ptrIsTensor then min (128 / pointeeBitWidth) contiguity else 1

/-- The cap by the mask alignment when a mask operand is present:
`vec = std::min(vec, getMaskAlignment(mask))`. -/
def capByMaskAlignment (vec : Nat) (maskAlign : Option Nat) : Nat :=
  match maskAlign with
  | some a => min vec a
  | none => vec

/-- `maxWordWidth = std::max<size_t>(32, valueElemNBits)`. -/
def maxWordWidth (valueElemNBits : Nat) : Nat :=
  max 32 valueElemNBits

/-- `totalWidth = valueElemNBits * vec`. -/
def totalWidth (valueElemNBits vec : Nat) : Nat :=
  valueElemNBits * vec

/-- `width = std::min(totalWidth, maxWordWidth)`. -/
def wordWidth (valueElemNBits vec : Nat) : Nat :=
  min (totalWidth valueElemNBits vec) (maxWordWidth valueElemNBits)

/-- `nWords = std::max<size_t>(1, totalWidth / width)`. -/
def nWords (valueElemNBits vec : Nat) : Nat :=
  max 1 (totalWidth valueElemNBits vec / wordWidth valueElemNBits vec)

/-- `wordNElems = width / valueElemNBits`. -/
def wordNElems (valueElemNBits vec : Nat) : Nat :=
  wordWidth valueElemNBits vec / valueElemNBits

/-- The declared alignment of a transfer: `nWords * width / 8`. -/
def transferAlignment (valueElemNBits vec : Nat) : Nat :=
  nWords valueElemNBits vec * wordWidth valueElemNBits vec / 8

/-- The `bitcast` of a vector of `elemBits`-wide elements to one integer:
element 0 is the least significant. -/
def bitcastVecToInt (elemBits : Nat) : List Nat → Nat
  | [] => 0
  | e :: es => e % 2 ^ elemBits + 2 ^ elemBits * bitcastVecToInt elemBits es

/-- The `bitcast` of an integer to a vector of `n` elements of `elemBits` bits:
element `i` is the bit field starting at bit `elemBits * i`. -/
def bitcastIntToVec (elemBits n : Nat) (word : Nat) : List Nat :=
  (List.range n).map fun i => word / 2 ^ (elemBits * i) % 2 ^ elemBits

/-- Modelled from the spec: the predicated block helper `createPredicatedBlock`
of `Utility.h` (not part of this file), a per-lane branch and merge.  On a lane
whose guard `cond` is true the body `thenOps` runs and the merge point yields
its result; on a lane whose guard is false the body does not run and the merge
point yields the default `ops`.  The first component tells whether the body
ran on the lane. -/
def createPredicatedBlock {α : Type} (cond : Bool) (ops : α) (thenOps : Unit → α) : Bool × α :=
  if cond then (true, thenOps ()) else (false, ops)

/-! ## Store lowering, generic path (`StoreOpConversion::matchAndRewrite`) -/

/-- The element width used by the store: `dtsize = max(1, bitWidth / 8)`,
`valueElemNBits = dtsize * 8`. -/
def storeValueElemNBits (elemBits : Nat) : Nat :=
  max 1 (elemBits / 8) * 8

/-- An element as it is inserted into a word: a boolean (`i1`) element is
sign-extended to a byte first. -/
def storeElem (elemBits elem : Nat) : Nat :=
  if elemBits = 1 then (if elem % 2 = 1 then 255 else 0) else elem

/-- The word `wordIdx` of the vector group at `vecStart`: element
`vecStart + wordIdx * wordNElems + elemIdx` is inserted at index `elemIdx` of
`llWord`, which is then cast to an integer of `width` bits. -/
def storeWord (elemBits vec vecStart wordIdx : Nat) (valueElems : List Nat) : Nat :=
  bitcastVecToInt (storeValueElemNBits elemBits)
    ((List.range (wordNElems (storeValueElemNBits elemBits) vec)).map fun elemIdx =>
      storeElem elemBits
        (valueElems.getD (vecStart + wordIdx * wordNElems (storeValueElemNBits elemBits) vec
          + elemIdx) 0))

/-- The transfer vector of the group at `vecStart`: word `index` is inserted at
index `index` of `vecWord`. -/
def storeVecWord (elemBits vec vecStart : Nat) (valueElems : List Nat) : List Nat :=
  (List.range (nWords (storeValueElemNBits elemBits) vec)).map fun wordIdx =>
    storeWord elemBits vec vecStart wordIdx valueElems

/-- The guard of the predicated store of the group at `vecStart`:
`maskVal = llMask ? and_(mask, maskElems[vecStart]) : mask`. -/
def storeMaskVal (mask : Bool) (maskElems : Option (List Bool)) (vecStart : Nat) : Bool :=
  match maskElems with
  | some elems => mask && elems.getD vecStart false
  | none => mask

/-- One predicated store emitted by the generic store lowering, as seen by one
lane: the guard, the address, the transfer vector and the declared alignment. -/
structure PredicatedStore where
  guard : Bool
  addr : Nat
  vecWord : List Nat
  alignment : Nat
deriving DecidableEq

/-- The predicated stores emitted by the generic path of the store lowering for
the lane `env`, one per vector group (`vecStart = 0, vec, 2 * vec, ...` below
`elemsPerThread`).  `vec` is the vector size after the cap by the mask
alignment, at least 1; `maskElems` is `none` when the store has no mask
operand. -/
def storeLowering (valueTy : Option RankedTensorType) (env : LaneEnv) (elemBits vec : Nat)
    (ptrElems valueElems : List Nat) (maskElems : Option (List Bool)) : List PredicatedStore :=
  let elemsPerThread := ptrElems.length
  let mask := redundantDataMask valueTy env
  (List.range (ceil elemsPerThread vec)).map fun group =>
    let vecStart := group * vec
    { guard := storeMaskVal mask maskElems vecStart
      addr := ptrElems.getD vecStart 0
      vecWord := storeVecWord elemBits vec vecStart valueElems
      alignment := transferAlignment (storeValueElemNBits elemBits) vec }

/-- The memory writes (address, transfer vector) a lane performs when it runs
the predicated stores: the body of each predicated block is the one `store` of
the group. -/
def storeWrites (stores : List PredicatedStore) : List (Nat × List Nat) :=
  stores.flatMap fun st =>
    (createPredicatedBlock st.guard [] (fun _ => [(st.addr, st.vecWord)])).2

/-! ## Load lowering, generic path (`LoadOpConversion::matchAndRewrite`) -/

/-- The element width used by the load:
`valueElemNBits = std::max(8u, bitWidth)`. -/
def loadValueElemNBits (elemBits : Nat) : Nat :=
  max 8 elemBits

/-- The `int64_t` bit pattern of `getSExtValue()` of a splat constant. -/
def sextValue (splat : Int) : Nat :=
  (splat % 2 ^ 64).toNat

/-- The replication loop of the splat constant, on the 64-bit pattern of
`splatVal`: `for (s = 0; s < 32; s += valueElemNBits) splatVal |= splatVal <<
valueElemNBits`.  Bits shifted out of the 64-bit word are dropped.  `fuel`
bounds the number of iterations. -/
def splatLoop (valueElemNBits : Nat) : Nat → Nat → Nat → Nat
  | 0, _, splatVal => splatVal
  | fuel + 1, s, splatVal =>
    if s < 32 then
      splatLoop valueElemNBits fuel (s + valueElemNBits)
        ((splatVal ||| (splatVal <<< valueElemNBits)) % 2 ^ 64)
    else splatVal

/-- The fallback word `ii` of the group at `vecStart` and the value of
`splatVal` after it: the elements `otherElems[vecStart + ii * size + s]` packed
into a word; when the fallback is a splatted integer constant the replication
loop runs on `splatVal` and the word is `int_val(width, splatVal)` instead. -/
def loadOtherWord (valueElemNBits vec vecStart ii : Nat) (otherElems : List Nat)
    (splatVal : Option Nat) : Nat × Option Nat :=
  let width := wordWidth valueElemNBits vec
  let size := width / valueElemNBits
  let v := bitcastVecToInt valueElemNBits
    ((List.range size).map fun s => otherElems.getD (vecStart + ii * size + s) 0)
  match splatVal with
  | some sv =>
    let sv := splatLoop valueElemNBits 32 0 sv
    (sv % 2 ^ width, some sv)
  | none => (v, none)

/-- The fallback words `ii = start, ..., start + count - 1` of a group, with
`splatVal` carried from word to word. -/
def loadOtherWords (valueElemNBits vec vecStart : Nat) (otherElems : List Nat) :
    Nat → Nat → Option Nat → List Nat × Option Nat
  | 0, _, splatVal => ([], splatVal)
  | count + 1, ii, splatVal =>
    let (v, splatVal) := loadOtherWord valueElemNBits vec vecStart ii otherElems splatVal
    let (vs, splatVal) := loadOtherWords valueElemNBits vec vecStart otherElems count (ii + 1)
      splatVal
    (v :: vs, splatVal)

/-- The fallback value `other_` of the group at `vecStart` and the value of
`splatVal` after it: the packed fallback words when the load has a fallback
operand, the zero constant otherwise. -/
def loadOther (valueElemNBits vec vecStart : Nat) (other : Option (List Nat))
    (splatVal : Option Nat) : List Nat × Option Nat :=
  match other with
  | some otherElems =>
    loadOtherWords valueElemNBits vec vecStart otherElems (nWords valueElemNBits vec) 0 splatVal
  | none => (List.replicate (nWords valueElemNBits vec) 0, splatVal)

/-- The guard of the predicated load of the group at `vecStart`:
`pred = mask ? maskElems[vecStart] : int_val(1, 1)`. -/
def loadPred (maskElems : Option (List Bool)) (vecStart : Nat) : Bool :=
  match maskElems with
  | some elems => elems.getD vecStart false
  | none => true

/-- The elements extracted from the words of a group: word `ii` is cast to a
vector of `width / valueElemNBits` elements and result element `ii` is element
`ii % tmp` of word `ii / tmp`, with `tmp = width / valueElemNBits`. -/
def loadExtract (valueElemNBits vec : Nat) (ret : List Nat) : List Nat :=
  let width := wordWidth valueElemNBits vec
  let tmp := width / valueElemNBits
  let rets := ret.map (bitcastIntToVec valueElemNBits (width / valueElemNBits))
  (List.range vec).map fun ii => (rets.getD (ii / tmp) []).getD (ii % tmp) 0

/-- One vector group of the generic load lowering, as seen by one lane: the
guard, the memory read the lane performs (address, declared alignment) if any,
and the `vec` loaded values. -/
structure LoadGroup where
  guard : Bool
  read : Option (Nat × Nat)
  loaded : List Nat
deriving DecidableEq

/-- The group at `vecStart` and the value of `splatVal` after it.  The body of
the predicated block is the read of `nWords` words of `width` bits at the
address of the group (`memLoad addr nWords width` is what memory holds there)
and the default of the block is the fallback `other_`. -/
def loadGroup (elemBits vec vecStart : Nat) (ptrElems : List Nat)
    (maskElems : Option (List Bool)) (other : Option (List Nat)) (splatVal : Option Nat)
    (memLoad : Nat → Nat → Nat → List Nat) : LoadGroup × Option Nat :=
  let valueElemNBits := loadValueElemNBits elemBits
  let pred := loadPred maskElems vecStart
  let (other_, splatVal) := loadOther valueElemNBits vec vecStart other splatVal
  let addrElem := ptrElems.getD vecStart 0
  let alignment := transferAlignment valueElemNBits vec
  let (ran, ret) := createPredicatedBlock pred other_ fun _ =>
    memLoad addrElem (nWords valueElemNBits vec) (wordWidth valueElemNBits vec)
  ({ guard := pred
     read := if ran then some (addrElem, alignment) else none
     loaded := loadExtract valueElemNBits vec ret }, splatVal)

/-- The groups `group = start, ..., start + count - 1` of the load lowering,
with `splatVal` carried from group to group. -/
def loadGroups (elemBits vec : Nat) (ptrElems : List Nat)
    (maskElems : Option (List Bool)) (other : Option (List Nat))
    (memLoad : Nat → Nat → Nat → List Nat) : Nat → Nat → Option Nat → List LoadGroup
  | 0, _, _ => []
  | count + 1, group, splatVal =>
    let (g, splatVal) :=
      loadGroup elemBits vec (group * vec) ptrElems maskElems other splatVal memLoad
    g :: loadGroups elemBits vec ptrElems maskElems other memLoad count (group + 1) splatVal

/-- The vector groups of the generic path of the load lowering for one lane, in
order (`vecStart = 0, vec, 2 * vec, ...` below `numElems`).  `vec` is the vector
size after the cap by the mask alignment, at least 1; `maskElems` and `other`
are `none` when the load has no mask or no fallback operand; `splatConst` is
the value of the fallback when it is a splatted integer constant of an integer
element type (`otherIsSplatConstInt`), and `none` otherwise. -/
def loadLowering (elemBits vec : Nat) (ptrElems : List Nat)
    (maskElems : Option (List Bool)) (other : Option (List Nat)) (splatConst : Option Int)
    (memLoad : Nat → Nat → Nat → List Nat) : List LoadGroup :=
  let numElems := ptrElems.length
  let splatVal := match other with
    | some _ => splatConst.map sextValue
    | none => none
  loadGroups elemBits vec ptrElems maskElems other memLoad (ceil numElems vec) 0 splatVal

/-- The values returned by the load: the loaded values of all groups, in order
(`loadedVals`). -/
def loadedVals (groups : List LoadGroup) : List Nat :=
  groups.flatMap fun g => g.loaded

/-! ## Rewriter model -/

/-- The fatal precondition violations of the lowering: a failed assertion or
an `llvm_unreachable`. -/
inductive Fatal where
  /-- Assertion `unexpected number of values unpacked from a block pointer`. -/
  | unexpectedBlockPointerSize
  /-- Assertion `vals.size() == numElems` of the block store. -/
  | unexpectedValueCount
  /-- Unreachable `Unexpected prefetch operation on 'regular' ptr`. -/
  | unexpectedRegularPtrPrefetch
  /-- The tiling planner does not return a grid. -/
  | plannerDidNotReturn
  /-- Assertion `Unexpected width` of the atomic lowerings. -/
  | unexpectedWidth
  /-- Assertion `Expecting numCTA to be 1` of `createBarrier`. -/
  | expectingNumCTAOne
  /-- Unreachable `Unsupported FP16 atomic op`. -/
  | unsupportedFp16AtomicOp
deriving DecidableEq

/-- The result of a lowering that ran to its end: `success()` or `failure()`. -/
inductive LogicalResult where
  | success
  | failure
deriving DecidableEq

/-- The requested operation of an atomic read-modify-write (`RMWOp`). -/
inductive RMWOp where
  | AND
  | OR
  | XOR
  | ADD
  | FADD
  | MAX
  | MIN
  | UMAX
  | UMIN
  | XCHG
deriving DecidableEq

/-- The operands of one emitted `Matrix2DBlockLoadOp`. -/
structure BlockLoad where
  ptr : Nat
  baseWidth : Nat
  baseHeight : Nat
  basePitch : Nat
  x : Nat
  y : Nat
  elemSizeInBits : Nat
  tileWidth : Nat
  tileHeight : Nat
  vBlocks : Nat
  transpose : Bool
  vnniTransform : Bool
deriving DecidableEq

/-- The operands of one emitted `Matrix2DBlockStoreOp`. -/
structure BlockStore where
  ptr : Nat
  baseWidth : Nat
  baseHeight : Nat
  basePitch : Nat
  x : Nat
  y : Nat
  elemSizeInBits : Nat
  tileWidth : Nat
  tileHeight : Nat
  vBlocks : Nat
  transpose : Bool
  vnniTransform : Bool
  storedVal : List Nat
deriving DecidableEq

/-- The instructions the model records: the block transfers and the
instructions of the atomic lowerings.  Address arithmetic, casts and the
packing of values are the operands of these and are not recorded as
instructions of their own. -/
inductive Instr where
  | blockLoad (op : BlockLoad)
  | blockStore (op : BlockStore)
  | blockPrefetch (op : BlockPrefetch)
  /-- An `LLVM::AtomicCmpXchgOp` (acq_rel, monotonic). -/
  | atomicCmpXchg
  /-- An `LLVM::AtomicRMWOp` (acq_rel) of the given kind. -/
  | atomicRMW (kind : RMWOp)
  /-- The retry loop of `emulateFp16AtomicRmw` for the given operation. -/
  | emulatedFp16AtomicRmw (atomicOp : RMWOp)
  /-- The store of the result to the scratch location (`storeShared`). -/
  | storeShared
  /-- A group barrier (`barrier()`). -/
  | barrier
  /-- The load of the scratch location. -/
  | loadShared
deriving DecidableEq

/-- An emitted instruction and whether it lies inside a guarded region, run
only by the lanes whose mask is true. -/
structure Emitted where
  instr : Instr
  guarded : Bool
deriving DecidableEq

/-- The value an operation is replaced with. -/
inductive Replacement where
  /-- The struct packed from the values of the block loads. -/
  | blockLoadResults
  /-- The struct packed from the per-element results of the atomics. -/
  | atomicResults
  /-- The value loaded from the scratch location. -/
  | scratchLoad
deriving DecidableEq

/-- What the rewriter did to the original operation. -/
inductive OpStatus where
  | untouched
  | replaced (by_ : Replacement)
  | erased
deriving DecidableEq

/-- The state of the `ConversionPatternRewriter`: the instructions emitted so
far, the warnings emitted so far and the fate of the original operation. -/
structure Rewriter where
  emitted : List Emitted
  warnings : Nat
  status : OpStatus
deriving DecidableEq

/-- The rewriter before a lowering runs. -/
def Rewriter.initial : Rewriter :=
  { emitted := [], warnings := 0, status := .untouched }

/-- `rewriter.create` of an instruction, outside or inside a guarded region. -/
def Rewriter.create (rewriter : Rewriter) (instr : Instr) (guarded : Bool) : Rewriter :=
  { rewriter with emitted := rewriter.emitted ++ [{ instr := instr, guarded := guarded }] }

/-! ## Block descriptor unpacker (`getValuesFromBlockPointerStruct`) -/

/-- The values related to a block pointer. -/
structure BlockPointerValues where
  base : Nat
  baseWidth : Nat
  baseHeight : Nat
  rowStride : Nat
  colStride : Nat
  offsetBaseX : Nat
  offsetBaseY : Nat
deriving DecidableEq

/-- The unpacking of the seven values of a block pointer struct
(`getValuesFromBlockPointerStruct`); `none` when the assertion on their number
fails. -/
def getValuesFromBlockPointerStruct (elems : List Nat) : Option BlockPointerValues :=
  if elems.length = 7 then
    some { base := elems.getD 6 0
           baseWidth := elems.getD 3 0
           baseHeight := elems.getD 2 0
           rowStride := elems.getD 4 0
           colStride := elems.getD 5 0
           offsetBaseX := elems.getD 1 0
           offsetBaseY := elems.getD 0 0 }
  else none

/-! ## Load / store / prefetch lowering, 2D tiled path -/

/-- The queries of a DPAS encoding used by the 2D tiled path:
`getWarpsPerCTA`, `getOrder`, `getWarpSize`, `getThreadsPerWarp`,
`getOpsPerChannel`, `getShapeA`, `getShapeB`, `getShapeC` and
`getDPASRepetitions` (tensor shape, operand index). -/
structure DpasLayout where
  warpsPerCTA : List Nat
  order : List Nat
  warpSize : Nat
  threadsPerWarp : List Nat
  opsPerChannel : Nat
  shapeA : List Nat
  shapeB : List Nat
  shapeC : List Nat
  getDPASRepetitions : List Nat → Nat → List Nat

/-- The encoding of a tensor type as far as the 2D tiled path looks at it: a
DPAS encoding, a dot operand encoding with its operand index and its parent
(`some` when the parent is a DPAS encoding), or any other encoding. -/
inductive Encoding where
  | dpas (layout : DpasLayout)
  | dotOperand (opIdx : Nat) (parent : Option DpasLayout)
  | other

/-- Modelled from the spec: the helper `hasDotDpasEncoding` of the Intel
`Utility.h` (not part of this file): the tensor carries a dot operand encoding
whose parent is a DPAS encoding. -/
def hasDotDpasEncoding : Encoding → Bool
  | .dotOperand _ (some _) => true
  | _ => false

/-- Modelled from the spec: the helper `hasDpasEncoding` of the Intel
`Utility.h` (not part of this file): the tensor carries a DPAS encoding. -/
def hasDpasEncoding : Encoding → Bool
  | .dpas _ => true
  | _ => false

/-- The block load issued by `rewriteTensorPointerLoad` for the repetition
`(outer, k)`.  The offsets are computed in `i32` arithmetic, so every product
and sum is reduced modulo `2 ^ 32`. -/
def tensorPointerBlockLoad (opIdx elemBits : Nat) (elemsPerInstr : List Nat)
    (outerDimWarpId outerDimWarpNum : Nat) (bp : BlockPointerValues) (outer k : Nat) :
    BlockLoad :=
  let isOperandA := opIdx == 0
  let offsetX :=
    if isOperandA then k * elemsPerInstr.getD 1 0 % 2 ^ 32
    else (outerDimWarpId * (elemsPerInstr.getD opIdx 0 % 2 ^ 32) % 2 ^ 32 +
      outer * outerDimWarpNum * elemsPerInstr.getD opIdx 0 % 2 ^ 32) % 2 ^ 32
  let offsetY :=
    if isOperandA then
      (outerDimWarpId * (elemsPerInstr.getD opIdx 0 % 2 ^ 32) % 2 ^ 32 +
        outer * outerDimWarpNum * elemsPerInstr.getD opIdx 0 % 2 ^ 32) % 2 ^ 32
    else k * elemsPerInstr.getD 0 0 % 2 ^ 32
  let offsetX := (offsetX + bp.offsetBaseX) % 2 ^ 32
  let offsetY := (offsetY + bp.offsetBaseY) % 2 ^ 32
  let elemSizeInBits := elemBits
  let elemSizeInBytes := elemSizeInBits / 8
  { ptr := bp.base
    baseWidth := bp.baseWidth % 2 ^ 32 * elemSizeInBytes % 2 ^ 32
    baseHeight := bp.baseHeight % 2 ^ 32
    basePitch := bp.rowStride % 2 ^ 32 * elemSizeInBytes % 2 ^ 32
    x := offsetX
    y := offsetY
    elemSizeInBits := elemSizeInBits
    tileWidth := elemsPerInstr.getD 1 0
    tileHeight := elemsPerInstr.getD 0 0
    vBlocks := 1
    transpose := false
    vnniTransform := !isOperandA && elemBits != 32 }

/-- The lowering of a load through a block pointer
(`LoadOpConversion::rewriteTensorPointerLoad`) for the lane `env`: it declines
unless the result tensor has a dot-operand-of-DPAS encoding, and otherwise
issues one block load per repetition `(outer, k)` and replaces the operation. -/
def rewriteTensorPointerLoad (encoding : Encoding) (tensorShape : List Nat) (elemBits : Nat)
    (blockPtrElems : List Nat) (env : LaneEnv) (rewriter : Rewriter) :
    Except Fatal (LogicalResult × Rewriter) :=
  match encoding with
  | .dotOperand opIdx (some dpasLayout) =>
    let numReps := dpasLayout.getDPASRepetitions tensorShape opIdx
    let warpsPerCTA := dpasLayout.warpsPerCTA
    let order := dpasLayout.order
    let threadsPerWarp := dpasLayout.warpSize
    let warpId := env.tid / threadsPerWarp
    let multiDimWarpId := env.delinearize warpId warpsPerCTA order
    let isOperandA := opIdx == 0
    let operandShape := if isOperandA then dpasLayout.shapeA else dpasLayout.shapeB
    let elemsPerInstr := [operandShape.getD 0 0, operandShape.getD 1 0]
    let outerDimWarpNum :=
      min (warpsPerCTA.getD opIdx 0) (ceil (tensorShape.getD opIdx 0) (elemsPerInstr.getD opIdx 0))
    let outerDimWarpId := multiDimWarpId.getD opIdx 0 % outerDimWarpNum
    match getValuesFromBlockPointerStruct blockPtrElems with
    | none => .error .unexpectedBlockPointerSize
    | some bp =>
      let numRepOuter := numReps.getD opIdx 0
      let numRepK := numReps.getD (if opIdx = 0 then 1 else 0) 0
      let loads := (List.range numRepOuter).flatMap fun outer =>
        (List.range numRepK).map fun k =>
          tensorPointerBlockLoad opIdx elemBits elemsPerInstr outerDimWarpId outerDimWarpNum
            bp outer k
      .ok (.success,
        { rewriter with
          emitted := rewriter.emitted ++
            loads.map fun ld => { instr := .blockLoad ld, guarded := false }
          status := .replaced .blockLoadResults })
  | _ => .ok (.failure, rewriter)

/-- The block store issued by `rewriteTensorPointerStore` for the repetition
`(m, n)`.  The strides are cast to `unsigned` and the offsets are computed in
`i32` arithmetic, so every product and sum is reduced modulo `2 ^ 32`. -/
def tensorPointerBlockStore (elemBits : Nat) (elemsPerInstr numReps multiDimWarpId : List Nat)
    (elemsPerLane : Nat) (bp : BlockPointerValues) (vals : List Nat) (m n : Nat) : BlockStore :=
  let elemSizeInBits := elemBits
  let elemSizeInBytes := elemSizeInBits / 8
  let baseWidth := bp.baseWidth % 2 ^ 32 * elemSizeInBytes % 2 ^ 32
  let basePitch := bp.rowStride % 2 ^ 32 * elemSizeInBytes % 2 ^ 32
  let replicaStride := [elemsPerInstr.getD 0 0 % 2 ^ 32, elemsPerInstr.getD 1 0 % 2 ^ 32]
  let warpStride := [numReps.getD 0 0 * elemsPerInstr.getD 0 0 % 2 ^ 32,
    numReps.getD 1 0 * elemsPerInstr.getD 1 0 % 2 ^ 32]
  let dimWarpId0 := multiDimWarpId.getD 0 0 * warpStride.getD 0 0 % 2 ^ 32
  let dimWarpId1 := multiDimWarpId.getD 1 0 * warpStride.getD 1 0 % 2 ^ 32
  let warpId0Offset := (dimWarpId0 + bp.offsetBaseY) % 2 ^ 32
  let warpId1Offset := (dimWarpId1 + bp.offsetBaseX) % 2 ^ 32
  let offsetY := (warpId0Offset + m * replicaStride.getD 0 0 % 2 ^ 32) % 2 ^ 32
  let offsetX := (warpId1Offset + n * replicaStride.getD 1 0 % 2 ^ 32) % 2 ^ 32
  let valOffset := (m * numReps.getD 1 0 + n) * elemsPerLane
  { ptr := bp.base
    baseWidth := baseWidth
    baseHeight := bp.baseHeight % 2 ^ 32
    basePitch := basePitch
    x := offsetX
    y := offsetY
    elemSizeInBits := elemSizeInBits
    tileWidth := elemsPerInstr.getD 1 0
    tileHeight := elemsPerInstr.getD 0 0
    vBlocks := 1
    transpose := false
    vnniTransform := false
    storedVal := (List.range elemsPerLane).map fun i => vals.getD (valOffset + i) 0 }

/-- The lowering of a store through a block pointer
(`StoreOpConversion::rewriteTensorPointerStore`) for the lane `env`: it
declines unless the value tensor has a DPAS encoding, and otherwise issues one
block store per repetition `(m, n)` and erases the operation.  `numElems` is
the per-lane element count of the tensor type and `vals` the unpacked values. -/
def rewriteTensorPointerStore (encoding : Encoding) (tensorShape : List Nat) (elemBits : Nat)
    (numElems : Nat) (blockPtrElems vals : List Nat) (env : LaneEnv) (rewriter : Rewriter) :
    Except Fatal (LogicalResult × Rewriter) :=
  match encoding with
  | .dpas dpasLayout =>
    let elemsPerInstr := dpasLayout.shapeC
    let warpsPerCTA := dpasLayout.warpsPerCTA
    let numReps := dpasLayout.getDPASRepetitions tensorShape 2
    let order := dpasLayout.order
    let threadsPerWarp := dpasLayout.warpSize
    let warpId := env.tid / threadsPerWarp
    let multiDimWarpId := env.delinearize warpId warpsPerCTA order
    let elemsPerLane := elemsPerInstr.foldl (· * ·) 1 / threadsPerWarp
    match getValuesFromBlockPointerStruct blockPtrElems with
    | none => .error .unexpectedBlockPointerSize
    | some bp =>
      if vals.length ≠ numElems then .error .unexpectedValueCount
      else
        let stores := (List.range (numReps.getD 0 0)).flatMap fun m =>
          (List.range (numReps.getD 1 0)).map fun n =>
            tensorPointerBlockStore elemBits elemsPerInstr numReps multiDimWarpId elemsPerLane
              bp vals m n
        .ok (.success,
          { rewriter with
            emitted := rewriter.emitted ++
              stores.map fun st => { instr := .blockStore st, guarded := false }
            status := .erased })
  | _ => .ok (.failure, rewriter)

/-- The lowering of a prefetch (`PrefetchOpConversion::matchAndRewrite`) for
the warp with coordinate `multiDimWarpId`: a prefetch through a tensor pointer
issues its block prefetches and erases the operation; a prefetch on a regular
pointer is unreachable. -/
def prefetchMatchAndRewrite (isTensorPointer : Bool) (fuel : Nat) (tensorShape : List Nat)
    (elemBits numWarps : Nat) (multiDimWarpId : List Nat) (rewriter : Rewriter) :
    Except Fatal (LogicalResult × Rewriter) :=
  if isTensorPointer then
    match rewriteTensorPointerPrefetch fuel tensorShape elemBits numWarps multiDimWarpId with
    | none => .error .plannerDidNotReturn
    | some prefetches =>
      .ok (.success,
        { rewriter with
          emitted := rewriter.emitted ++
            prefetches.map fun pf => { instr := .blockPrefetch pf, guarded := false }
          status := .erased })
  else .error .unexpectedRegularPtrPrefetch

/-! ## Atomic lowering: emitted instructions -/

/-- The barrier helper `createBarrier`: it asserts that the module has one CTA
and emits one `barrier()`. -/
def createBarrier (rewriter : Rewriter) (numCTAs : Nat) : Except Fatal Rewriter :=
  if numCTAs = 1 then .ok (rewriter.create .barrier false)
  else .error .expectingNumCTAOne

/-- The vector size of the compare-and-swap lowering: `getVectorSize(ptr)`,
capped for a tensor by 2 for an `f16` value type and by 1 otherwise. -/
def atomicCASVectorSize (isTensor : Bool) (vec : Nat) (valIsF16 : Bool) : Nat :=
  if isTensor then min vec (if valIsF16 then 2 else 1) else vec

/-- The vector size of the read-modify-write lowering: `getVectorSize(ptr)`,
capped for a tensor by `maxVecSize = valueElemNBits / valBitWidth` for an `f16`
value type and by 1 otherwise. -/
def atomicRMWVectorSize (isTensor : Bool) (vec valueElemNBits valBitWidth : Nat)
    (valIsF16 : Bool) : Nat :=
  if isTensor then min vec (if valIsF16 then valueElemNBits / valBitWidth else 1) else vec

/-- One pass through the loop body of `AtomicCASOpConversion::matchAndRewrite`:
the width assertion, the predicated compare-and-swap and, for a scalar, the
broadcast through the scratch location, which replaces the operation. -/
def atomicCASIteration (isTensor : Bool) (valueElemNBits numCTAs : Nat) (rewriter : Rewriter) :
    Except Fatal Rewriter :=
  if valueElemNBits = 32 ∨ valueElemNBits = 64 then
    let rewriter := rewriter.create .atomicCmpXchg true
    if isTensor then .ok rewriter
    else do
      let rewriter ← createBarrier rewriter numCTAs
      let rewriter := rewriter.create .storeShared true
      let rewriter ← createBarrier rewriter numCTAs
      let rewriter := rewriter.create .loadShared false
      let rewriter ← createBarrier rewriter numCTAs
      .ok { rewriter with status := .replaced .scratchLoad }
  else .error .unexpectedWidth

/-- The loop `for (i = 0; i < elemsPerThread; i += vec)` of the
compare-and-swap lowering, `count` passes. -/
def atomicCASLoop (isTensor : Bool) (valueElemNBits numCTAs : Nat) :
    Nat → Rewriter → Except Fatal Rewriter
  | 0, rewriter => .ok rewriter
  | count + 1, rewriter => do
    let rewriter ← atomicCASIteration isTensor valueElemNBits numCTAs rewriter
    atomicCASLoop isTensor valueElemNBits numCTAs count rewriter

/-- The lowering of an atomic compare-and-swap
(`AtomicCASOpConversion::matchAndRewrite`).  `isTensor` tells whether the value
type is a ranked tensor, `elemsPerThread` is the per-lane element count (1 for
a scalar) and `vec`, at least 1, the vector size. -/
def atomicCASMatchAndRewrite (isTensor : Bool) (valueElemNBits elemsPerThread vec numCTAs : Nat)
    (rewriter : Rewriter) : Except Fatal (LogicalResult × Rewriter) := do
  let rewriter ← atomicCASLoop isTensor valueElemNBits numCTAs (ceil elemsPerThread vec) rewriter
  if isTensor then .ok (.success, { rewriter with status := .replaced .atomicResults })
  else .ok (.success, rewriter)

/-- The operations the 16-bit emulation implements: the cases of the `switch`
of `emulateFp16AtomicRmw`; every other operation is unreachable. -/
def emulationSupports : RMWOp → Bool
  | .FADD => true
  | .MAX => true
  | .MIN => true
  | .XCHG => true
  | _ => false

/-- One pass through the loop body of `AtomicRMWOpConversion::matchAndRewrite`:
the width assertion, the emulation (with its warning) for 16 bits or the
predicated native read-modify-write otherwise and, for a scalar, the broadcast
through the scratch location, which replaces the operation. -/
def atomicRMWIteration (isTensor : Bool) (atomicRmwAttr : RMWOp)
    (valueElemNBits numCTAs : Nat) (rewriter : Rewriter) : Except Fatal Rewriter :=
  if valueElemNBits = 16 ∨ valueElemNBits = 32 ∨ valueElemNBits = 64 then do
    let rewriter ←
      if valueElemNBits = 16 then
        let rewriter := { rewriter with warnings := rewriter.warnings + 1 }
        if emulationSupports atomicRmwAttr then
          Except.ok (rewriter.create (.emulatedFp16AtomicRmw atomicRmwAttr) true)
        else Except.error Fatal.unsupportedFp16AtomicOp
      else Except.ok (rewriter.create (.atomicRMW atomicRmwAttr) true)
    if isTensor then .ok rewriter
    else do
      let rewriter := rewriter.create .storeShared true
      let rewriter ← createBarrier rewriter numCTAs
      let rewriter := rewriter.create .loadShared false
      let rewriter ← createBarrier rewriter numCTAs
      .ok { rewriter with status := .replaced .scratchLoad }
  else .error .unexpectedWidth

/-- The loop `for (i = 0; i < elemsPerThread; i += vec)` of the
read-modify-write lowering, `count` passes. -/
def atomicRMWLoop (isTensor : Bool) (atomicRmwAttr : RMWOp) (valueElemNBits numCTAs : Nat) :
    Nat → Rewriter → Except Fatal Rewriter
  | 0, rewriter => .ok rewriter
  | count + 1, rewriter => do
    let rewriter ← atomicRMWIteration isTensor atomicRmwAttr valueElemNBits numCTAs rewriter
    atomicRMWLoop isTensor atomicRmwAttr valueElemNBits numCTAs count rewriter

/-- The lowering of an atomic read-modify-write
(`AtomicRMWOpConversion::matchAndRewrite`).  `isTensor` tells whether the value
type is a ranked tensor, `elemsPerThread` is the per-lane element count (1 for
a scalar) and `vec`, at least 1, the vector size. -/
def atomicRMWMatchAndRewrite (isTensor : Bool) (atomicRmwAttr : RMWOp)
    (valueElemNBits elemsPerThread vec numCTAs : Nat) (rewriter : Rewriter) :
    Except Fatal (LogicalResult × Rewriter) := do
  let rewriter ←
    atomicRMWLoop isTensor atomicRmwAttr valueElemNBits numCTAs (ceil elemsPerThread vec) rewriter
  if isTensor then .ok (.success, { rewriter with status := .replaced .atomicResults })
  else .ok (.success, rewriter)

/-! ## Atomic lowering: the 16-bit emulation loop (`emulateFp16AtomicRmw`) -/

/-- The low address bits `lowPtrBits = and_(intPtr, 3)` of a 64-bit address. -/
def lowPtrBits (intPtr : Nat) : Nat :=
  intPtr % 2 ^ 64 &&& 3

/-- The element index `elemIndex = trunc(i32, lshr(lowPtrBits, 1))`. -/
def elemIndex (intPtr : Nat) : Nat :=
  (lowPtrBits intPtr >>> 1) % 2 ^ 32

/-- The aligned address `alignPtr = sub(intPtr, lowPtrBits)`, in 64 bits. -/
def alignPtr (intPtr : Nat) : Nat :=
  (intPtr % 2 ^ 64 + 2 ^ 64 - lowPtrBits intPtr) % 2 ^ 64

/-- The `cmpxchg` instruction on the memory word `mem`: when the word equals
`cmp` it becomes `val`; the result is the new memory word, the word that was
loaded and the success flag. -/
def atomicCmpXchg (mem cmp val : Nat) : Nat × Nat × Bool :=
  if mem = cmp then (val, mem, true) else (mem, mem, false)

/-- The new 32-bit word of the loop body for the observed word `origValInt`:
the word is cast to a vector of two 16-bit elements, element `elemIndex` is
replaced by `f origVal rmwVal` and the vector is cast back. -/
def newValInt (f : Nat → Nat → Nat) (elemIndex rmwVal origValInt : Nat) : Nat :=
  let origValVec := bitcastIntToVec 16 2 origValInt
  let origVal := origValVec.getD elemIndex 0
  let newVal := f origVal rmwVal
  let newValVec := origValVec.set elemIndex newVal
  bitcastVecToInt 16 newValVec

/-- One pass through the body block of `emulateFp16AtomicRmw` with the
operation `f`, on the memory word `mem` at the aligned address and the observed
word `origValInt`: the new memory word and either the result passed to the end
block (`Sum.inl origVal`, the loop exits) or the word passed back to the body
block (`Sum.inr newLoaded`, the loop goes on). -/
def emulateBody (f : Nat → Nat → Nat) (elemIndex rmwVal mem origValInt : Nat) :
    Nat × (Nat ⊕ Nat) :=
  let origValVec := bitcastIntToVec 16 2 origValInt
  let origVal := origValVec.getD elemIndex 0
  let cmpxchg := atomicCmpXchg mem origValInt (newValInt f elemIndex rmwVal origValInt)
  let newLoaded := cmpxchg.2.1
  let done := cmpxchg.2.2
  if done then (cmpxchg.1, Sum.inl origVal) else (cmpxchg.1, Sum.inr newLoaded)

/-- The function applied by the emulation for the requested operation: the
cases of the `switch`.  The 16-bit floating-point addition, maximum and minimum
are parameters. -/
def emulatedOp (fadd maximum minimum : Nat → Nat → Nat) : RMWOp → Option (Nat → Nat → Nat)
  | .FADD => some fadd
  | .MAX => some maximum
  | .MIN => some minimum
  | .XCHG => some fun _ rmwVal => rmwVal
  | _ => none

/-- A lane running the emulated read-modify-write: its operation, its address
(whose low bits select the half of the aligned word) and its operand. -/
structure RmwLane where
  f : Nat → Nat → Nat
  rmwPtr : Nat
  rmwVal : Nat

/-- Where a lane is in the code of `emulateFp16AtomicRmw`: in the header block
before its load, in the body block with the observed word, or in the end block
with its result. -/
inductive LaneState where
  | header
  | body (origValInt : Nat)
  | done (result : Nat)
deriving DecidableEq

/-- The shared 32-bit word, which is the word at the aligned address common to
the lanes, and the states of the lanes. -/
structure SharedState where
  mem : Nat
  lanes : List LaneState
deriving DecidableEq

/-- The next atomic action of a lane on the shared word: the load of the
header block, one pass through the body block, or nothing in the end block. -/
def laneStep (lane : RmwLane) (mem : Nat) : LaneState → Nat × LaneState
  | .header => (mem, .body mem)
  | .body origValInt =>
    match emulateBody lane.f (elemIndex lane.rmwPtr) lane.rmwVal mem origValInt with
    | (mem, Sum.inl origVal) => (mem, .done origVal)
    | (mem, Sum.inr newLoaded) => (mem, .body newLoaded)
  | .done result => (mem, .done result)

/-- Lane `k` takes its next atomic action. -/
def systemStep (lanes : List RmwLane) (k : Nat) (s : SharedState) : SharedState :=
  match lanes[k]?, s.lanes[k]? with
  | some lane, some state =>
    let (mem, state) := laneStep lane s.mem state
    { mem := mem, lanes := s.lanes.set k state }
  | _, _ => s

/-- The lanes take their atomic actions in the order of `schedule`. -/
def runSchedule (lanes : List RmwLane) (schedule : List Nat) (s : SharedState) : SharedState :=
  schedule.foldl (fun s k => systemStep lanes k s) s

/-- The read-modify-write as one indivisible operation on the word, in the
words of the specification: the half `i` of the word (half 0 the low 16 bits)
becomes `f old v` as a 16-bit value, the other half is unchanged. -/
def sequentialRmw (f : Nat → Nat → Nat) (i v w : Nat) : Nat :=
  let low := w % 2 ^ 16
  let high := w / 2 ^ 16 % 2 ^ 16
  if i = 0 then f low v % 2 ^ 16 + 2 ^ 16 * high else low + 2 ^ 16 * (f high v % 2 ^ 16)

/-- The read-modify-write of lane `k` applied to the word as one indivisible
operation. -/
def applyLane (lanes : List RmwLane) (k : Nat) (mem : Nat) : Nat :=
  match lanes[k]? with
  | some lane => sequentialRmw lane.f (lane.rmwPtr % 4 / 2) lane.rmwVal mem
  | none => mem

/-- The state in which every lane is in the header block and the shared word
is `mem`. -/
def SharedState.initial (lanes : List RmwLane) (mem : Nat) : SharedState :=
  { mem := mem, lanes := List.replicate lanes.length .header }

/-- Whether a lane has not reached the end block. -/
def LaneState.pending : LaneState → Bool
  | .done _ => false
  | _ => true

/-- The number of lanes that have not reached the end block. -/
def pendingCount (s : SharedState) : Nat :=
  s.lanes.countP LaneState.pending

/-- A bound for the number of atomic actions lane `k` still takes: a lane whose
observed word is the shared word fails its compare-and-swap only after another
pending lane has swapped, and each failure is followed by a fresh
observation. -/
def laneBudget (s : SharedState) (k : Nat) : Nat :=
  match s.lanes[k]? with
  | some .header => pendingCount s + 1
  | some (.body origValInt) =>
    if origValInt = s.mem then pendingCount s else pendingCount s + 1
  | _ => 0

/-- Two lanes on the two halves of the word at address `0x1000`: lane 0 adds
its operand to half 0 modulo `2 ^ 16`, lane 1 exchanges half 1 with its
operand. -/
def exampleRmwLanes : List RmwLane :=
  [{ f := fun origVal rmwVal => (origVal + rmwVal) % 2 ^ 16, rmwPtr := 0x1000, rmwVal := 5 },
   { f := fun _ rmwVal => rmwVal, rmwPtr := 0x1002, rmwVal := 9 }]

/-- An example DPAS layout: 2x2 warps of 16 lanes, operand tiles 8x16 (A),
16x16 (B) and 8x16 (C), and 2x2 repetitions for every operand. -/
def exampleDpasLayout : DpasLayout :=
  { warpsPerCTA := [2, 2], order := [1, 0], warpSize := 16, threadsPerWarp := [1, 16],
    opsPerChannel := 2, shapeA := [8, 16], shapeB := [16, 16], shapeC := [8, 16],
    getDPASRepetitions := fun _ _ => [2, 2] }

/-- Modelled from the spec: the delinearisation helper declared in `Utility.h`
(not part of this file), for a 2x2 grid in the order `[1, 0]`: coordinate 1 is
the index modulo 2 and coordinate 0 the rest. -/
def delinearize2x2 (linear : Nat) (_shape _order : List Nat) : List Nat :=
  [linear / 2, linear % 2]

/-- A lane of the example: thread `tid` with 16 lanes per warp. -/
def exampleLane (tid : Nat) : LaneEnv :=
  { tid := tid, clusterCTAId := 0, warpSize := 16, delinearize := delinearize2x2 }

/-- A tensor of length 2 on `scenarioLayout` (4 lanes, CTA tile 4): lanes 2
and 3 hold replicated data. -/
def replicatedTensor : RankedTensorType :=
  { shape := [2], layout := scenarioLayout }

/-! ## Theorems -/

/-! ### Helper lemmas -/

theorem foldl_and_eq_true (f : Nat → Bool) (l : List Nat) (m0 : Bool) :
    l.foldl (fun m d => m && f d) m0 = true ↔ m0 = true ∧ ∀ d ∈ l, f d = true := by
  induction l generalizing m0 with
  | nil => simp
  | cons a l ih =>
    simp only [List.foldl_cons, ih, Bool.and_eq_true, List.mem_cons, forall_eq_or_imp]
    tauto

theorem replicationLoop_eq_true (shape : List Nat) (layout : Layout)
    (wid lid : List Nat) (m0 : Bool) :
    replicationLoop shape layout wid lid m0 = true ↔
      m0 = true ∧ ∀ d, d < shape.length →
        shape.getD d 0 < layout.shapePerCTATile.getD d 0 →
        replicationTerm
          (threadDim (wid.getD d 0) (layout.threadsPerWarp.getD d 0) (lid.getD d 0))
          (layout.sizePerThread.getD d 0) (shape.getD d 0) = true := by
  have hstep : (fun (mask : Bool) (dim : Nat) =>
      if shape.getD dim 0 ≥ layout.shapePerCTATile.getD dim 0 then mask
      else
        mask && replicationTerm
          (threadDim (wid.getD dim 0) (layout.threadsPerWarp.getD dim 0) (lid.getD dim 0))
          (layout.sizePerThread.getD dim 0) (shape.getD dim 0)) =
      (fun (mask : Bool) (dim : Nat) => mask &&
        (if shape.getD dim 0 ≥ layout.shapePerCTATile.getD dim 0 then true
         else replicationTerm
          (threadDim (wid.getD dim 0) (layout.threadsPerWarp.getD dim 0) (lid.getD dim 0))
          (layout.sizePerThread.getD dim 0) (shape.getD dim 0))) := by
    funext mask dim
    split <;> simp
  unfold replicationLoop
  rw [hstep, foldl_and_eq_true]
  apply and_congr Iff.rfl
  constructor
  · intro h d hd hlt
    have := h d (List.mem_range.mpr hd)
    rw [if_neg (by omega)] at this
    exact this
  · intro h d hd
    split
    · rfl
    · next hge => exact h d (List.mem_range.mp hd) (by omega)

theorem multicastLoop_eq_true (shape : List Nat) (layout : Layout)
    (cid : List Nat) (m0 : Bool) :
    multicastLoop shape layout cid m0 = true ↔
      m0 = true ∧ ∀ d, d < shape.length →
        layout.CTAsPerCGA.getD d 0 ≠ layout.CTASplitNum.getD d 0 →
        multicastTerm (shape.getD d 0) (layout.CTASplitNum.getD d 0) (cid.getD d 0) = true := by
  have hstep : (fun (mask : Bool) (dim : Nat) =>
      if layout.CTAsPerCGA.getD dim 0 = layout.CTASplitNum.getD dim 0 then mask
      else
        mask && multicastTerm (shape.getD dim 0) (layout.CTASplitNum.getD dim 0)
          (cid.getD dim 0)) =
      (fun (mask : Bool) (dim : Nat) => mask &&
        (if layout.CTAsPerCGA.getD dim 0 = layout.CTASplitNum.getD dim 0 then true
         else multicastTerm (shape.getD dim 0) (layout.CTASplitNum.getD dim 0)
          (cid.getD dim 0))) := by
    funext mask dim
    split <;> simp
  unfold multicastLoop
  rw [hstep, foldl_and_eq_true]
  apply and_congr Iff.rfl
  constructor
  · intro h d hd hne
    have := h d (List.mem_range.mpr hd)
    rwa [if_neg hne] at this
  · intro h d hd
    split
    · rfl
    · next hne => exact h d (List.mem_range.mp hd) hne

theorem countP_lt_range (n m : Nat) (h : m ≤ n) :
    (List.range n).countP (fun c => decide (c < m)) = m := by
  induction n with
  | zero => simp at h; simp [h]
  | succ n ih =>
    rw [List.range_succ, List.countP_append]
    by_cases hm : m ≤ n
    · rw [ih hm]; simp [List.countP_cons]; omega
    · have : m = n + 1 := by omega
      subst this
      have h1 : (List.range n).countP (fun c => decide (c < n + 1)) = n := by
        rw [List.countP_eq_length.mpr]
        · simp
        · intro a ha; simp at ha ⊢; omega
      rw [h1]; simp [List.countP_cons]

theorem mul_lt_iff_lt_ceil (c spt shape : Nat) (hs : 0 < spt) :
    c * spt < shape ↔ c < ceil shape spt := by
  unfold ceil
  rw [show c < (shape + spt - 1) / spt ↔ c + 1 ≤ (shape + spt - 1) / spt from Iff.rfl,
    Nat.le_div_iff_mul_le hs, Nat.add_mul]
  omega

theorem toSigned32_of_lt (x : Nat) (h : x < 2 ^ 31) : toSigned32 x = (x : Int) := by
  unfold toSigned32
  have hmod : x % 2 ^ 32 = x := Nat.mod_eq_of_lt (by omega)
  rw [hmod, if_pos h]

/-- Below the sign bit the replication term is the comparison of the product
with the extent. -/
theorem replicationTerm_eq (c spt shape : Nat) (h1 : c * spt < 2 ^ 31) (h2 : shape < 2 ^ 31) :
    replicationTerm c spt shape = decide (c * spt < shape) := by
  unfold replicationTerm
  rw [toSigned32_of_lt _ h1, toSigned32_of_lt _ h2]
  exact decide_eq_decide.mpr Int.ofNat_lt

/-- The thread index does not wrap around below `2 ^ 32`. -/
theorem threadDim_eq (wc tpw lc : Nat) (h : wc * tpw + lc < 2 ^ 32) :
    threadDim wc tpw lc = wc * tpw + lc := by
  unfold threadDim
  rw [Nat.mod_eq_of_lt (by omega : wc * tpw < 2 ^ 32), Nat.mod_eq_of_lt h]

/-- On a ranked tensor the mask is the conjunction of the replication terms of
the dimensions below the CTA tile and, when the layout has more than one CTA,
of the multicast terms of the dimensions with `CTAsPerCGA ≠ CTASplitNum`. -/
theorem redundantDataMask_tensor_iff (tensorTy : RankedTensorType) (env : LaneEnv) :
    redundantDataMask (some tensorTy) env = true ↔
      (∀ d, d < tensorTy.shape.length →
        tensorTy.shape.getD d 0 < tensorTy.layout.shapePerCTATile.getD d 0 →
        replicationTerm
          (threadDim
            ((env.delinearize (env.tid / env.warpSize) tensorTy.layout.warpsPerCTA
              tensorTy.layout.order).getD d 0)
            (tensorTy.layout.threadsPerWarp.getD d 0)
            ((env.delinearize (env.tid % env.warpSize) tensorTy.layout.threadsPerWarp
              tensorTy.layout.order).getD d 0))
          (tensorTy.layout.sizePerThread.getD d 0) (tensorTy.shape.getD d 0) = true) ∧
      (1 < tensorTy.layout.numCTAs → ∀ d, d < tensorTy.shape.length →
        tensorTy.layout.CTAsPerCGA.getD d 0 ≠ tensorTy.layout.CTASplitNum.getD d 0 →
        multicastTerm (tensorTy.shape.getD d 0) (tensorTy.layout.CTASplitNum.getD d 0)
          ((env.delinearize env.clusterCTAId tensorTy.layout.CTAsPerCGA
            tensorTy.layout.CTAOrder).getD d 0) = true) := by
  unfold redundantDataMask
  simp only []
  split
  · next h =>
    rw [multicastLoop_eq_true, replicationLoop_eq_true]
    simp only [true_and]
    constructor
    · rintro ⟨h1, h2⟩; exact ⟨h1, fun _ => h2⟩
    · rintro ⟨h1, h2⟩; exact ⟨h1, h2 h⟩
  · next h =>
    rw [replicationLoop_eq_true]
    simp only [true_and]
    constructor
    · intro h1; exact ⟨h1, fun h' => absurd h' h⟩
    · rintro ⟨h1, _⟩; exact h1

theorem ceil_pos (m n : Nat) (hm : 0 < m) (hn : 0 < n) : 0 < ceil m n := by
  unfold ceil
  apply Nat.div_pos _ hn
  omega

theorem ceilU32_eq (m n : Nat) (h : m + n ≤ 2 ^ 32) :
    ceilU32 m n = ceilChecked m n := by
  unfold ceilU32 ceilChecked ceil
  rw [Nat.mod_eq_of_lt (by omega)]

theorem mul_ceil_lt (m n : Nat) (h : m + n ≤ 2 ^ 32) :
    n * ceil m n < 2 ^ 32 := by
  unfold ceil
  have := Nat.mul_div_le (m + n - 1) n
  omega

/-- With non-zero divisors and doublings that stay below `2 ^ 32` the loop body
doubles exactly one grid extent. -/
theorem getWarpsPerCTAStepU32_doubles (tensorShape shapePerWarp : List Nat)
    (rowColRatio colRowRatio w0 w1 : Nat)
    (h0 : shapePerWarp.getD 0 0 ≠ 0)
    (hm0 : shapePerWarp.getD 0 0 * colRowRatio % 2 ^ 32 ≠ 0)
    (hm1 : shapePerWarp.getD 1 0 * rowColRatio % 2 ^ 32 ≠ 0)
    (hw0 : w0 ≠ 0) (hw1 : w1 ≠ 0) (hd0 : w0 * 2 < 2 ^ 32) (hd1 : w1 * 2 < 2 ^ 32) :
    getWarpsPerCTAStepU32 tensorShape shapePerWarp rowColRatio colRowRatio w0 w1
        = some (w0 * 2, w1) ∨
      getWarpsPerCTAStepU32 tensorShape shapePerWarp rowColRatio colRowRatio w0 w1
        = some (w0, w1 * 2) := by
  unfold getWarpsPerCTAStepU32
  simp only [divChecked, if_neg hm0, if_neg hm1, if_neg hw0, if_neg hw1, if_neg h0,
    Option.bind_eq_bind, Option.some_bind, Nat.mod_eq_of_lt hd0, Nat.mod_eq_of_lt hd1]
  split
  · split
    · exact Or.inl rfl
    · exact Or.inr rfl
  · exact Or.inr rfl

/-- In a pass of the loop that does not break, for a warp count of at most
`2 ^ 31`, neither doubling wraps around. -/
theorem doubling_lt (numWarps w0 w1 : Nat) (hw : numWarps ≤ 2 ^ 31)
    (hw0 : 1 ≤ w0) (hw1 : 1 ≤ w1) (hlt : w0 * w1 < numWarps) :
    w0 * 2 < 2 ^ 32 ∧ w1 * 2 < 2 ^ 32 ∧ w0 * w1 * 2 < 2 ^ 32 := by
  have hle0 : w0 ≤ w0 * w1 := Nat.le_mul_of_pos_right w0 (by omega)
  have hle1 : w1 ≤ w0 * w1 := Nat.le_mul_of_pos_left w1 (by omega)
  omega

/-- More fuel does not change a result of the loop of `getWarpsPerCTA`. -/
theorem getWarpsPerCTALoopU32_fuel_succ (tensorShape shapePerWarp : List Nat)
    (numWarps rowColRatio colRowRatio : Nat) :
    ∀ fuel w0 w1 g,
      getWarpsPerCTALoopU32 tensorShape shapePerWarp numWarps rowColRatio colRowRatio
        fuel w0 w1 = some g →
      getWarpsPerCTALoopU32 tensorShape shapePerWarp numWarps rowColRatio colRowRatio
        (fuel + 1) w0 w1 = some g := by
  intro fuel
  induction fuel with
  | zero =>
    intro w0 w1 g h
    unfold getWarpsPerCTALoopU32 at h ⊢
    by_cases hdone : w0 * w1 % 2 ^ 32 ≥ numWarps
    · rw [if_pos hdone] at h ⊢; exact h
    · rw [if_neg hdone] at h; exact absurd h (by simp)
  | succ fuel ih =>
    intro w0 w1 g h
    rw [getWarpsPerCTALoopU32] at h
    rw [getWarpsPerCTALoopU32]
    by_cases hdone : w0 * w1 % 2 ^ 32 ≥ numWarps
    · rw [if_pos hdone] at h ⊢; exact h
    · rw [if_neg hdone] at h ⊢
      cases hstep :
          getWarpsPerCTAStepU32 tensorShape shapePerWarp rowColRatio colRowRatio w0 w1 with
      | none => rw [hstep] at h; exact absurd h (by simp)
      | some w =>
        obtain ⟨a, b⟩ := w
        rw [hstep] at h
        exact ih a b g h

theorem getWarpsPerCTALoopU32_fuel_le (tensorShape shapePerWarp : List Nat)
    (numWarps rowColRatio colRowRatio : Nat) (fuel fuel' w0 w1 : Nat) (g : List Nat)
    (hle : fuel ≤ fuel')
    (h : getWarpsPerCTALoopU32 tensorShape shapePerWarp numWarps rowColRatio colRowRatio
        fuel w0 w1 = some g) :
    getWarpsPerCTALoopU32 tensorShape shapePerWarp numWarps rowColRatio colRowRatio
        fuel' w0 w1 = some g := by
  induction fuel' with
  | zero =>
    have : fuel = 0 := by omega
    subst this; exact h
  | succ n ih =>
    by_cases hn : fuel ≤ n
    · exact getWarpsPerCTALoopU32_fuel_succ _ _ _ _ _ _ _ _ _ (ih hn)
    · have : fuel = n + 1 := by omega
      subst this; exact h

/-- With non-zero divisors, a warp count of at most `2 ^ 31` and enough fuel
the loop of `getWarpsPerCTA` doubles the row extent `a` times and the column
extent `b` times, where `a + b` is the least number of doublings after which
the grid total reaches the warp count. -/
theorem getWarpsPerCTALoopU32_pow (tensorShape shapePerWarp : List Nat)
    (numWarps rowColRatio colRowRatio : Nat)
    (h0 : shapePerWarp.getD 0 0 ≠ 0)
    (hm0 : shapePerWarp.getD 0 0 * colRowRatio % 2 ^ 32 ≠ 0)
    (hm1 : shapePerWarp.getD 1 0 * rowColRatio % 2 ^ 32 ≠ 0)
    (hw : numWarps ≤ 2 ^ 31) :
    ∀ fuel w0 w1, 1 ≤ w0 → 1 ≤ w1 → w0 * w1 < 2 ^ 32 → numWarps ≤ w0 * w1 * 2 ^ fuel →
      ∃ a b, getWarpsPerCTALoopU32 tensorShape shapePerWarp numWarps rowColRatio colRowRatio
          fuel w0 w1 = some [w0 * 2 ^ a, w1 * 2 ^ b] ∧
        numWarps ≤ w0 * w1 * 2 ^ (a + b) ∧
        (a + b = 0 ∨ w0 * w1 * 2 ^ (a + b - 1) < numWarps) := by
  intro fuel
  induction fuel with
  | zero =>
    intro w0 w1 _ _ hlt hle
    refine ⟨0, 0, ?_, by simpa using hle, Or.inl rfl⟩
    unfold getWarpsPerCTALoopU32
    rw [Nat.mod_eq_of_lt hlt, if_pos (by simpa using hle)]
    simp
  | succ fuel ih =>
    intro w0 w1 hw0 hw1 hlt hle
    unfold getWarpsPerCTALoopU32
    rw [Nat.mod_eq_of_lt hlt]
    by_cases hdone : w0 * w1 ≥ numWarps
    · rw [if_pos hdone]
      exact ⟨0, 0, by simp, by simpa using hdone, Or.inl rfl⟩
    · rw [if_neg hdone]
      obtain ⟨hd0, hd1, hd⟩ := doubling_lt numWarps w0 w1 hw hw0 hw1 (by omega)
      rcases getWarpsPerCTAStepU32_doubles tensorShape shapePerWarp rowColRatio colRowRatio
        w0 w1 h0 hm0 hm1 (by omega) (by omega) hd0 hd1 with hstep | hstep
      · rw [hstep]
        obtain ⟨a, b, hret, hge, hmin⟩ := ih (w0 * 2) w1 (by omega) hw1
          (by rw [show w0 * 2 * w1 = w0 * w1 * 2 by ring]; exact hd)
          (by rw [show w0 * 2 * w1 * 2 ^ fuel = w0 * w1 * 2 ^ (fuel + 1) by ring]; exact hle)
        refine ⟨a + 1, b, ?_, ?_, Or.inr ?_⟩
        · show getWarpsPerCTALoopU32 tensorShape shapePerWarp numWarps rowColRatio colRowRatio
            fuel (w0 * 2) w1 = _
          rw [hret, show w0 * 2 * 2 ^ a = w0 * 2 ^ (a + 1) by ring]
        · rw [show w0 * w1 * 2 ^ (a + 1 + b) = w0 * 2 * w1 * 2 ^ (a + b) by ring]
          exact hge
        · rw [show a + 1 + b - 1 = a + b by omega]
          rcases Nat.eq_zero_or_pos (a + b) with hz | hpos
          · rw [hz]; simp; omega
          · have hlt' : w0 * 2 * w1 * 2 ^ (a + b - 1) < numWarps := by
              rcases hmin with hz | hlt'
              · omega
              · exact hlt'
            have h2 : 2 ^ (a + b) = 2 ^ (a + b - 1) * 2 := by
              rw [← Nat.pow_succ]; congr 1; omega
            rw [h2, show w0 * w1 * (2 ^ (a + b - 1) * 2) = w0 * 2 * w1 * 2 ^ (a + b - 1) by ring]
            exact hlt'
      · rw [hstep]
        obtain ⟨a, b, hret, hge, hmin⟩ := ih w0 (w1 * 2) hw0 (by omega)
          (by rw [show w0 * (w1 * 2) = w0 * w1 * 2 by ring]; exact hd)
          (by rw [show w0 * (w1 * 2) * 2 ^ fuel = w0 * w1 * 2 ^ (fuel + 1) by ring]; exact hle)
        refine ⟨a, b + 1, ?_, ?_, Or.inr ?_⟩
        · show getWarpsPerCTALoopU32 tensorShape shapePerWarp numWarps rowColRatio colRowRatio
            fuel w0 (w1 * 2) = _
          rw [hret, show w1 * 2 * 2 ^ b = w1 * 2 ^ (b + 1) by ring]
        · rw [show w0 * w1 * 2 ^ (a + (b + 1)) = w0 * (w1 * 2) * 2 ^ (a + b) by ring]
          exact hge
        · rw [show a + (b + 1) - 1 = a + b by omega]
          rcases Nat.eq_zero_or_pos (a + b) with hz | hpos
          · rw [hz]; simp; omega
          · have hlt' : w0 * (w1 * 2) * 2 ^ (a + b - 1) < numWarps := by
              rcases hmin with hz | hlt'
              · omega
              · exact hlt'
            have h2 : 2 ^ (a + b) = 2 ^ (a + b - 1) * 2 := by
              rw [← Nat.pow_succ]; congr 1; omega
            rw [h2, show w0 * w1 * (2 ^ (a + b - 1) * 2) = w0 * (w1 * 2) * 2 ^ (a + b - 1) by ring]
            exact hlt'

/-- With non-zero divisors and a warp count of at most `2 ^ 31` the loop of
`getWarpsPerCTA` does not return while its fuel is too small for the grid total
to reach the warp count. -/
theorem getWarpsPerCTALoopU32_none (tensorShape shapePerWarp : List Nat)
    (numWarps rowColRatio colRowRatio : Nat)
    (h0 : shapePerWarp.getD 0 0 ≠ 0)
    (hm0 : shapePerWarp.getD 0 0 * colRowRatio % 2 ^ 32 ≠ 0)
    (hm1 : shapePerWarp.getD 1 0 * rowColRatio % 2 ^ 32 ≠ 0)
    (hw : numWarps ≤ 2 ^ 31) :
    ∀ fuel w0 w1, 1 ≤ w0 → 1 ≤ w1 → w0 * w1 * 2 ^ fuel < numWarps →
      getWarpsPerCTALoopU32 tensorShape shapePerWarp numWarps rowColRatio colRowRatio
        fuel w0 w1 = none := by
  intro fuel
  induction fuel with
  | zero =>
    intro w0 w1 _ _ hlt
    unfold getWarpsPerCTALoopU32
    rw [Nat.mod_eq_of_lt (by omega), if_neg (by simpa using hlt)]
  | succ fuel ih =>
    intro w0 w1 hw0 hw1 hlt
    have hpos : 1 ≤ 2 ^ (fuel + 1) := Nat.one_le_two_pow
    have hnot : w0 * w1 < numWarps := by
      have : w0 * w1 ≤ w0 * w1 * 2 ^ (fuel + 1) := Nat.le_mul_of_pos_right _ (by omega)
      omega
    obtain ⟨hd0, hd1, _⟩ := doubling_lt numWarps w0 w1 hw hw0 hw1 hnot
    rw [getWarpsPerCTALoopU32, Nat.mod_eq_of_lt (by omega), if_neg (by omega)]
    rcases getWarpsPerCTAStepU32_doubles tensorShape shapePerWarp rowColRatio colRowRatio
      w0 w1 h0 hm0 hm1 (by omega) (by omega) hd0 hd1 with hstep | hstep
    · rw [hstep]
      exact ih (w0 * 2) w1 (by omega) hw1
        (by rw [show w0 * 2 * w1 * 2 ^ fuel = w0 * w1 * 2 ^ (fuel + 1) by ring]; exact hlt)
    · rw [hstep]
      exact ih w0 (w1 * 2) hw0 (by omega)
        (by rw [show w0 * (w1 * 2) * 2 ^ fuel = w0 * w1 * 2 ^ (fuel + 1) by ring]; exact hlt)

/-- For tile extents `≥ 1` whose sum is at most `2 ^ 32` the two ratios are the
ceilings and the products of the balance quotients are positive and below
`2 ^ 32`. -/
theorem planner_ratios (t0 t1 : Nat) (ht0 : 1 ≤ t0) (ht1 : 1 ≤ t1) (ht : t0 + t1 ≤ 2 ^ 32) :
    ceilU32 t0 t1 = some (ceil t0 t1) ∧ ceilU32 t1 t0 = some (ceil t1 t0) ∧
    t0 * ceil t1 t0 % 2 ^ 32 = t0 * ceil t1 t0 ∧ t1 * ceil t0 t1 % 2 ^ 32 = t1 * ceil t0 t1 ∧
    t0 * ceil t1 t0 ≠ 0 ∧ t1 * ceil t0 t1 ≠ 0 := by
  have hrc : ceil t0 t1 ≠ 0 := Nat.pos_iff_ne_zero.mp (ceil_pos _ _ ht0 ht1)
  have hcr : ceil t1 t0 ≠ 0 := Nat.pos_iff_ne_zero.mp (ceil_pos _ _ ht1 ht0)
  have e0 : t0 ≠ 0 := by omega
  have e1 : t1 ≠ 0 := by omega
  refine ⟨?_, ?_, Nat.mod_eq_of_lt (mul_ceil_lt t1 t0 (by omega)),
    Nat.mod_eq_of_lt (mul_ceil_lt t0 t1 ht), Nat.mul_ne_zero e0 hcr, Nat.mul_ne_zero e1 hrc⟩
  · rw [ceilU32_eq t0 t1 ht]; simp [ceilChecked, e1]
  · rw [ceilU32_eq t1 t0 (by omega)]; simp [ceilChecked, e0]

/-- The planner on a 2D shape and a tile with extents `≥ 1` whose sum is at
most `2 ^ 32` is its loop started on the grid (1, 1). -/
theorem getWarpsPerCTAU32_unfold (fuel rows cols t0 t1 numWarps : Nat)
    (ht0 : 1 ≤ t0) (ht1 : 1 ≤ t1) (ht : t0 + t1 ≤ 2 ^ 32) :
    getWarpsPerCTAU32 fuel [rows, cols] [t0, t1] numWarps =
      getWarpsPerCTALoopU32 [rows, cols] [t0, t1] numWarps (ceil t0 t1) (ceil t1 t0)
        fuel 1 1 := by
  obtain ⟨hc0, hc1, _⟩ := planner_ratios t0 t1 ht0 ht1 ht
  unfold getWarpsPerCTAU32
  simp only [List.length_cons, List.length_nil, List.getD_cons_zero, List.getD_cons_succ,
    hc0, hc1, Option.bind_eq_bind, Option.some_bind]
  simp only [Nat.reduceAdd, and_self, if_true]

/-- On a 2D shape, a tile with extents `≥ 1` whose sum is at most `2 ^ 32` and a
warp count of at most `2 ^ 31` the grid of `getWarpsPerCTA` is `(2 ^ a, 2 ^ b)`
where `2 ^ (a + b)` is the least power of two that reaches the warp count; the
planner returns it for every fuel of at least `a + b` passes and for no smaller
fuel. -/
theorem getWarpsPerCTAU32_pow (rows cols t0 t1 numWarps : Nat)
    (ht0 : 1 ≤ t0) (ht1 : 1 ≤ t1) (ht : t0 + t1 ≤ 2 ^ 32) (hw : numWarps ≤ 2 ^ 31) :
    ∃ a b, (∀ fuel, getWarpsPerCTAU32 fuel [rows, cols] [t0, t1] numWarps =
        if a + b ≤ fuel then some [2 ^ a, 2 ^ b] else none) ∧
      numWarps ≤ 2 ^ (a + b) ∧ (∀ j, numWarps ≤ 2 ^ j → a + b ≤ j) := by
  obtain ⟨_, _, hp0, hp1, hn0, hn1⟩ := planner_ratios t0 t1 ht0 ht1 ht
  have h0 : [t0, t1].getD 0 0 ≠ 0 := by simp; omega
  have hm0 : [t0, t1].getD 0 0 * ceil t1 t0 % 2 ^ 32 ≠ 0 := by
    simp only [List.getD_cons_zero]; rw [hp0]; exact hn0
  have hm1 : [t0, t1].getD 1 0 * ceil t0 t1 % 2 ^ 32 ≠ 0 := by
    simp only [List.getD_cons_succ, List.getD_cons_zero]; rw [hp1]; exact hn1
  obtain ⟨a, b, hret, hge, hmin⟩ :=
    getWarpsPerCTALoopU32_pow [rows, cols] [t0, t1] numWarps (ceil t0 t1) (ceil t1 t0)
      h0 hm0 hm1 hw numWarps 1 1 (le_refl 1) (le_refl 1) (by decide)
      (by simpa using Nat.lt_two_pow numWarps |>.le)
  simp only [Nat.one_mul] at hret hge hmin
  have hleast : ∀ j, numWarps ≤ 2 ^ j → a + b ≤ j := by
    intro j hj
    rcases hmin with hz | hlt
    · omega
    · by_contra hcon
      have : 2 ^ j ≤ 2 ^ (a + b - 1) := Nat.pow_le_pow_right (by decide) (by omega)
      omega
  refine ⟨a, b, ?_, hge, hleast⟩
  intro fuel
  rw [getWarpsPerCTAU32_unfold fuel rows cols t0 t1 numWarps ht0 ht1 ht]
  by_cases hfuel : a + b ≤ fuel
  · rw [if_pos hfuel]
    have hfuel' : numWarps ≤ 2 ^ fuel :=
      le_trans hge (Nat.pow_le_pow_right (by decide) hfuel)
    obtain ⟨a', b', hret', _, _⟩ :=
      getWarpsPerCTALoopU32_pow [rows, cols] [t0, t1] numWarps (ceil t0 t1) (ceil t1 t0)
        h0 hm0 hm1 hw fuel 1 1 (le_refl 1) (le_refl 1) (by decide) (by simpa using hfuel')
    rcases Nat.le_total fuel numWarps with hle | hle
    · have := getWarpsPerCTALoopU32_fuel_le _ _ _ _ _ _ _ _ _ _ hle hret'
      rw [hret] at this
      rw [hret']; exact this.symm
    · exact getWarpsPerCTALoopU32_fuel_le _ _ _ _ _ _ _ _ _ _ hle hret
  · rw [if_neg hfuel]
    apply getWarpsPerCTALoopU32_none [rows, cols] [t0, t1] numWarps (ceil t0 t1) (ceil t1 t0)
      h0 hm0 hm1 hw fuel 1 1 (le_refl 1) (le_refl 1)
    rcases hmin with hz | hlt
    · omega
    · have : 2 ^ fuel ≤ 2 ^ (a + b - 1) := Nat.pow_le_pow_right (by decide) (by omega)
      omega

/-- Casting a vector to an integer and back gives the elements reduced to
their width. -/
theorem bitcastIntToVec_bitcastVecToInt (b : Nat) (es : List Nat) :
    bitcastIntToVec b es.length (bitcastVecToInt b es) = es.map (· % 2 ^ b) := by
  induction es with
  | nil => simp [bitcastIntToVec]
  | cons e es ih =>
    have hpos : 0 < 2 ^ b := Nat.two_pow_pos b
    have hdiv : (e % 2 ^ b + 2 ^ b * bitcastVecToInt b es) / 2 ^ b = bitcastVecToInt b es := by
      rw [Nat.add_mul_div_left _ _ hpos, Nat.div_eq_of_lt (Nat.mod_lt _ hpos), Nat.zero_add]
    have hmod : (e % 2 ^ b + 2 ^ b * bitcastVecToInt b es) % 2 ^ b = e % 2 ^ b := by
      rw [Nat.add_mul_mod_self_left, Nat.mod_mod]
    unfold bitcastIntToVec at ih ⊢
    simp only [List.length_cons, List.range_succ_eq_map, List.map_cons, List.map_map,
      bitcastVecToInt, Nat.mul_zero, Nat.pow_zero, Nat.div_one, hmod]
    congr 1
    rw [← ih]
    apply List.map_congr_left
    intro i _
    simp only [Function.comp]
    rw [show b * (i + 1) = b + b * i by ring, Nat.pow_add, ← Nat.div_div_eq_div_mul, hdiv]

theorem bitcastIntToVec_bitcastVecToInt_of_length (b n : Nat) (es : List Nat)
    (h : es.length = n) :
    bitcastIntToVec b n (bitcastVecToInt b es) = es.map (· % 2 ^ b) := by
  subst h
  exact bitcastIntToVec_bitcastVecToInt b es

/-- Unpacking the transfer vector of a group whose words hold `W * N = vec`
elements gives the elements of the group, reduced to their width. -/
theorem loadExtract_storeVecWord_getD (b vec vecStart : Nat) (valueElems : List Nat)
    (hs : storeValueElemNBits b = b) (hne : b ≠ 1)
    (hW : 0 < wordNElems b vec) (hWN : wordNElems b vec * nWords b vec = vec) :
    loadExtract b vec (storeVecWord b vec vecStart valueElems) =
      (List.range vec).map fun i => valueElems.getD (vecStart + i) 0 % 2 ^ b := by
  unfold loadExtract storeVecWord storeWord
  simp only [hs]
  apply List.map_congr_left
  intro i hi
  have hi' : i < vec := List.mem_range.mp hi
  have hfold : wordWidth b vec / b = wordNElems b vec := rfl
  rw [hfold]
  have hq : i / wordNElems b vec < nWords b vec := by
    rw [Nat.div_lt_iff_lt_mul hW, Nat.mul_comm, hWN]; exact hi'
  have hr : i % wordNElems b vec < wordNElems b vec := Nat.mod_lt _ hW
  have hinner : ((List.map (bitcastIntToVec b (wordNElems b vec))
      (List.map (fun wordIdx => bitcastVecToInt b
          (List.map (fun elemIdx => storeElem b
              (valueElems.getD (vecStart + wordIdx * wordNElems b vec + elemIdx) 0))
            (List.range (wordNElems b vec))))
        (List.range (nWords b vec)))).getD (i / wordNElems b vec) []) =
      bitcastIntToVec b (wordNElems b vec) (bitcastVecToInt b
          (List.map (fun elemIdx => storeElem b
              (valueElems.getD (vecStart + i / wordNElems b vec * wordNElems b vec + elemIdx) 0))
            (List.range (wordNElems b vec)))) := by
    rw [List.getD_eq_getElem?_getD, List.getElem?_map, List.getElem?_map,
      List.getElem?_range hq]
    simp only [Option.map_some', Option.getD_some]
  rw [hinner]
  have hlen : ((List.range (wordNElems b vec)).map fun elemIdx =>
      storeElem b (valueElems.getD
        (vecStart + i / wordNElems b vec * wordNElems b vec + elemIdx) 0)).length =
      wordNElems b vec := by simp
  rw [bitcastIntToVec_bitcastVecToInt_of_length _ _ _ hlen]
  rw [List.getD_eq_getElem?_getD, List.getElem?_map, List.getElem?_map,
    List.getElem?_range hr]
  simp only [Option.map_some', Option.getD_some, storeElem, if_neg hne]
  rw [Nat.add_assoc, Nat.div_add_mod']

/-- The widths and vector lengths of the generic path: the words of a group
hold its `vec` elements exactly. -/
theorem wordNElems_mul_nWords (b vec : Nat)
    (hb : b = 8 ∨ b = 16 ∨ b = 32 ∨ b = 64) (hvec : ∃ k, vec = 2 ^ k)
    (hle : vec * b ≤ 128) :
    0 < wordNElems b vec ∧ wordNElems b vec * nWords b vec = vec := by
  obtain ⟨k, rfl⟩ := hvec
  have hk : k ≤ 4 := by
    by_contra hk
    have h5 : 2 ^ 5 ≤ 2 ^ k := Nat.pow_le_pow_right (by decide) (by omega)
    have : 2 ^ k * b ≥ 2 ^ 5 * 8 := Nat.mul_le_mul h5 (by omega)
    omega
  have hk' : k = 0 ∨ k = 1 ∨ k = 2 ∨ k = 3 ∨ k = 4 := by omega
  rcases hb with h | h | h | h <;> subst h <;>
    rcases hk' with h | h | h | h | h <;> subst h <;>
    first
      | (exfalso; revert hle; decide)
      | decide

/-- Unpacking, as the load does, the transfer vector packed by the store gives
back the elements of the group. -/
theorem loadExtract_storeVecWord (b vec vecStart : Nat) (valueElems : List Nat)
    (hb : b = 8 ∨ b = 16 ∨ b = 32 ∨ b = 64) (hvec : ∃ k, vec = 2 ^ k)
    (hle : vec * b ≤ 128)
    (hlen : vecStart + vec ≤ valueElems.length)
    (hbits : ∀ e ∈ valueElems, e < 2 ^ b) :
    loadExtract (loadValueElemNBits b) vec (storeVecWord b vec vecStart valueElems) =
      (valueElems.drop vecStart).take vec := by
  have hl : loadValueElemNBits b = b := by
    rcases hb with h | h | h | h <;> subst h <;> rfl
  have hs : storeValueElemNBits b = b := by
    rcases hb with h | h | h | h <;> subst h <;> rfl
  have hne : b ≠ 1 := by omega
  obtain ⟨hW, hWN⟩ := wordNElems_mul_nWords b vec hb hvec hle
  rw [hl, loadExtract_storeVecWord_getD b vec vecStart valueElems hs hne hW hWN]
  apply List.ext_getElem
  · simp; omega
  · intro i h1 h2
    simp only [List.length_map, List.length_range] at h1
    have hi : vecStart + i < valueElems.length := by omega
    simp only [List.getElem_map, List.getElem_range, List.getElem_take, List.getElem_drop]
    rw [List.getD_eq_getElem?_getD, List.getElem?_eq_getElem hi, Option.getD_some]
    exact Nat.mod_eq_of_lt (hbits _ (List.getElem_mem _))

/-- Without a splat constant the fallback words of a group are the words the
store would pack from the fallback elements. -/
theorem loadOtherWords_none (b vec vecStart : Nat) (otherElems : List Nat)
    (hs : storeValueElemNBits b = b) (hne : b ≠ 1) :
    ∀ count ii, loadOtherWords b vec vecStart otherElems count ii none =
      ((List.range' ii count).map fun w => storeWord b vec vecStart w otherElems, none) := by
  intro count
  induction count with
  | zero => intro ii; simp [loadOtherWords]
  | succ n ih =>
    intro ii
    simp only [loadOtherWords, loadOtherWord, ih, List.range'_succ, List.map_cons]
    simp only [storeWord, hs, storeElem, if_neg hne, wordNElems]

/-- Every group of the load lowering is `loadGroup` at its `vecStart`, for some
value of the carried `splatVal`; without a splat constant that value is
`none`. -/
theorem loadGroups_getElem? (elemBits vec : Nat) (ptrElems : List Nat)
    (maskElems : Option (List Bool)) (other : Option (List Nat))
    (memLoad : Nat → Nat → Nat → List Nat) :
    ∀ count start splatVal g, g < count →
      ∃ sv, (splatVal = none → sv = none) ∧
        (loadGroups elemBits vec ptrElems maskElems other memLoad count start splatVal)[g]? =
          some (loadGroup elemBits vec ((start + g) * vec) ptrElems maskElems other sv
            memLoad).1 := by
  intro count
  induction count with
  | zero => intro start splatVal g hg; omega
  | succ n ih =>
    intro start splatVal g hg
    cases g with
    | zero =>
      exact ⟨splatVal, fun h => h, by simp [loadGroups]⟩
    | succ g =>
      obtain ⟨sv, hsv, hget⟩ := ih (start + 1)
        (loadGroup elemBits vec (start * vec) ptrElems maskElems other splatVal memLoad).2
        g (by omega)
      refine ⟨sv, ?_, ?_⟩
      · intro hnone
        apply hsv
        subst hnone
        cases other with
        | none => simp [loadGroup, loadOther]
        | some otherElems =>
          simp only [loadGroup, loadOther]
          have : ∀ count ii, (loadOtherWords (loadValueElemNBits elemBits) vec (start * vec)
              otherElems count ii none).2 = none := by
            intro count
            induction count with
            | zero => intro ii; rfl
            | succ m ihm => intro ii; simp only [loadOtherWords, loadOtherWord, ihm]
          exact this _ _
      · simp only [loadGroups, List.getElem?_cons_succ]
        rw [hget]
        congr 3
        ring

/-! ### C1 -/

/-- C1 as stated fails: with 2 elements per lane, 2 lanes per warp, 2 warps
(CTA tile 8) and extent 4, the coordinates 0..3 are not all unmasked and the
unmasked ones are not 4 in number. -/
theorem C1_counterexample :
    ¬ ((4 : Nat) < 2 * 2 * 2 →
        ((List.range (2 * 2)).countP (fun c => replicationTerm c 2 4) = 4 ∧
          ∀ wc lc, wc < 2 → lc < 2 →
            (replicationTerm (threadDim wc 2 lc) 2 4 = true ↔ threadDim wc 2 lc < 4))) := by
  intro h
  have hcount := (h (by decide)).1
  revert hcount
  decide

/-- C1 (amended): in a dimension whose extent is below the CTA tile
`sizePerThread * threadsPerWarp * warpsPerCTA`, the tile being at most `2 ^ 31`
(so that the signed 32-bit comparison sees the numbers themselves), the thread
coordinates `c = warpCoord * threadsPerWarp + laneCoord` whose mask term is true
are exactly the lowest `ceil(shape / sizePerThread)` ones, all of them inside
the thread grid, that many in number; with one element per lane they are the
lowest `shape` ones. -/
theorem C1_mask_lowest_owners (sizePerThread threadsPerWarp warpsPerCTA shape : Nat)
    (h : shape < sizePerThread * threadsPerWarp * warpsPerCTA)
    (hbound : sizePerThread * threadsPerWarp * warpsPerCTA ≤ 2 ^ 31) :
    (∀ wc lc, wc < warpsPerCTA → lc < threadsPerWarp →
      (threadDim wc threadsPerWarp lc = wc * threadsPerWarp + lc ∧
        threadDim wc threadsPerWarp lc < threadsPerWarp * warpsPerCTA ∧
        (replicationTerm (threadDim wc threadsPerWarp lc) sizePerThread shape = true ↔
          threadDim wc threadsPerWarp lc < ceil shape sizePerThread))) ∧
    ceil shape sizePerThread ≤ threadsPerWarp * warpsPerCTA ∧
    (List.range (threadsPerWarp * warpsPerCTA)).countP
        (fun c => replicationTerm c sizePerThread shape) = ceil shape sizePerThread ∧
    (sizePerThread = 1 → ceil shape sizePerThread = shape) := by
  have hs : 0 < sizePerThread := by
    rcases Nat.eq_zero_or_pos sizePerThread with h0 | h0
    · subst h0; simp at h
    · exact h0
  have htile : sizePerThread * threadsPerWarp * warpsPerCTA =
      threadsPerWarp * warpsPerCTA * sizePerThread := by ring
  have hle : ceil shape sizePerThread ≤ threadsPerWarp * warpsPerCTA := by
    unfold ceil
    apply Nat.le_of_lt_succ
    rw [Nat.div_lt_iff_lt_mul hs, Nat.succ_mul]
    omega
  have hgrid : threadsPerWarp * warpsPerCTA ≤ 2 ^ 31 := by
    have : threadsPerWarp * warpsPerCTA * 1 ≤ threadsPerWarp * warpsPerCTA * sizePerThread :=
      Nat.mul_le_mul_left _ hs
    omega
  have hterm : ∀ c, c < threadsPerWarp * warpsPerCTA →
      (replicationTerm c sizePerThread shape = true ↔ c < ceil shape sizePerThread) := by
    intro c hc
    have hprod : c * sizePerThread < threadsPerWarp * warpsPerCTA * sizePerThread :=
      Nat.mul_lt_mul_of_pos_right hc hs
    rw [replicationTerm_eq c sizePerThread shape (by omega) (by omega), decide_eq_true_iff]
    exact mul_lt_iff_lt_ceil _ _ _ hs
  refine ⟨?_, hle, ?_, ?_⟩
  · intro wc lc hwc hlc
    have hlt : wc * threadsPerWarp + lc < threadsPerWarp * warpsPerCTA := by
      have : (wc + 1) * threadsPerWarp ≤ warpsPerCTA * threadsPerWarp :=
        Nat.mul_le_mul_right _ hwc
      rw [Nat.add_mul] at this
      rw [Nat.mul_comm threadsPerWarp warpsPerCTA]
      omega
    have heq := threadDim_eq wc threadsPerWarp lc (by omega)
    rw [heq]
    exact ⟨rfl, hlt, hterm _ hlt⟩
  · rw [List.countP_congr (q := fun c => decide (c < ceil shape sizePerThread))]
    · exact countP_lt_range _ _ hle
    · intro c hc
      rw [decide_eq_true_iff]
      exact hterm c (List.mem_range.mp hc)
  · intro h1
    subst h1
    unfold ceil
    simp

/-- C1 (amended), at a concrete input: 2 elements per lane, 2 lanes, 2 warps,
extent 4. -/
theorem C1_mask_lowest_owners_witness :
    (∀ wc lc, wc < 2 → lc < 2 →
      (threadDim wc 2 lc = wc * 2 + lc ∧
        threadDim wc 2 lc < 2 * 2 ∧
        (replicationTerm (threadDim wc 2 lc) 2 4 = true ↔ threadDim wc 2 lc < ceil 4 2))) ∧
    ceil 4 2 ≤ 2 * 2 ∧
    (List.range (2 * 2)).countP (fun c => replicationTerm c 2 4) = ceil 4 2 ∧
    ((2 : Nat) = 1 → ceil 4 2 = 4) :=
  C1_mask_lowest_owners 2 2 2 4 (by decide) (by decide)

/-! ### C2 -/

/-- C2 as stated fails: for the extent `2 ^ 32 + 1` on the layout of the source
comment (`CTAsPerCGA = [4]`, `CTASplitNum = [2]`) the claim's
`s = min(shape, CTASplitNum)` is 2, so the cluster coordinate 1 has replica id
`1 / 2 = 0`; the code converts the extent to `unsigned` first, divides by 1 and
masks the lane off. -/
theorem C2_counterexample :
    ¬ ((multicastTerm 4294967297 2 1 = true ↔ 1 / min 4294967297 2 = 0) ∧
        (redundantDataMask (some { shape := [4294967297], layout := multicastLayout })
          (multicastLane 0 1) = true ↔ 1 / min 4294967297 2 = 0)) := by
  decide

/-- C2 (amended): on a layout with more than one CTA, in a dimension `d` with
`CTAsPerCGA[d] ≠ CTASplitNum[d]`, an extent below `2 ^ 32` and
`1 ≤ s ≤ CTAsPerCGA[d]` for `s = min(shape[d], CTASplitNum[d])`: the mask of a
lane is true iff its cluster coordinate `k` along `d` has replica id `k / s = 0`
and the terms of the other dimensions hold; a cluster coordinate `k` satisfies
the mask term of `d` iff `k / s = 0`; and for every logical block `b < s` the
only unmasked `k` with `k mod s = b` is `k = b`. -/
theorem C2_multicast_uniqueness (tensorTy : RankedTensorType) (env : LaneEnv) (d : Nat)
    (hd : d < tensorTy.shape.length)
    (hcta : 1 < tensorTy.layout.numCTAs)
    (hne : tensorTy.layout.CTAsPerCGA.getD d 0 ≠ tensorTy.layout.CTASplitNum.getD d 0)
    (hshape : tensorTy.shape.getD d 0 < 2 ^ 32)
    (hs1 : 1 ≤ min (tensorTy.shape.getD d 0) (tensorTy.layout.CTASplitNum.getD d 0))
    (hs2 : min (tensorTy.shape.getD d 0) (tensorTy.layout.CTASplitNum.getD d 0) ≤
      tensorTy.layout.CTAsPerCGA.getD d 0) :
    (redundantDataMask (some tensorTy) env = true ↔
      ((env.delinearize env.clusterCTAId tensorTy.layout.CTAsPerCGA
          tensorTy.layout.CTAOrder).getD d 0 /
        min (tensorTy.shape.getD d 0) (tensorTy.layout.CTASplitNum.getD d 0) = 0 ∧
      (∀ e, e < tensorTy.shape.length → e ≠ d →
        tensorTy.layout.CTAsPerCGA.getD e 0 ≠ tensorTy.layout.CTASplitNum.getD e 0 →
        multicastTerm (tensorTy.shape.getD e 0) (tensorTy.layout.CTASplitNum.getD e 0)
          ((env.delinearize env.clusterCTAId tensorTy.layout.CTAsPerCGA
            tensorTy.layout.CTAOrder).getD e 0) = true) ∧
      (∀ e, e < tensorTy.shape.length →
        tensorTy.shape.getD e 0 < tensorTy.layout.shapePerCTATile.getD e 0 →
        replicationTerm
          (threadDim
            ((env.delinearize (env.tid / env.warpSize) tensorTy.layout.warpsPerCTA
              tensorTy.layout.order).getD e 0)
            (tensorTy.layout.threadsPerWarp.getD e 0)
            ((env.delinearize (env.tid % env.warpSize) tensorTy.layout.threadsPerWarp
              tensorTy.layout.order).getD e 0))
          (tensorTy.layout.sizePerThread.getD e 0) (tensorTy.shape.getD e 0) = true))) ∧
    (∀ k, k < tensorTy.layout.CTAsPerCGA.getD d 0 →
      (multicastTerm (tensorTy.shape.getD d 0) (tensorTy.layout.CTASplitNum.getD d 0) k = true ↔
        k / min (tensorTy.shape.getD d 0) (tensorTy.layout.CTASplitNum.getD d 0) = 0)) ∧
    (∀ b, b < min (tensorTy.shape.getD d 0) (tensorTy.layout.CTASplitNum.getD d 0) →
      b < tensorTy.layout.CTAsPerCGA.getD d 0 ∧
      ∀ k, k < tensorTy.layout.CTAsPerCGA.getD d 0 →
        ((k % min (tensorTy.shape.getD d 0) (tensorTy.layout.CTASplitNum.getD d 0) = b ∧
            multicastTerm (tensorTy.shape.getD d 0) (tensorTy.layout.CTASplitNum.getD d 0) k
              = true) ↔ k = b)) := by
  have hterm : ∀ k, multicastTerm (tensorTy.shape.getD d 0)
      (tensorTy.layout.CTASplitNum.getD d 0) k = true ↔
      k / min (tensorTy.shape.getD d 0) (tensorTy.layout.CTASplitNum.getD d 0) = 0 := by
    intro k
    simp only [multicastTerm, splitNum, decide_eq_true_iff, Nat.mod_eq_of_lt hshape]
  refine ⟨?_, fun k _ => hterm k, ?_⟩
  · rw [redundantDataMask_tensor_iff]
    constructor
    · rintro ⟨hrep, hmc⟩
      exact ⟨(hterm _).mp (hmc hcta d hd hne), fun e he _ hne' => hmc hcta e he hne', hrep⟩
    · rintro ⟨hk, hothers, hrep⟩
      refine ⟨hrep, fun _ e he hne' => ?_⟩
      by_cases hed : e = d
      · subst hed
        exact (hterm _).mpr hk
      · exact hothers e he hed hne'
  · intro b hb
    refine ⟨by omega, ?_⟩
    intro k _
    rw [hterm, Nat.div_eq_zero_iff (by omega)]
    constructor
    · rintro ⟨hmod, hlt⟩
      rw [Nat.mod_eq_of_lt hlt] at hmod
      exact hmod
    · rintro rfl
      exact ⟨Nat.mod_eq_of_lt hb, hb⟩

/-- C2 (amended) at the example of the source comment (`CTAsPerCGA = [4]`,
`CTASplitNum = [2]`): CTA0 and CTA1 are the unmasked owners of block 0 and
block 1, CTA2 and CTA3 are masked off. -/
theorem C2_multicast_uniqueness_witness :
    redundantDataMask (some multicastTensor) (multicastLane 0 0) = true ∧
    redundantDataMask (some multicastTensor) (multicastLane 0 1) = true ∧
    redundantDataMask (some multicastTensor) (multicastLane 0 2) = false ∧
    redundantDataMask (some multicastTensor) (multicastLane 0 3) = false ∧
    (∀ k, k < 4 → (multicastTerm 256 2 k = true ↔ k / 2 = 0)) ∧
    (∀ b, b < 2 → b < 4 ∧
      ∀ k, k < 4 → ((k % 2 = b ∧ multicastTerm 256 2 k = true) ↔ k = b)) :=
  ⟨by decide, by decide, by decide, by decide,
    (C2_multicast_uniqueness multicastTensor (multicastLane 0 1) 0
      (by decide) (by decide) (by decide) (by decide) (by decide) (by decide)).2⟩

/-! ### C3 -/

/-- C3 as stated fails: with 1073741823 elements per lane, 4 lanes and 1 warp
(CTA tile 4294967292) and extent 5, the product for lane 3 is 3221225469, which
is not below 5, yet the lane is unmasked: the 32-bit product is negative as a
signed number. -/
theorem C3_counterexample :
    ¬ (redundantDataMask
          (some { shape := [5],
                  layout := { scenarioLayout with sizePerThread := [1073741823],
                                                   shapePerCTATile := [4294967292] } })
          (scenarioLane 3) = true ↔
        ∀ d, d < 1 → [5].getD d 0 < [4294967292].getD d 0 →
          ((delinearize1D (3 / 4) [1] [0]).getD d 0 * [4].getD d 0 +
              (delinearize1D (3 % 4) [4] [0]).getD d 0) * [1073741823].getD d 0 <
            [5].getD d 0) := by
  intro h
  have hmask : redundantDataMask
      (some { shape := [5],
              layout := { scenarioLayout with sizePerThread := [1073741823],
                                               shapePerCTATile := [4294967292] } })
      (scenarioLane 3) = true := by decide
  have h0 := h.mp hmask 0 (by decide) (by decide)
  revert h0
  decide

/-- C3 (amended): on a single-CTA layout, when in every dimension `d` with
`shape[d] < shapePerCTATile[d]` the product
`(warpCoord[d] * threadsPerWarp[d] + laneCoord[d]) * sizePerThread[d]` and the
extent `shape[d]` are below `2 ^ 31`, the mask of a lane is true iff in every
such dimension the product is below `shape[d]`; when no dimension is below the
CTA tile and no dimension is multicast the mask is true for every lane; in the
scenario (length 7, 4 lanes, 1 element per lane, 1 warp) lanes 0..3 are all
unmasked. -/
theorem C3_replication_rule (tensorTy : RankedTensorType) (env : LaneEnv) :
    (tensorTy.layout.numCTAs ≤ 1 →
      (∀ d, d < tensorTy.shape.length →
        tensorTy.shape.getD d 0 < tensorTy.layout.shapePerCTATile.getD d 0 →
        ((env.delinearize (env.tid / env.warpSize) tensorTy.layout.warpsPerCTA
              tensorTy.layout.order).getD d 0 * tensorTy.layout.threadsPerWarp.getD d 0 +
            (env.delinearize (env.tid % env.warpSize) tensorTy.layout.threadsPerWarp
              tensorTy.layout.order).getD d 0) *
          tensorTy.layout.sizePerThread.getD d 0 < 2 ^ 31 ∧
        tensorTy.shape.getD d 0 < 2 ^ 31) →
      (redundantDataMask (some tensorTy) env = true ↔
        ∀ d, d < tensorTy.shape.length →
          tensorTy.shape.getD d 0 < tensorTy.layout.shapePerCTATile.getD d 0 →
          ((env.delinearize (env.tid / env.warpSize) tensorTy.layout.warpsPerCTA
                tensorTy.layout.order).getD d 0 * tensorTy.layout.threadsPerWarp.getD d 0 +
              (env.delinearize (env.tid % env.warpSize) tensorTy.layout.threadsPerWarp
                tensorTy.layout.order).getD d 0) *
            tensorTy.layout.sizePerThread.getD d 0 < tensorTy.shape.getD d 0)) ∧
    ((tensorTy.layout.numCTAs ≤ 1 ∨ ∀ d, d < tensorTy.shape.length →
        tensorTy.layout.CTAsPerCGA.getD d 0 = tensorTy.layout.CTASplitNum.getD d 0) →
      (∀ d, d < tensorTy.shape.length →
        tensorTy.layout.shapePerCTATile.getD d 0 ≤ tensorTy.shape.getD d 0) →
      redundantDataMask (some tensorTy) env = true) ∧
    (∀ tid, tid < 4 → redundantDataMask (some scenarioTensor) (scenarioLane tid) = true) := by
  have hterm : ∀ wc tpw lc spt shape, (wc * tpw + lc) * spt < 2 ^ 31 → shape < 2 ^ 31 →
      (replicationTerm (threadDim wc tpw lc) spt shape = true ↔
        (wc * tpw + lc) * spt < shape) := by
    intro wc tpw lc spt shape h1 h2
    rcases Nat.eq_zero_or_pos spt with h0 | h0
    · subst h0
      rw [replicationTerm_eq _ 0 shape (by simp) h2]
      simp
    · have hc : wc * tpw + lc < 2 ^ 31 := by
        have : (wc * tpw + lc) * 1 ≤ (wc * tpw + lc) * spt := Nat.mul_le_mul_left _ h0
        omega
      rw [threadDim_eq wc tpw lc (by omega), replicationTerm_eq _ spt shape h1 h2,
        decide_eq_true_iff]
  refine ⟨?_, ?_, ?_⟩
  · intro hsingle hbound
    rw [redundantDataMask_tensor_iff]
    constructor
    · intro h d hd hlt
      exact (hterm _ _ _ _ _ (hbound d hd hlt).1 (hbound d hd hlt).2).mp (h.1 d hd hlt)
    · intro h
      refine ⟨fun d hd hlt => ?_, fun hc => absurd hc (by omega)⟩
      exact (hterm _ _ _ _ _ (hbound d hd hlt).1 (hbound d hd hlt).2).mpr (h d hd hlt)
  · intro hnm habove
    rw [redundantDataMask_tensor_iff]
    refine ⟨fun d hd hlt => absurd (habove d hd) (by omega), ?_⟩
    intro hc d hd hne
    rcases hnm with h1 | h2
    · omega
    · exact absurd (h2 d hd) hne
  · intro tid _
    rw [redundantDataMask_tensor_iff]
    refine ⟨?_, ?_⟩
    · intro d hd hlt
      have hd0 : d = 0 := by
        simp [scenarioTensor] at hd
        exact hd
      subst hd0
      simp [scenarioTensor, scenarioLayout] at hlt
    · intro hc
      simp [scenarioTensor, scenarioLayout] at hc

/-! ### C4 -/

/-- C4: for a value that is not a ranked tensor the mask of a lane is true iff
its thread id is 0 and its cluster CTA id is 0, and false for every other
(thread id, cluster CTA id) pair. -/
theorem C4_scalar_mask (env : LaneEnv) :
    (redundantDataMask none env = true ↔ env.tid = 0 ∧ env.clusterCTAId = 0) ∧
    (¬ (env.tid = 0 ∧ env.clusterCTAId = 0) → redundantDataMask none env = false) := by
  have h : redundantDataMask none env = true ↔ env.tid = 0 ∧ env.clusterCTAId = 0 := by
    simp [redundantDataMask, and_comm]
  refine ⟨h, fun hn => ?_⟩
  cases hm : redundantDataMask none env
  · rfl
  · exact absurd (h.mp hm) hn

/-! ### C5 -/

/-- What the code guarantees for the rounded offsets: both are below the row
extent `tensorShape[0]`, by which both are reduced. -/
theorem prefetchOffsets_lt_rows (tensorShape shapePerWarp warpsPerCTA multiDimWarpId : List Nat)
    (row col : Nat) (hrows : 1 ≤ tensorShape.getD 0 0 % 2 ^ 32) :
    prefetchOffsetY tensorShape shapePerWarp warpsPerCTA multiDimWarpId row
        < tensorShape.getD 0 0 % 2 ^ 32 ∧
      prefetchOffsetX tensorShape shapePerWarp warpsPerCTA multiDimWarpId col
        < tensorShape.getD 0 0 % 2 ^ 32 :=
  ⟨Nat.mod_lt _ hrows, Nat.mod_lt _ hrows⟩

/-- C6, the code at the failing input: for a 64x16 tensor of 16-bit elements
and 4 warps the planner gives tile (32, 32) and grid (2, 2), and the warp with
coordinate (0, 1) issues its one block prefetch at `x = 32`, which is not below
the column extent 16. -/
theorem C6_offsetX_reduced_by_rows :
    get2DPrefetchShapePerWarp [64, 16] 16 = [32, 32] ∧
    getWarpsPerCTA 2 [64, 16] [32, 32] 4 = some [2, 2] ∧
    rewriteTensorPointerPrefetch 2 [64, 16] 16 4 [0, 1] =
      some [{ x := 32, y := 0, elemSizeInBits := 32, tileWidth := 16, tileHeight := 32 }] ∧
    ¬ (prefetchOffsetX [64, 16] [32, 32] [2, 2] [0, 1] 0 < [64, 16].getD 1 0) := by
  decide

/-! ### C7 -/

/-- C7: for an element width `b` in {8,16,32,64} and a power-of-two vector
length `vec` with `vec * b ≤ 128`, packing the `vec` elements of the group at
`vecStart` into the transfer vector as the store lowering does and unpacking
that vector as the load lowering does yields the elements of the group, in
order, bit for bit. -/
theorem C7_vector_round_trip (b vec vecStart : Nat) (valueElems : List Nat)
    (hb : b = 8 ∨ b = 16 ∨ b = 32 ∨ b = 64) (hvec : ∃ k, vec = 2 ^ k)
    (hle : vec * b ≤ 128)
    (hlen : vecStart + vec ≤ valueElems.length)
    (hbits : ∀ e ∈ valueElems, e < 2 ^ b) :
    loadExtract (loadValueElemNBits b) vec (storeVecWord b vec vecStart valueElems) =
      (valueElems.drop vecStart).take vec :=
  loadExtract_storeVecWord b vec vecStart valueElems hb hvec hle hlen hbits

/-- C7 at a concrete input: eight 16-bit elements, four words of 32 bits. -/
theorem C7_vector_round_trip_witness :
    loadExtract (loadValueElemNBits 16) 8
        (storeVecWord 16 8 0 [1, 2, 3, 40000, 5, 65535, 7, 8]) =
      ([1, 2, 3, 40000, 5, 65535, 7, 8].drop 0).take 8 :=
  C7_vector_round_trip 16 8 0 [1, 2, 3, 40000, 5, 65535, 7, 8]
    (by decide) ⟨3, by decide⟩ (by decide) (by decide) (by decide)

/-! ### C8 -/

/-- C8: the predicated store of every vector group (group `g`, starting at
element `vecStart = g * vec`) has the guard `redundancy mask AND
maskElems[vecStart]` when a mask operand is present and the redundancy mask
alone otherwise; the two conjuncts commute. -/
theorem C8_store_guard_conjunction (valueTy : Option RankedTensorType) (env : LaneEnv)
    (elemBits vec : Nat) (ptrElems valueElems : List Nat) (maskElems : Option (List Bool))
    (g : Nat) (hg : g < ceil ptrElems.length vec) :
    ∃ st, (storeLowering valueTy env elemBits vec ptrElems valueElems maskElems)[g]? = some st ∧
      (∀ elems, maskElems = some elems →
        st.guard = (redundantDataMask valueTy env && elems.getD (g * vec) false) ∧
        st.guard = (elems.getD (g * vec) false && redundantDataMask valueTy env)) ∧
      (maskElems = none → st.guard = redundantDataMask valueTy env) := by
  have hget : (storeLowering valueTy env elemBits vec ptrElems valueElems maskElems)[g]? =
      some { guard := storeMaskVal (redundantDataMask valueTy env) maskElems (g * vec)
             addr := ptrElems.getD (g * vec) 0
             vecWord := storeVecWord elemBits vec (g * vec) valueElems
             alignment := transferAlignment (storeValueElemNBits elemBits) vec } := by
    unfold storeLowering
    simp only [List.getElem?_map, List.getElem?_range hg, Option.map_some']
  refine ⟨_, hget, ?_, ?_⟩
  · intro elems h
    subst h
    exact ⟨rfl, Bool.and_comm _ _⟩
  · intro h
    subst h
    rfl

/-- C8 at a concrete input: lane 2 of `replicatedTensor` (redundancy mask
false) storing 8-bit elements in groups of 4 under an all-true mask. -/
theorem C8_store_guard_conjunction_witness :
    ∃ st, (storeLowering (some replicatedTensor) (scenarioLane 2) 8 4
        [100, 101, 102, 103, 104, 105, 106, 107] [1, 2, 3, 4, 5, 6, 7, 8]
        (some [true, true, true, true, true, true, true, true]))[1]? = some st ∧
      (∀ elems, some [true, true, true, true, true, true, true, true] = some elems →
        st.guard = (redundantDataMask (some replicatedTensor) (scenarioLane 2) &&
          elems.getD (1 * 4) false) ∧
        st.guard = (elems.getD (1 * 4) false &&
          redundantDataMask (some replicatedTensor) (scenarioLane 2))) ∧
      (some [true, true, true, true, true, true, true, true] = none →
        st.guard = redundantDataMask (some replicatedTensor) (scenarioLane 2)) :=
  C8_store_guard_conjunction (some replicatedTensor) (scenarioLane 2) 8 4
    [100, 101, 102, 103, 104, 105, 106, 107] [1, 2, 3, 4, 5, 6, 7, 8]
    (some [true, true, true, true, true, true, true, true]) 1 (by decide)

/-! ### C9 -/

/-- C9 as stated fails: lane 2 of `replicatedTensor` holds replicated data, so
its redundancy mask is false, but the guard of its load without a mask operand
is true. -/
theorem C9_counterexample :
    ¬ (∀ lg ∈ loadLowering 32 1 [100] none none none (fun _ _ _ => [7]),
        lg.guard = redundantDataMask (some replicatedTensor) (scenarioLane 2)) := by
  decide

/-- C9 (amended): the predicated load of every vector group (group `g`,
starting at element `vecStart = g * vec`) has as its guard the explicit mask
element `maskElems[vecStart]` when a mask operand is present and the constant
true otherwise; the redundancy mask is not part of it. -/
theorem C9_load_guard (elemBits vec : Nat) (ptrElems : List Nat)
    (maskElems : Option (List Bool)) (other : Option (List Nat)) (splatConst : Option Int)
    (memLoad : Nat → Nat → Nat → List Nat)
    (g : Nat) (hg : g < ceil ptrElems.length vec) :
    ∃ lg, (loadLowering elemBits vec ptrElems maskElems other splatConst memLoad)[g]? = some lg ∧
      (∀ elems, maskElems = some elems → lg.guard = elems.getD (g * vec) false) ∧
      (maskElems = none → lg.guard = true) := by
  obtain ⟨sv, _, hget⟩ := loadGroups_getElem? elemBits vec ptrElems maskElems other memLoad
    (ceil ptrElems.length vec) 0
    (match other with
      | some _ => splatConst.map sextValue
      | none => none) g hg
  refine ⟨_, hget, ?_, ?_⟩
  · intro elems h
    subst h
    simp [loadGroup, loadPred]
  · intro h
    subst h
    simp [loadGroup, loadPred]

/-- C9 (amended) at a concrete input: a load of 8-bit elements in groups of 4
whose second group is masked off. -/
theorem C9_load_guard_witness :
    ∃ lg, (loadLowering 8 4 [100, 101, 102, 103, 104, 105, 106, 107]
        (some [true, true, true, true, false, false, false, false]) none none
        (fun _ _ _ => [0]))[1]? = some lg ∧
      (∀ elems, some [true, true, true, true, false, false, false, false] = some elems →
        lg.guard = elems.getD (1 * 4) false) ∧
      (some [true, true, true, true, false, false, false, false] = none → lg.guard = true) :=
  C9_load_guard 8 4 [100, 101, 102, 103, 104, 105, 106, 107]
    (some [true, true, true, true, false, false, false, false]) none none
    (fun _ _ _ => [0]) 1 (by decide)

/-! ### C10 -/

theorem getD_replicate_zero (m r : Nat) : (List.replicate m 0).getD r 0 = 0 := by
  rw [List.getD_eq_getElem?_getD, List.getElem?_replicate]
  split <;> rfl

theorem bitcastIntToVec_zero (nb m : Nat) : bitcastIntToVec nb m 0 = List.replicate m 0 := by
  unfold bitcastIntToVec
  apply List.ext_getElem
  · simp
  · intro i h1 h2
    simp

/-- Unpacking an all-zero merged value gives zeros. -/
theorem loadExtract_zero (nb vec n : Nat) :
    loadExtract nb vec (List.replicate n 0) = List.replicate vec 0 := by
  unfold loadExtract
  apply List.ext_getElem
  · simp
  · intro i h1 h2
    simp only [List.getElem_map, List.getElem_range, List.getElem_replicate,
      List.map_replicate, bitcastIntToVec_zero]
    have hcases : (List.replicate n (List.replicate (wordWidth nb vec / nb) 0)).getD
        (i / (wordWidth nb vec / nb)) [] = List.replicate (wordWidth nb vec / nb) 0 ∨
        (List.replicate n (List.replicate (wordWidth nb vec / nb) 0)).getD
        (i / (wordWidth nb vec / nb)) [] = [] := by
      rw [List.getD_eq_getElem?_getD, List.getElem?_replicate]
      split
      · exact Or.inl rfl
      · exact Or.inr rfl
    rcases hcases with h | h
    · rw [h]; exact getD_replicate_zero _ _
    · rw [h]; rfl

/-- What the branch-and-merge of the generic load does outside the splat
constant path, for every vector group `g`: with a true guard the lane reads at
the group's address with the declared alignment and its results are the
unpacked elements of the transferred words; with a false guard it reads nothing
and its results are zeros when the load has no fallback operand, and the
fallback elements of the group when the fallback is not a splat constant. -/
theorem loadLowering_merge (elemBits vec : Nat) (ptrElems : List Nat)
    (maskElems : Option (List Bool)) (other : Option (List Nat)) (splatConst : Option Int)
    (memLoad : Nat → Nat → Nat → List Nat)
    (g : Nat) (hg : g < ceil ptrElems.length vec) :
    ∃ lg, (loadLowering elemBits vec ptrElems maskElems other splatConst memLoad)[g]? = some lg ∧
      (lg.guard = true →
        lg.read = some (ptrElems.getD (g * vec) 0,
          transferAlignment (loadValueElemNBits elemBits) vec) ∧
        lg.loaded = loadExtract (loadValueElemNBits elemBits) vec
          (memLoad (ptrElems.getD (g * vec) 0) (nWords (loadValueElemNBits elemBits) vec)
            (wordWidth (loadValueElemNBits elemBits) vec))) ∧
      (lg.guard = false →
        lg.read = none ∧
        (other = none → lg.loaded = List.replicate vec 0) ∧
        (∀ otherElems, other = some otherElems → splatConst = none →
          (elemBits = 8 ∨ elemBits = 16 ∨ elemBits = 32 ∨ elemBits = 64) →
          (∃ k, vec = 2 ^ k) → vec * elemBits ≤ 128 →
          g * vec + vec ≤ otherElems.length → (∀ e ∈ otherElems, e < 2 ^ elemBits) →
          lg.loaded = (otherElems.drop (g * vec)).take vec)) := by
  obtain ⟨sv, hsv, hget⟩ := loadGroups_getElem? elemBits vec ptrElems maskElems other memLoad
    (ceil ptrElems.length vec) 0
    (match other with
      | some _ => splatConst.map sextValue
      | none => none) g hg
  rw [Nat.zero_add] at hget
  refine ⟨_, hget, ?_, ?_⟩
  · intro hguard
    have hp : loadPred maskElems (g * vec) = true := hguard
    simp only [loadGroup, createPredicatedBlock, hp, if_true, and_self]
  · intro hguard
    have hp : loadPred maskElems (g * vec) = false := hguard
    refine ⟨by simp [loadGroup, createPredicatedBlock, hp], ?_, ?_⟩
    · intro hnone
      subst hnone
      simp only [loadGroup, createPredicatedBlock, hp, loadOther, Bool.false_eq_true, if_false]
      exact loadExtract_zero _ _ _
    · intro otherElems hother hsplat hb hvec hle hlen hbits
      subst hother
      subst hsplat
      have hsvn : sv = none := hsv rfl
      subst hsvn
      have hl : loadValueElemNBits elemBits = elemBits := by
        rcases hb with h | h | h | h <;> subst h <;> rfl
      have hs : storeValueElemNBits elemBits = elemBits := by
        rcases hb with h | h | h | h <;> subst h <;> rfl
      have hne : elemBits ≠ 1 := by omega
      simp only [loadGroup, createPredicatedBlock, hp, loadOther, Bool.false_eq_true,
        if_false, hl, loadOtherWords_none elemBits vec (g * vec) otherElems hs hne]
      have hwords : (List.range' 0 (nWords elemBits vec)).map
          (fun w => storeWord elemBits vec (g * vec) w otherElems) =
          storeVecWord elemBits vec (g * vec) otherElems := by
        unfold storeVecWord
        rw [hs, List.range_eq_range']
      rw [hwords]
      have := loadExtract_storeVecWord elemBits vec (g * vec) otherElems hb hvec hle hlen hbits
      rw [hl] at this
      exact this

/-- A store group whose guard is false performs no memory write: every write
of the lane comes from a predicated store whose guard is true. -/
theorem storeWrites_guarded (stores : List PredicatedStore) :
    (∀ w ∈ storeWrites stores, ∃ st ∈ stores, st.guard = true ∧ w = (st.addr, st.vecWord)) ∧
    (∀ st, st.guard = false → storeWrites [st] = []) := by
  constructor
  · intro w hw
    unfold storeWrites at hw
    rw [List.mem_flatMap] at hw
    obtain ⟨st, hst, hmem⟩ := hw
    refine ⟨st, hst, ?_⟩
    unfold createPredicatedBlock at hmem
    by_cases hguard : st.guard = true
    · rw [if_pos hguard] at hmem
      exact ⟨hguard, List.mem_singleton.mp hmem⟩
    · rw [if_neg hguard] at hmem
      exact absurd hmem (List.not_mem_nil _)
  · intro st hguard
    simp [storeWrites, createPredicatedBlock, hguard]

/-- C10, the code at the failing input: a load of four 8-bit integer elements
in one group of 4, with the guard false for the lane and the fallback the splat
constant -2 (every fallback element is the byte 254).  The lane reads nothing,
but its results are 254, 255, 255, 255 instead of four times 254; the same load
with the fallback packed element by element gives four times 254. -/
theorem C10_splat_fallback_merge :
    loadLowering 8 4 [100, 101, 102, 103] (some [false, false, false, false])
        (some [254, 254, 254, 254]) (some (-2)) (fun _ _ _ => [0]) =
      [{ guard := false, read := none, loaded := [254, 255, 255, 255] }] ∧
    loadLowering 8 4 [100, 101, 102, 103] (some [false, false, false, false])
        (some [254, 254, 254, 254]) none (fun _ _ _ => [0]) =
      [{ guard := false, read := none, loaded := [254, 254, 254, 254] }] := by
  decide

/-! ### C12 -/

/-- The word parameters of a vector group for the widths and vector lengths of
the generic path. -/
theorem wordParams_facts (b vec : Nat)
    (hb : b = 8 ∨ b = 16 ∨ b = 32 ∨ b = 64) (hvec : ∃ k, vec = 2 ^ k)
    (hle : vec * b ≤ 128) :
    nWords b vec * wordWidth b vec = b * vec ∧
      transferAlignment b vec = vec * (b / 8) ∧ transferAlignment b vec ≤ 16 := by
  obtain ⟨k, rfl⟩ := hvec
  have hk : k ≤ 4 := by
    by_contra hk
    have h5 : 2 ^ 5 ≤ 2 ^ k := Nat.pow_le_pow_right (by decide) (by omega)
    have : 2 ^ k * b ≥ 2 ^ 5 * 8 := Nat.mul_le_mul h5 (by omega)
    omega
  have hk' : k = 0 ∨ k = 1 ∨ k = 2 ∨ k = 3 ∨ k = 4 := by omega
  rcases hb with h | h | h | h <;> subst h <;>
    rcases hk' with h | h | h | h | h <;> subst h <;>
    first
      | (exfalso; revert hle; decide)
      | decide

/-- The vector size of the vector-width rule times the element width is at
most 128 bits. -/
theorem vectorSize_mul_le (b contiguity : Nat) (ptrIsTensor : Bool) (maskAlign : Option Nat)
    (hb : b = 8 ∨ b = 16 ∨ b = 32 ∨ b = 64) :
    capByMaskAlignment (getVectorSize ptrIsTensor b contiguity) maskAlign * b ≤ 128 := by
  have hv : getVectorSize ptrIsTensor b contiguity * b ≤ 128 := by
    unfold getVectorSize
    cases ptrIsTensor
    · simp only [Bool.false_eq_true, if_false]; omega
    · simp only [if_true]
      have h1 : min (128 / b) contiguity ≤ 128 / b := Nat.min_le_left _ _
      have h2 : 128 / b * b ≤ 128 := Nat.div_mul_le_self 128 b
      exact le_trans (Nat.mul_le_mul_right b h1) h2
  have hc : capByMaskAlignment (getVectorSize ptrIsTensor b contiguity) maskAlign ≤
      getVectorSize ptrIsTensor b contiguity := by
    unfold capByMaskAlignment
    cases maskAlign with
    | none => exact le_refl _
    | some a => exact Nat.min_le_left _ _
  exact le_trans (Nat.mul_le_mul_right b hc) hv

/-- C12: for an element width `b` in {8,16,32,64} and a power-of-two `vec`
produced by the vector-width rule (`min(128 / b, contiguity)` for a tensor
pointer, 1 for a scalar pointer, capped by the mask alignment when a mask is
present), the generic load and store have `nWords * width = b * vec ≤ 128` and
`wordNElems * nWords = vec`; the declared alignment `nWords * width / 8` is the
byte size `vec * (b / 8)` of the vector group and at most 16; and the assertion
`wordNElems * nWords * numVecs == numElems` holds when `vec` divides the
per-lane element count. -/
theorem C12_alignment_is_group_size (b contiguity vec numElems : Nat) (ptrIsTensor : Bool)
    (maskAlign : Option Nat)
    (hb : b = 8 ∨ b = 16 ∨ b = 32 ∨ b = 64)
    (hrule : vec = capByMaskAlignment (getVectorSize ptrIsTensor b contiguity) maskAlign)
    (hvec : ∃ k, vec = 2 ^ k) :
    loadValueElemNBits b = b ∧ storeValueElemNBits b = b ∧
    nWords b vec * wordWidth b vec = b * vec ∧ b * vec ≤ 128 ∧
    wordNElems b vec * nWords b vec = vec ∧
    transferAlignment b vec = vec * (b / 8) ∧ transferAlignment b vec ≤ 16 ∧
    (vec ∣ numElems → wordNElems b vec * nWords b vec * (numElems / vec) = numElems) := by
  have hle : vec * b ≤ 128 := by
    rw [hrule]; exact vectorSize_mul_le b contiguity ptrIsTensor maskAlign hb
  obtain ⟨_, hWN⟩ := wordNElems_mul_nWords b vec hb hvec hle
  obtain ⟨h1, h2, h3⟩ := wordParams_facts b vec hb hvec hle
  refine ⟨?_, ?_, h1, by rw [Nat.mul_comm]; exact hle, hWN, h2, h3, ?_⟩
  · rcases hb with h | h | h | h <;> subst h <;> rfl
  · rcases hb with h | h | h | h <;> subst h <;> rfl
  · intro hdvd
    rw [hWN]
    exact Nat.mul_div_cancel' hdvd

/-- C12 at a concrete input: 16-bit elements, contiguity 16, mask alignment 4,
8 elements per lane. -/
theorem C12_alignment_is_group_size_witness :
    loadValueElemNBits 16 = 16 ∧ storeValueElemNBits 16 = 16 ∧
    nWords 16 4 * wordWidth 16 4 = 16 * 4 ∧ 16 * 4 ≤ 128 ∧
    wordNElems 16 4 * nWords 16 4 = 4 ∧
    transferAlignment 16 4 = 4 * (16 / 8) ∧ transferAlignment 16 4 ≤ 16 ∧
    (4 ∣ 8 → wordNElems 16 4 * nWords 16 4 * (8 / 4) = 8) :=
  C12_alignment_is_group_size 16 16 4 8 true (some 4) (by decide) (by decide) ⟨2, by decide⟩

/-! ### C13 -/

/-- C13 as stated fails: for 3 warps (16x16 tensor, tile (16, 32)) the returned
grid does not have the total 3. -/
theorem C13_counterexample :
    ¬ (∃ r c, getWarpsPerCTA 2 [16, 16] [16, 32] 3 = some [r, c] ∧ r * c = 3) := by
  rintro ⟨r, c, h, hrc⟩
  have hval : getWarpsPerCTA 2 [16, 16] [16, 32] 3 = some [1, 4] := by decide
  rw [hval] at h
  simp only [Option.some.injEq, List.cons.injEq, and_true] at h
  obtain ⟨h1, h2⟩ := h
  subst h1
  subst h2
  exact absurd hrc (by decide)

/-- C13 (amended): for a 2D tensor shape, a per-warp tile shape with entries
`≥ 1` whose sum is at most `2 ^ 32` and a warp count `numWarps ≤ 2 ^ 31`,
`getWarpsPerCTA` returns a grid `(r, c)` (the same for every fuel `f` with
`numWarps ≤ 2 ^ f`) whose total `r * c` is the least power of two that is
`≥ numWarps`; it is `numWarps` when `numWarps` is a power of two. -/
theorem C13_warp_grid_total (rows cols t0 t1 numWarps : Nat)
    (ht0 : 1 ≤ t0) (ht1 : 1 ≤ t1) (ht : t0 + t1 ≤ 2 ^ 32) (hw : numWarps ≤ 2 ^ 31) :
    ∃ r c k, (∀ fuel, numWarps ≤ 2 ^ fuel →
        getWarpsPerCTA fuel [rows, cols] [t0, t1] numWarps = some [r, c]) ∧
      r * c = 2 ^ k ∧ numWarps ≤ 2 ^ k ∧ (∀ j, numWarps ≤ 2 ^ j → k ≤ j) ∧
      ((∃ j, numWarps = 2 ^ j) → r * c = numWarps) := by
  obtain ⟨a, b, hret, hge, hleast⟩ :=
    getWarpsPerCTAU32_pow rows cols t0 t1 numWarps ht0 ht1 ht hw
  refine ⟨2 ^ a, 2 ^ b, a + b, ?_, (Nat.pow_add 2 a b).symm, hge, hleast, ?_⟩
  · intro fuel hfuel
    show getWarpsPerCTAU32 fuel [rows, cols] [t0, t1] numWarps = _
    rw [hret fuel, if_pos (hleast fuel hfuel)]
  · rintro ⟨j, hj⟩
    rw [← Nat.pow_add, hj]
    have h1 : a + b ≤ j := hleast j (by rw [hj])
    have h2 : j ≤ a + b := by
      rw [hj] at hge
      exact (Nat.pow_le_pow_iff_right (by decide)).mp hge
    rw [show a + b = j by omega]

/-- C13 (amended) at a concrete input: 16x16 tensor, tile (16, 32), 3 warps. -/
theorem C13_warp_grid_total_witness :
    ∃ r c k, (∀ fuel, 3 ≤ 2 ^ fuel →
        getWarpsPerCTA fuel [16, 16] [16, 32] 3 = some [r, c]) ∧
      r * c = 2 ^ k ∧ 3 ≤ 2 ^ k ∧ (∀ j, 3 ≤ 2 ^ j → k ≤ j) ∧
      ((∃ j, 3 = 2 ^ j) → r * c = 3) :=
  C13_warp_grid_total 16 16 16 32 3 (by decide) (by decide) (by decide) (by decide)

/-! ### C14 -/

/-- C14 as stated fails: for a 16x16 tensor of 16-bit elements the per-warp
tile shape is not (16, 16). -/
theorem C14_counterexample :
    ¬ (get2DPrefetchShapePerWarp [16, 16] 16 = [16, 16] ∧
        (getWarpsPerCTA 2 [16, 16] (get2DPrefetchShapePerWarp [16, 16] 16) 4 = some [1, 4] ∨
          getWarpsPerCTA 2 [16, 16] (get2DPrefetchShapePerWarp [16, 16] 16) 4 = some [4, 1])) := by
  decide

/-- C14 (amended): for a 16x16 tensor of 16-bit elements and warp count 4 the
tiling planner yields the per-warp tile shape (16, 32) and, for every fuel of
at least 2 doublings, the warp grid (1, 4). -/
theorem C14_planner_scenario :
    get2DPrefetchShapePerWarp [16, 16] 16 = [16, 32] ∧
    ∀ fuel, 2 ≤ fuel →
      getWarpsPerCTA fuel [16, 16] (get2DPrefetchShapePerWarp [16, 16] 16) 4 = some [1, 4] := by
  refine ⟨by decide, ?_⟩
  intro fuel hfuel
  have htile : get2DPrefetchShapePerWarp [16, 16] 16 = [16, 32] := by decide
  have h2 : getWarpsPerCTALoopU32 [16, 16] [16, 32] 4 1 2 2 1 1 = some [1, 4] := by decide
  have := getWarpsPerCTALoopU32_fuel_le [16, 16] [16, 32] 4 1 2 2 fuel 1 1 [1, 4] hfuel h2
  rw [htile]
  unfold getWarpsPerCTA getWarpsPerCTAU32
  simp only [List.length_cons, List.length_nil, and_self, if_true]
  have hc1 : ceilU32 ([16, 32].getD 0 0) ([16, 32].getD 1 0) = some 1 := by decide
  have hc2 : ceilU32 ([16, 32].getD 1 0) ([16, 32].getD 0 0) = some 2 := by decide
  rw [hc1, hc2]
  exact this

/-! ### C15 -/

/-- C15 as stated fails: for `2 ^ 32 + 1` rows the row count is converted to
`unsigned` before the minimum is taken, and the tile has 1 row, not
`min(rows, 32) = 32`. -/
theorem C15_counterexample :
    ¬ (get2DPrefetchShapePerWarp [4294967297, 16] 16 =
        [min 4294967297 32, 64 / (16 / 8)]) := by
  decide

/-- C15 (amended): for a 2D tensor with `1 ≤ rows < 2 ^ 32` and an element
width in {8,16,32,64}, `get2DPrefetchShapePerWarp` returns
`(min(rows, 32), 64 / elemBytes)`; one tile row is at most 64 bytes, the tile
has at most 32 rows and at most `rows` rows, and the whole tile is at most 2048
bytes. -/
theorem C15_tile_shape_rule (rows cols elemBits : Nat) (hr : 1 ≤ rows) (hrows : rows < 2 ^ 32)
    (hb : elemBits = 8 ∨ elemBits = 16 ∨ elemBits = 32 ∨ elemBits = 64) :
    get2DPrefetchShapePerWarp [rows, cols] elemBits = [min rows 32, 64 / (elemBits / 8)] ∧
    1 ≤ min rows 32 ∧ 1 ≤ 64 / (elemBits / 8) ∧
    64 / (elemBits / 8) * (elemBits / 8) ≤ 64 ∧
    min rows 32 ≤ 32 ∧ min rows 32 ≤ rows ∧
    min rows 32 * (64 / (elemBits / 8)) * (elemBits / 8) ≤ 2048 := by
  have htile : get2DPrefetchShapePerWarp [rows, cols] elemBits =
      [min rows 32, 64 / (elemBits / 8)] := by
    show [min (rows % 2 ^ 32) 32, 64 / (elemBits / 8)] = _
    rw [Nat.mod_eq_of_lt hrows]
  refine ⟨htile, by omega, ?_, ?_, by omega, by omega, ?_⟩
  · rcases hb with h | h | h | h <;> subst h <;> decide
  · exact Nat.div_mul_le_self 64 (elemBits / 8)
  · have h1 : 64 / (elemBits / 8) * (elemBits / 8) ≤ 64 := Nat.div_mul_le_self 64 (elemBits / 8)
    have h2 : min rows 32 ≤ 32 := by omega
    calc min rows 32 * (64 / (elemBits / 8)) * (elemBits / 8)
        = min rows 32 * (64 / (elemBits / 8) * (elemBits / 8)) := by ring
      _ ≤ 32 * 64 := Nat.mul_le_mul h2 h1
      _ = 2048 := by norm_num

/-- C15 (amended) at a concrete input: a 100x7 tensor of 32-bit elements. -/
theorem C15_tile_shape_rule_witness :
    get2DPrefetchShapePerWarp [100, 7] 32 = [min 100 32, 64 / (32 / 8)] ∧
    1 ≤ min 100 32 ∧ 1 ≤ 64 / (32 / 8) ∧
    64 / (32 / 8) * (32 / 8) ≤ 64 ∧
    min 100 32 ≤ 32 ∧ min 100 32 ≤ 100 ∧
    min 100 32 * (64 / (32 / 8)) * (32 / 8) ≤ 2048 :=
  C15_tile_shape_rule 100 7 32 (by decide) (by decide) (by decide)

/-! ### C11 -/

/-- C11, the code at the failing inputs: for the splat constant -2 of width 8
in a group of 4 elements the direct replication path gives the fallback word
`0xFFFFFFFE`, where packing four copies of the byte `0xFE` element by element
gives `0xFEFEFEFE`; for the splat constant -2 of width 16 in a group of 2
elements it gives `0xFFFFFFFE`, where packing two copies of `0xFFFE` gives
`0xFFFEFFFE`. -/
theorem C11_splat_word_negative :
    (loadOtherWord 8 4 0 0 [254, 254, 254, 254] (some (sextValue (-2)))).1 = 0xFFFFFFFE ∧
    (loadOtherWord 8 4 0 0 [254, 254, 254, 254] none).1 = 0xFEFEFEFE ∧
    bitcastVecToInt 8 (List.replicate (wordWidth 8 4 / 8) 254) = 0xFEFEFEFE ∧
    (loadOtherWord 16 2 0 0 [65534, 65534] (some (sextValue (-2)))).1 = 0xFFFFFFFE ∧
    (loadOtherWord 16 2 0 0 [65534, 65534] none).1 = 0xFFFEFFFE := by
  decide

/-! ### C16 -/

/-- C16: on the 2D tiled path a load whose result tensor has no
dot-operand-of-DPAS encoding and a store whose value tensor has no DPAS
encoding return failure with the rewriter as it was (no instruction emitted,
the operation neither replaced nor erased); whenever a lowering of the path
returns success the operation has been replaced (load) or erased (store,
prefetch). -/
theorem C16_declining_is_atomic :
    (∀ encoding tensorShape elemBits blockPtrElems env rewriter,
      hasDotDpasEncoding encoding = false →
      rewriteTensorPointerLoad encoding tensorShape elemBits blockPtrElems env rewriter =
        .ok (.failure, rewriter)) ∧
    (∀ encoding tensorShape elemBits numElems blockPtrElems vals env rewriter,
      hasDpasEncoding encoding = false →
      rewriteTensorPointerStore encoding tensorShape elemBits numElems blockPtrElems vals env
        rewriter = .ok (.failure, rewriter)) ∧
    (∀ encoding tensorShape elemBits blockPtrElems env,
      hasDotDpasEncoding encoding = false →
      rewriteTensorPointerLoad encoding tensorShape elemBits blockPtrElems env Rewriter.initial =
        .ok (.failure, { emitted := [], warnings := 0, status := .untouched })) ∧
    (∀ encoding tensorShape elemBits numElems blockPtrElems vals env,
      hasDpasEncoding encoding = false →
      rewriteTensorPointerStore encoding tensorShape elemBits numElems blockPtrElems vals env
        Rewriter.initial = .ok (.failure, { emitted := [], warnings := 0, status := .untouched })) ∧
    (∀ encoding tensorShape elemBits blockPtrElems env rewriter rewriter',
      rewriteTensorPointerLoad encoding tensorShape elemBits blockPtrElems env rewriter =
        .ok (.success, rewriter') →
      rewriter'.status = .replaced .blockLoadResults) ∧
    (∀ encoding tensorShape elemBits numElems blockPtrElems vals env rewriter rewriter',
      rewriteTensorPointerStore encoding tensorShape elemBits numElems blockPtrElems vals env
        rewriter = .ok (.success, rewriter') →
      rewriter'.status = .erased) ∧
    (∀ isTensorPointer fuel tensorShape elemBits numWarps multiDimWarpId rewriter rewriter',
      prefetchMatchAndRewrite isTensorPointer fuel tensorShape elemBits numWarps multiDimWarpId
        rewriter = .ok (.success, rewriter') →
      rewriter'.status = .erased) := by
  have hload : ∀ encoding tensorShape elemBits blockPtrElems env rewriter,
      hasDotDpasEncoding encoding = false →
      rewriteTensorPointerLoad encoding tensorShape elemBits blockPtrElems env rewriter =
        .ok (.failure, rewriter) := by
    intro encoding tensorShape elemBits blockPtrElems env rewriter h
    cases encoding with
    | dpas layout => rfl
    | other => rfl
    | dotOperand opIdx parent =>
      cases parent with
      | none => rfl
      | some layout => simp [hasDotDpasEncoding] at h
  have hstore : ∀ encoding tensorShape elemBits numElems blockPtrElems vals env rewriter,
      hasDpasEncoding encoding = false →
      rewriteTensorPointerStore encoding tensorShape elemBits numElems blockPtrElems vals env
        rewriter = .ok (.failure, rewriter) := by
    intro encoding tensorShape elemBits numElems blockPtrElems vals env rewriter h
    cases encoding with
    | dpas layout => simp [hasDpasEncoding] at h
    | other => rfl
    | dotOperand opIdx parent => rfl
  refine ⟨hload, hstore, ?_, ?_, ?_, ?_, ?_⟩
  · intro encoding tensorShape elemBits blockPtrElems env h
    exact hload encoding tensorShape elemBits blockPtrElems env Rewriter.initial h
  · intro encoding tensorShape elemBits numElems blockPtrElems vals env h
    exact hstore encoding tensorShape elemBits numElems blockPtrElems vals env Rewriter.initial h
  · intro encoding tensorShape elemBits blockPtrElems env rewriter rewriter' h
    cases hdot : hasDotDpasEncoding encoding with
    | false =>
      rw [hload _ _ _ _ _ _ hdot] at h
      simp at h
    | true =>
      cases encoding with
      | dpas layout => simp [hasDotDpasEncoding] at hdot
      | other => simp [hasDotDpasEncoding] at hdot
      | dotOperand opIdx parent =>
        cases parent with
        | none => simp [hasDotDpasEncoding] at hdot
        | some layout =>
          simp only [rewriteTensorPointerLoad] at h
          split at h
          · simp at h
          · simp only [Except.ok.injEq, Prod.mk.injEq, true_and] at h
            rw [← h]
  · intro encoding tensorShape elemBits numElems blockPtrElems vals env rewriter rewriter' h
    cases hdp : hasDpasEncoding encoding with
    | false =>
      rw [hstore _ _ _ _ _ _ _ _ hdp] at h
      simp at h
    | true =>
      cases encoding with
      | other => simp [hasDpasEncoding] at hdp
      | dotOperand opIdx parent => simp [hasDpasEncoding] at hdp
      | dpas layout =>
        simp only [rewriteTensorPointerStore] at h
        split at h
        · simp at h
        · split at h
          · simp at h
          · simp only [Except.ok.injEq, Prod.mk.injEq, true_and] at h
            rw [← h]
  · intro isTensorPointer fuel tensorShape elemBits numWarps multiDimWarpId rewriter rewriter' h
    unfold prefetchMatchAndRewrite at h
    split at h
    · split at h
      · simp at h
      · simp only [Except.ok.injEq, Prod.mk.injEq, true_and] at h
        rw [← h]
    · simp at h

/-- The lowerings of the 2D tiled path do return success: on the example
layout the right-hand operand load of warp 1 issues its 4 block loads and
replaces the operation, the store issues its 4 block stores and erases it, and
the prefetch of a 64x16 tensor erases it. -/
theorem tensorPointer_lowerings_succeed :
    (∃ rewriter', rewriteTensorPointerLoad (.dotOperand 1 (some exampleDpasLayout)) [64, 64] 16
        [0, 0, 64, 64, 64, 1, 4096] (exampleLane 16) Rewriter.initial = .ok (.success, rewriter') ∧
      rewriter'.emitted.length = 4 ∧ rewriter'.status = .replaced .blockLoadResults) ∧
    (∃ rewriter', rewriteTensorPointerStore (.dpas exampleDpasLayout) [32, 64] 32 32
        [0, 0, 32, 64, 64, 1, 4096] (List.range 32) (exampleLane 16) Rewriter.initial =
          .ok (.success, rewriter') ∧
      rewriter'.emitted.length = 4 ∧ rewriter'.status = .erased) ∧
    (∃ rewriter', prefetchMatchAndRewrite true 2 [64, 16] 16 4 [0, 1] Rewriter.initial =
          .ok (.success, rewriter') ∧
      rewriter'.emitted.length = 1 ∧ rewriter'.status = .erased) :=
  ⟨⟨_, rfl, rfl, rfl⟩, ⟨_, rfl, rfl, rfl⟩, ⟨_, rfl, rfl, rfl⟩⟩

/-! ### C18 and C19: helper lemmas -/

/-- The instructions of one pass of the compare-and-swap loop. -/
theorem atomicCASIteration_ok (isTensor : Bool) (valueElemNBits numCTAs : Nat)
    (rewriter : Rewriter) (hw : valueElemNBits = 32 ∨ valueElemNBits = 64)
    (hcta : isTensor = true ∨ numCTAs = 1) :
    atomicCASIteration isTensor valueElemNBits numCTAs rewriter =
      .ok { emitted := rewriter.emitted ++
              ({ instr := .atomicCmpXchg, guarded := true } ::
                if isTensor then []
                else [{ instr := .barrier, guarded := false },
                      { instr := .storeShared, guarded := true },
                      { instr := .barrier, guarded := false },
                      { instr := .loadShared, guarded := false },
                      { instr := .barrier, guarded := false }])
            warnings := rewriter.warnings
            status := if isTensor then rewriter.status else .replaced .scratchLoad } := by
  unfold atomicCASIteration
  rw [if_pos hw]
  cases isTensor with
  | true => simp [Rewriter.create]
  | false =>
    have h1 : numCTAs = 1 := by
      rcases hcta with h | h
      · exact absurd h (by decide)
      · exact h
    subst h1
    simp [createBarrier, Rewriter.create, bind, Except.bind]

/-- The instructions of one pass of the read-modify-write loop. -/
theorem atomicRMWIteration_ok (isTensor : Bool) (atomicRmwAttr : RMWOp)
    (valueElemNBits numCTAs : Nat) (rewriter : Rewriter)
    (hw : valueElemNBits = 16 ∨ valueElemNBits = 32 ∨ valueElemNBits = 64)
    (hop : valueElemNBits = 16 → emulationSupports atomicRmwAttr = true)
    (hcta : isTensor = true ∨ numCTAs = 1) :
    atomicRMWIteration isTensor atomicRmwAttr valueElemNBits numCTAs rewriter =
      .ok { emitted := rewriter.emitted ++
              ({ instr := if valueElemNBits = 16 then .emulatedFp16AtomicRmw atomicRmwAttr
                          else .atomicRMW atomicRmwAttr,
                 guarded := true } ::
                if isTensor then []
                else [{ instr := .storeShared, guarded := true },
                      { instr := .barrier, guarded := false },
                      { instr := .loadShared, guarded := false },
                      { instr := .barrier, guarded := false }])
            warnings := rewriter.warnings + (if valueElemNBits = 16 then 1 else 0)
            status := if isTensor then rewriter.status else .replaced .scratchLoad } := by
  unfold atomicRMWIteration
  rw [if_pos hw]
  by_cases h16 : valueElemNBits = 16
  · have hs := hop h16
    cases isTensor with
    | true => simp [h16, hs, Rewriter.create, bind, Except.bind]
    | false =>
      have h1 : numCTAs = 1 := by
        rcases hcta with h | h
        · exact absurd h (by decide)
        · exact h
      subst h1
      simp [h16, hs, createBarrier, Rewriter.create, bind, Except.bind]
  · cases isTensor with
    | true => simp [h16, Rewriter.create, bind, Except.bind]
    | false =>
      have h1 : numCTAs = 1 := by
        rcases hcta with h | h
        · exact absurd h (by decide)
        · exact h
      subst h1
      simp [h16, createBarrier, Rewriter.create, bind, Except.bind]

/-- C18 as stated fails: a scalar 32-bit compare-and-swap does not emit, after
the atomic, exactly store, barrier, load, barrier with two barriers. -/
theorem C18_counterexample :
    ¬ (∃ rewriter', atomicCASMatchAndRewrite false 32 1 1 1 Rewriter.initial =
          .ok (.success, rewriter') ∧
        rewriter'.emitted.drop 1 =
          [{ instr := .storeShared, guarded := true },
           { instr := .barrier, guarded := false },
           { instr := .loadShared, guarded := false },
           { instr := .barrier, guarded := false }] ∧
        rewriter'.emitted.countP (fun e => e.instr = .barrier) = 2) := by
  rintro ⟨rewriter', h, hseq, _⟩
  have hval : atomicCASMatchAndRewrite false 32 1 1 1 Rewriter.initial =
      .ok (.success,
        { emitted := [{ instr := .atomicCmpXchg, guarded := true },
                      { instr := .barrier, guarded := false },
                      { instr := .storeShared, guarded := true },
                      { instr := .barrier, guarded := false },
                      { instr := .loadShared, guarded := false },
                      { instr := .barrier, guarded := false }]
          warnings := 0
          status := .replaced .scratchLoad }) := rfl
  rw [hval] at h
  simp only [Except.ok.injEq, Prod.mk.injEq, true_and] at h
  rw [← h] at hseq
  exact absurd hseq (by decide)

/-- C18 (amended): a scalar atomic (one element, vector size 1, one CTA) emits,
after the guarded atomic, for a read-modify-write exactly the guarded store to
the scratch location, a barrier, the unguarded load of the scratch location
and a barrier (two barriers), and for a compare-and-swap exactly a barrier, the
guarded store, a barrier, the unguarded load and a barrier (three barriers);
no barrier is guarded, and the operation is replaced by the loaded value. -/
theorem C18_scalar_broadcast_protocol (atomicRmwAttr : RMWOp) (valueElemNBits : Nat)
    (rewriter : Rewriter) :
    ((valueElemNBits = 16 ∨ valueElemNBits = 32 ∨ valueElemNBits = 64) →
      (valueElemNBits = 16 → emulationSupports atomicRmwAttr = true) →
      atomicRMWMatchAndRewrite false atomicRmwAttr valueElemNBits 1 1 1 rewriter =
        .ok (.success,
          { emitted := rewriter.emitted ++
              [{ instr := if valueElemNBits = 16 then .emulatedFp16AtomicRmw atomicRmwAttr
                          else .atomicRMW atomicRmwAttr,
                 guarded := true },
               { instr := .storeShared, guarded := true },
               { instr := .barrier, guarded := false },
               { instr := .loadShared, guarded := false },
               { instr := .barrier, guarded := false }]
            warnings := rewriter.warnings + (if valueElemNBits = 16 then 1 else 0)
            status := .replaced .scratchLoad })) ∧
    ((valueElemNBits = 32 ∨ valueElemNBits = 64) →
      atomicCASMatchAndRewrite false valueElemNBits 1 1 1 rewriter =
        .ok (.success,
          { emitted := rewriter.emitted ++
              [{ instr := .atomicCmpXchg, guarded := true },
               { instr := .barrier, guarded := false },
               { instr := .storeShared, guarded := true },
               { instr := .barrier, guarded := false },
               { instr := .loadShared, guarded := false },
               { instr := .barrier, guarded := false }]
            warnings := rewriter.warnings
            status := .replaced .scratchLoad })) ∧
    ([({ instr := .storeShared, guarded := true } : Emitted),
      { instr := .barrier, guarded := false },
      { instr := .loadShared, guarded := false },
      { instr := .barrier, guarded := false }].countP (fun e => e.instr = .barrier) = 2) ∧
    ([({ instr := .barrier, guarded := false } : Emitted),
      { instr := .storeShared, guarded := true },
      { instr := .barrier, guarded := false },
      { instr := .loadShared, guarded := false },
      { instr := .barrier, guarded := false }].countP (fun e => e.instr = .barrier) = 3) := by
  refine ⟨?_, ?_, by decide, by decide⟩
  · intro hw hop
    have hit := atomicRMWIteration_ok false atomicRmwAttr valueElemNBits 1 rewriter hw hop
      (Or.inr rfl)
    simp only [atomicRMWMatchAndRewrite, ceil, atomicRMWLoop, hit, bind, Except.bind]
    simp
  · intro hw
    have hit := atomicCASIteration_ok false valueElemNBits 1 rewriter hw (Or.inr rfl)
    simp only [atomicCASMatchAndRewrite, ceil, atomicCASLoop, hit, bind, Except.bind]
    simp

/-! ### C19 -/

theorem bitcastIntToVec_two (w : Nat) :
    bitcastIntToVec 16 2 w = [w % 2 ^ 16, w / 2 ^ 16 % 2 ^ 16] := by
  simp [bitcastIntToVec, List.range_succ]

/-- The new word of the loop body: half `elemIndex` of the observed word is
replaced by the new 16-bit value and the other half is kept. -/
theorem newValInt_halves (f : Nat → Nat → Nat) (v w : Nat) :
    newValInt f 0 v w = f (w % 2 ^ 16) v % 2 ^ 16 + 2 ^ 16 * (w / 2 ^ 16 % 2 ^ 16) ∧
    newValInt f 1 v w = w % 2 ^ 16 + 2 ^ 16 * (f (w / 2 ^ 16 % 2 ^ 16) v % 2 ^ 16) := by
  constructor
  · simp only [newValInt, bitcastIntToVec_two, List.getD_cons_zero, List.set_cons_zero,
      bitcastVecToInt, Nat.mod_mod]
    omega
  · simp only [newValInt, bitcastIntToVec_two, List.getD_cons_succ, List.getD_cons_zero,
      List.set_cons_succ, List.set_cons_zero, bitcastVecToInt, Nat.mod_mod]
    omega

theorem emulateBody_eq (f : Nat → Nat → Nat) (i v mem w : Nat) :
    emulateBody f i v mem w =
      if mem = w then (newValInt f i v w, Sum.inl ((bitcastIntToVec 16 2 w).getD i 0))
      else (mem, Sum.inr mem) := by
  unfold emulateBody atomicCmpXchg
  by_cases h : mem = w
  · simp [h]
  · simp [h]

theorem elemIndex_eq_mod (p : Nat) : elemIndex p = p % 4 / 2 := by
  unfold elemIndex lowPtrBits
  have h3 : p % 2 ^ 64 &&& 3 = p % 2 ^ 64 % 2 ^ 2 := Nat.and_pow_two_sub_one_eq_mod _ 2
  have h4 : p % 2 ^ 64 % 2 ^ 2 = p % 2 ^ 2 := Nat.mod_mod_of_dvd p (by decide)
  rw [h3, h4, Nat.shiftRight_eq_div_pow]
  omega

/-- The new word of the loop body is the word after the indivisible
read-modify-write of the specification. -/
theorem newValInt_eq_sequentialRmw (f : Nat → Nat → Nat) (p v w : Nat) :
    newValInt f (elemIndex p) v w = sequentialRmw f (p % 4 / 2) v w := by
  rw [elemIndex_eq_mod]
  have hi : p % 4 / 2 = 0 ∨ p % 4 / 2 = 1 := by omega
  rcases hi with h | h
  · rw [h, (newValInt_halves f v w).1]
    simp [sequentialRmw]
  · rw [h, (newValInt_halves f v w).2]
    simp [sequentialRmw]

theorem set_eq_self (l : List LaneState) (k : Nat) (st : LaneState) (h : l[k]? = some st) :
    l.set k st = l := by
  apply List.ext_getElem?
  intro j
  by_cases hkj : k = j
  · subst hkj
    rcases List.getElem?_eq_some.mp h with ⟨hlt, _⟩
    rw [List.getElem?_set_self hlt, h]
  · rw [List.getElem?_set_ne hkj]

/-- The atomic action of lane `k`: nothing for a lane that is out of range or in
the end block; the load for a lane in the header block; for a lane in the body
block the swap, which succeeds when the shared word is the observed one and
otherwise leaves the word and hands the lane the word it found. -/
theorem systemStep_cases (lanes : List RmwLane) (k : Nat) (s : SharedState)
    (hlen : s.lanes.length = lanes.length) :
    (systemStep lanes k s = s ∧ (s.lanes[k]? = none ∨ ∃ r, s.lanes[k]? = some (.done r))) ∨
    (s.lanes[k]? = some .header ∧
      systemStep lanes k s = { mem := s.mem, lanes := s.lanes.set k (.body s.mem) }) ∨
    (∃ w r, s.lanes[k]? = some (.body w) ∧ s.mem = w ∧
      systemStep lanes k s = { mem := applyLane lanes k s.mem, lanes := s.lanes.set k (.done r) }) ∨
    (∃ w, s.lanes[k]? = some (.body w) ∧ s.mem ≠ w ∧
      systemStep lanes k s = { mem := s.mem, lanes := s.lanes.set k (.body s.mem) }) := by
  unfold systemStep
  cases hstate : s.lanes[k]? with
  | none =>
    left
    refine ⟨?_, Or.inl rfl⟩
    split
    · next h1 h2 => exact absurd h2 (by simp)
    · rfl
  | some state =>
    have hklt : k < lanes.length := by
      rcases List.getElem?_eq_some.mp hstate with ⟨h, _⟩
      omega
    have hlane : lanes[k]? = some (lanes.get ⟨k, hklt⟩) := List.getElem?_eq_getElem hklt
    rw [hlane]
    cases state with
    | header =>
      right; left
      exact ⟨rfl, rfl⟩
    | done result =>
      left
      refine ⟨?_, Or.inr ⟨result, rfl⟩⟩
      simp only [laneStep]
      rw [set_eq_self s.lanes k (.done result) hstate]
    | body w =>
      right; right
      simp only [laneStep, emulateBody_eq]
      by_cases hcas : s.mem = w
      · left
        refine ⟨w, (bitcastIntToVec 16 2 w).getD (elemIndex (lanes.get ⟨k, hklt⟩).rmwPtr) 0,
          rfl, hcas, ?_⟩
        rw [if_pos hcas]
        simp only [applyLane, hlane, hcas, newValInt_eq_sequentialRmw]
      · right
        refine ⟨w, rfl, hcas, ?_⟩
        rw [if_neg hcas]

/-- Replacing the state of a lane that is not in the end block by a state that
is not the end block does not change which lanes are in the end block. -/
theorem done_set_of_not_done (l : List LaneState) (k : Nat) (st st' : LaneState)
    (hk : l[k]? = some st) (hst : ∀ r, st ≠ .done r) (hst' : ∀ r, st' ≠ .done r) (j : Nat) :
    (∃ r, (l.set k st')[j]? = some (.done r)) ↔ (∃ r, l[j]? = some (.done r)) := by
  by_cases hkj : k = j
  · subst hkj
    have hlt : k < l.length := by
      rcases List.getElem?_eq_some.mp hk with ⟨h, _⟩
      exact h
    rw [List.getElem?_set_self hlt, hk]
    constructor
    · rintro ⟨r, hr⟩
      exact absurd (Option.some.inj hr) (hst' r)
    · rintro ⟨r, hr⟩
      exact absurd (Option.some.inj hr) (hst r)
  · rw [List.getElem?_set_ne hkj]

/-- The invariant of the concurrent runs: the lanes in the end block are those
of `order`, each once, and the shared word is the initial word after their
read-modify-writes, as indivisible operations, in that order. -/
theorem systemStep_invariant (lanes : List RmwLane) (mem0 k : Nat) (s : SharedState)
    (order : List Nat)
    (hlen : s.lanes.length = lanes.length) (hnodup : order.Nodup)
    (hmem : ∀ j, j ∈ order ↔ ∃ r, s.lanes[j]? = some (.done r))
    (hfold : s.mem = order.foldl (fun m j => applyLane lanes j m) mem0) :
    ∃ order' : List Nat, (systemStep lanes k s).lanes.length = lanes.length ∧ order'.Nodup ∧
      (∀ j, j ∈ order' ↔ ∃ r, (systemStep lanes k s).lanes[j]? = some (.done r)) ∧
      (systemStep lanes k s).mem = order'.foldl (fun m j => applyLane lanes j m) mem0 := by
  rcases systemStep_cases lanes k s hlen with
    ⟨hs, _⟩ | ⟨hstate, hs⟩ | ⟨w, r, hstate, _, hs⟩ | ⟨w, hstate, _, hs⟩
  · rw [hs]
    exact ⟨order, hlen, hnodup, hmem, hfold⟩
  · rw [hs]
    refine ⟨order, by simp [hlen], hnodup, ?_, hfold⟩
    intro j
    rw [hmem j]
    exact (done_set_of_not_done s.lanes k .header (.body s.mem) hstate
      (fun r => by simp) (fun r => by simp) j).symm
  · rw [hs]
    have hklt : k < s.lanes.length := by
      rcases List.getElem?_eq_some.mp hstate with ⟨h, _⟩
      exact h
    have hknot : k ∉ order := by
      intro hin
      obtain ⟨r', hr'⟩ := (hmem k).mp hin
      rw [hstate] at hr'
      exact absurd (Option.some.inj hr') (by simp)
    refine ⟨order ++ [k], by simp [hlen], ?_, ?_, ?_⟩
    · rw [List.nodup_append]
      refine ⟨hnodup, List.nodup_singleton k, ?_⟩
      intro a ha hb
      rw [List.mem_singleton] at hb
      subst hb
      exact hknot ha
    · intro j
      rw [List.mem_append, List.mem_singleton]
      by_cases hkj : k = j
      · subst hkj
        simp only [List.getElem?_set_self hklt, Option.some.injEq, LaneState.done.injEq,
          exists_eq', or_true]
      · simp only [List.getElem?_set_ne hkj]
        rw [hmem j]
        constructor
        · rintro (h | h)
          · exact h
          · exact absurd h.symm hkj
        · exact fun h => Or.inl h
    · rw [List.foldl_append]
      simp only [List.foldl_cons, List.foldl_nil]
      rw [← hfold]
  · rw [hs]
    refine ⟨order, by simp [hlen], hnodup, ?_, hfold⟩
    intro j
    rw [hmem j]
    exact (done_set_of_not_done s.lanes k (.body w) (.body s.mem) hstate
      (fun r => by simp) (fun r => by simp) j).symm

theorem runSchedule_invariant (lanes : List RmwLane) (mem0 : Nat) (schedule : List Nat) :
    ∀ (s : SharedState) (order : List Nat),
      s.lanes.length = lanes.length → order.Nodup →
      (∀ j, j ∈ order ↔ ∃ r, s.lanes[j]? = some (.done r)) →
      s.mem = order.foldl (fun m j => applyLane lanes j m) mem0 →
      ∃ order' : List Nat, (runSchedule lanes schedule s).lanes.length = lanes.length ∧
        order'.Nodup ∧
        (∀ j, j ∈ order' ↔ ∃ r, (runSchedule lanes schedule s).lanes[j]? = some (.done r)) ∧
        (runSchedule lanes schedule s).mem =
          order'.foldl (fun m j => applyLane lanes j m) mem0 := by
  induction schedule with
  | nil =>
    intro s order hlen hnodup hmem hfold
    exact ⟨order, hlen, hnodup, hmem, hfold⟩
  | cons k rest ih =>
    intro s order hlen hnodup hmem hfold
    obtain ⟨order1, hlen1, hnodup1, hmem1, hfold1⟩ :=
      systemStep_invariant lanes mem0 k s order hlen hnodup hmem hfold
    exact ih (systemStep lanes k s) order1 hlen1 hnodup1 hmem1 hfold1

/-- Replacing one element of a list moves its count by the difference of the
two elements. -/
theorem countP_set_add (p : LaneState → Bool) (l : List LaneState) (k : Nat)
    (a b : LaneState) (h : l[k]? = some a) :
    (l.set k b).countP p + (if p a then 1 else 0) = l.countP p + (if p b then 1 else 0) := by
  induction l generalizing k with
  | nil => simp at h
  | cons x xs ih =>
    cases k with
    | zero =>
      simp only [List.getElem?_cons_zero, Option.some.injEq] at h
      subst h
      simp only [List.set_cons_zero, List.countP_cons]
      omega
    | succ k =>
      simp only [List.getElem?_cons_succ] at h
      simp only [List.set_cons_succ, List.countP_cons]
      have := ih k h
      omega

/-- An atomic action of lane `j` does not raise the budget of any lane and
lowers the budget of lane `j` itself. -/
theorem laneBudget_step (lanes : List RmwLane) (j k : Nat) (s : SharedState)
    (hlen : s.lanes.length = lanes.length) :
    laneBudget (systemStep lanes j s) k ≤ laneBudget s k - (if j = k then 1 else 0) := by
  have hother : ∀ (st' : LaneState), j ≠ k → (s.lanes.set j st')[k]? = s.lanes[k]? :=
    fun st' hjk => List.getElem?_set_ne hjk
  rcases systemStep_cases lanes j s hlen with
    ⟨hs, hcase⟩ | ⟨hstate, hs⟩ | ⟨w, r, hstate, hw, hs⟩ | ⟨w, hstate, hw, hs⟩
  · rw [hs]
    by_cases hjk : j = k
    · subst hjk
      rcases hcase with h | ⟨r, h⟩ <;> simp [laneBudget, h]
    · simp [hjk]
  · have hjlt : j < s.lanes.length := by
      rcases List.getElem?_eq_some.mp hstate with ⟨h, _⟩
      exact h
    have hcount := countP_set_add LaneState.pending s.lanes j .header (.body s.mem) hstate
    simp only [LaneState.pending, if_true] at hcount
    rw [hs]
    by_cases hjk : j = k
    · subst hjk
      simp only [laneBudget, pendingCount, List.getElem?_set_self hjlt, hstate, if_true]
      omega
    · simp only [laneBudget, pendingCount, hother _ hjk, if_neg hjk]
      have hc : (s.lanes.set j (.body s.mem)).countP LaneState.pending =
          s.lanes.countP LaneState.pending := by omega
      rw [hc]
      exact Nat.le_refl _
  · have hjlt : j < s.lanes.length := by
      rcases List.getElem?_eq_some.mp hstate with ⟨h, _⟩
      exact h
    have hcount := countP_set_add LaneState.pending s.lanes j (.body w) (.done r) hstate
    simp only [LaneState.pending, if_true, Bool.false_eq_true, if_false] at hcount
    rw [hs]
    by_cases hjk : j = k
    · subst hjk
      simp only [laneBudget, List.getElem?_set_self hjlt]
      exact Nat.zero_le _
    · simp only [laneBudget, pendingCount, hother _ hjk, if_neg hjk]
      cases hk : s.lanes[k]? with
      | none => simp
      | some st =>
        cases st with
        | header => simp only; omega
        | done r' => simp
        | body u =>
          simp only
          split <;> split <;> omega
  · have hjlt : j < s.lanes.length := by
      rcases List.getElem?_eq_some.mp hstate with ⟨h, _⟩
      exact h
    have hcount := countP_set_add LaneState.pending s.lanes j (.body w) (.body s.mem) hstate
    simp only [LaneState.pending, if_true] at hcount
    rw [hs]
    by_cases hjk : j = k
    · subst hjk
      simp only [laneBudget, pendingCount, List.getElem?_set_self hjlt, hstate, if_true,
        if_neg (Ne.symm hw)]
      omega
    · simp only [laneBudget, pendingCount, hother _ hjk, if_neg hjk]
      have hc : (s.lanes.set j (.body s.mem)).countP LaneState.pending =
          s.lanes.countP LaneState.pending := by omega
      rw [hc]
      exact Nat.le_refl _

theorem systemStep_length (lanes : List RmwLane) (k : Nat) (s : SharedState)
    (hlen : s.lanes.length = lanes.length) :
    (systemStep lanes k s).lanes.length = lanes.length := by
  rcases systemStep_cases lanes k s hlen with
    ⟨hs, _⟩ | ⟨_, hs⟩ | ⟨w, r, _, _, hs⟩ | ⟨w, _, _, hs⟩ <;> rw [hs] <;> simp [hlen]

/-- A schedule lowers the budget of lane `k` by at least the number of turns it
gives to lane `k`. -/
theorem laneBudget_run (lanes : List RmwLane) (k : Nat) (schedule : List Nat) :
    ∀ s : SharedState, s.lanes.length = lanes.length →
      laneBudget (runSchedule lanes schedule s) k ≤ laneBudget s k - schedule.count k := by
  induction schedule with
  | nil =>
    intro s _
    simp [runSchedule]
  | cons j rest ih =>
    intro s hlen
    have h1 := laneBudget_step lanes j k s hlen
    have h2 := ih (systemStep lanes j s) (systemStep_length lanes j s hlen)
    have hrun : runSchedule lanes (j :: rest) s = runSchedule lanes rest (systemStep lanes j s) :=
      rfl
    rw [hrun, List.count_cons]
    by_cases hjk : j = k
    · subst hjk
      simp only [if_true, beq_self_eq_true] at h1 ⊢
      omega
    · have hb : (j == k) = false := by simpa using hjk
      simp only [if_neg hjk, hb, Bool.false_eq_true, if_false] at h1 ⊢
      omega

/-- A lane in range whose budget is used up is in the end block. -/
theorem done_of_laneBudget_zero (s : SharedState) (k : Nat) (hk : k < s.lanes.length)
    (h : laneBudget s k = 0) : ∃ r, s.lanes[k]? = some (.done r) := by
  have hget : s.lanes[k]? = some (s.lanes.get ⟨k, hk⟩) := List.getElem?_eq_getElem hk
  have hmem : s.lanes.get ⟨k, hk⟩ ∈ s.lanes := List.get_mem _ _ _
  unfold laneBudget at h
  rw [hget] at h ⊢
  cases hst : s.lanes.get ⟨k, hk⟩ with
  | header => rw [hst] at h; simp at h
  | done r => exact ⟨r, rfl⟩
  | body w =>
    rw [hst] at h hmem
    have hpos : 0 < pendingCount s :=
      List.countP_pos_iff.mpr ⟨.body w, hmem, rfl⟩
    simp only at h
    split at h <;> omega

/-- C20: lanes run the emulated 16-bit read-modify-write loop on halves of one
aligned 32-bit word, their atomic actions (the load, each compare-and-swap)
interleaved in any order `schedule`.  Under every schedule that gives each of
the `n` lanes at least `n + 1` turns every lane reaches the end block, and the
shared word is then the initial word after the read-modify-writes of all lanes,
each applied once as an indivisible operation, in some sequential order. -/
theorem C20_subword_atomic_linearizable (lanes : List RmwLane) (mem0 : Nat)
    (schedule : List Nat)
    (hfair : ∀ k, k < lanes.length → lanes.length + 1 ≤ schedule.count k) :
    (∀ k, k < lanes.length → ∃ r,
      (runSchedule lanes schedule (SharedState.initial lanes mem0)).lanes[k]? =
        some (.done r)) ∧
    ∃ order : List Nat, order.Perm (List.range lanes.length) ∧
      (runSchedule lanes schedule (SharedState.initial lanes mem0)).mem =
        order.foldl (fun m k => applyLane lanes k m) mem0 := by
  have hlen0 : (SharedState.initial lanes mem0).lanes.length = lanes.length := by
    simp [SharedState.initial]
  obtain ⟨order, hlen, hnodup, hmem, hfold⟩ :=
    runSchedule_invariant lanes mem0 schedule (SharedState.initial lanes mem0) []
      hlen0 List.nodup_nil
      (by
        intro j
        simp only [List.not_mem_nil, SharedState.initial, false_iff, not_exists]
        intro r hr
        rw [List.getElem?_replicate] at hr
        split at hr
        · exact absurd (Option.some.inj hr) (by simp)
        · exact absurd hr (by simp))
      rfl
  have hdone : ∀ k, k < lanes.length → ∃ r,
      (runSchedule lanes schedule (SharedState.initial lanes mem0)).lanes[k]? =
        some (.done r) := by
    intro k hk
    apply done_of_laneBudget_zero _ k (by rw [hlen]; exact hk)
    have hrun := laneBudget_run lanes k schedule (SharedState.initial lanes mem0) hlen0
    have hget : (SharedState.initial lanes mem0).lanes[k]? = some .header := by
      simp [SharedState.initial, List.getElem?_replicate, hk]
    have hcnt : pendingCount (SharedState.initial lanes mem0) = lanes.length := by
      simp [pendingCount, SharedState.initial, List.countP_replicate, LaneState.pending]
    have hinit : laneBudget (SharedState.initial lanes mem0) k = lanes.length + 1 := by
      unfold laneBudget
      rw [hget]
      simp only
      rw [hcnt]
    have := hfair k hk
    omega
  refine ⟨hdone, order, ?_, hfold⟩
  rw [List.perm_ext_iff_of_nodup hnodup (List.nodup_range _)]
  intro k
  rw [hmem k, List.mem_range]
  constructor
  · rintro ⟨r, hr⟩
    rcases List.getElem?_eq_some.mp hr with ⟨h, _⟩
    rw [hlen] at h
    exact h
  · exact hdone k

/-- C20 at a concrete input: lane 0 adds 5 to half 0 and lane 1 exchanges half
1 with 9 on the word `0x00030001`; both load, lane 0 swaps, the swap of lane 1
fails on the changed word and succeeds on its retry; the word is then
`0x00090006`. -/
theorem C20_subword_atomic_linearizable_witness :
    (runSchedule exampleRmwLanes [0, 1, 0, 1, 1, 0]
      (SharedState.initial exampleRmwLanes 0x00030001)).mem = 0x00090006 ∧
    (∀ k, k < exampleRmwLanes.length → ∃ r,
      (runSchedule exampleRmwLanes [0, 1, 0, 1, 1, 0]
        (SharedState.initial exampleRmwLanes 0x00030001)).lanes[k]? = some (.done r)) ∧
    ∃ order : List Nat, order.Perm (List.range exampleRmwLanes.length) ∧
      (runSchedule exampleRmwLanes [0, 1, 0, 1, 1, 0]
          (SharedState.initial exampleRmwLanes 0x00030001)).mem =
        order.foldl (fun m k => applyLane exampleRmwLanes k m) 0x00030001 :=
  ⟨by decide,
    C20_subword_atomic_linearizable exampleRmwLanes 0x00030001 [0, 1, 0, 1, 1, 0]
      (by
        intro k hk
        have hk2 : k < 2 := hk
        rcases (by omega : k = 0 ∨ k = 1) with h | h
        · subst h; decide
        · subst h; decide)⟩

/-! ### C23 -/

/-- C23 as stated fails: a vector group of four 32-bit elements gets the word
width 32 (four words), not `min(128, max(32, 32 * 4)) = 128`. -/
theorem C23_counterexample :
    ¬ (wordWidth (loadValueElemNBits 32) 4 = min 128 (max 32 (32 * 4)) ∧
        wordWidth (storeValueElemNBits 32) 4 = min 128 (max 32 (32 * 4))) := by
  decide

/-- C23 (amended): for an element width in {8, 16, 32, 64} and a vector width
`vec ≥ 1` with `elemBits * vec ≤ 128`, the word width computed by the generic
load and by the generic store for a vector group is
`min(elemBits * vec, max(32, elemBits))`: the whole group when it has at most
32 bits, and otherwise 32 bits, or 64 for 64-bit elements.  It is a multiple of
the element width and divides the group, and it equals
`min(128, max(32, elemBits * vec))` exactly when the group has 32 bits or is
one 64-bit element. -/
theorem C23_transfer_word_width (elemBits vec : Nat)
    (hb : elemBits = 8 ∨ elemBits = 16 ∨ elemBits = 32 ∨ elemBits = 64) (hv : 1 ≤ vec)
    (hle : elemBits * vec ≤ 128) :
    wordWidth (loadValueElemNBits elemBits) vec = min (elemBits * vec) (max 32 elemBits) ∧
    wordWidth (storeValueElemNBits elemBits) vec = min (elemBits * vec) (max 32 elemBits) ∧
    (elemBits * vec ≤ 32 → wordWidth (loadValueElemNBits elemBits) vec = elemBits * vec) ∧
    (32 < elemBits * vec → wordWidth (loadValueElemNBits elemBits) vec = max 32 elemBits) ∧
    elemBits ∣ wordWidth (loadValueElemNBits elemBits) vec ∧
    (wordWidth (loadValueElemNBits elemBits) vec = min 128 (max 32 (elemBits * vec)) ↔
      (elemBits * vec = 32 ∨ (elemBits = 64 ∧ vec = 1))) := by
  have hvec : vec ≤ 16 := by
    rcases hb with h | h | h | h <;> subst h <;> omega
  have hl : loadValueElemNBits elemBits = elemBits := by
    rcases hb with h | h | h | h <;> subst h <;> decide
  have hs : storeValueElemNBits elemBits = elemBits := by
    rcases hb with h | h | h | h <;> subst h <;> decide
  rw [hl, hs]
  simp only [wordWidth, totalWidth, maxWordWidth]
  refine ⟨trivial, trivial, ?_, ?_, ?_, ?_⟩
  · intro h
    omega
  · intro h
    have : max 32 elemBits ≤ elemBits * vec := by
      rcases hb with h | h | h | h <;> subst h <;> omega
    omega
  · rcases hb with h | h | h | h <;> subst h <;> interval_cases vec <;>
      first
        | (exfalso; revert hle; decide)
        | decide
  · rcases hb with h | h | h | h <;> subst h <;> omega

/-- C23 (amended) at a concrete input: eight 8-bit elements, words of 32
bits. -/
theorem C23_transfer_word_width_witness :
    wordWidth (loadValueElemNBits 8) 8 = min (8 * 8) (max 32 8) ∧
    wordWidth (storeValueElemNBits 8) 8 = min (8 * 8) (max 32 8) ∧
    (8 * 8 ≤ 32 → wordWidth (loadValueElemNBits 8) 8 = 8 * 8) ∧
    (32 < 8 * 8 → wordWidth (loadValueElemNBits 8) 8 = max 32 8) ∧
    8 ∣ wordWidth (loadValueElemNBits 8) 8 ∧
    (wordWidth (loadValueElemNBits 8) 8 = min 128 (max 32 (8 * 8)) ↔
      (8 * 8 = 32 ∨ (8 = 64 ∧ 8 = 1))) :=
  C23_transfer_word_width 8 8 (by decide) (by decide) (by decide)

/-! ### C24 -/

theorem lowPtrBits_eq_mod (p : Nat) (hp : p < 2 ^ 64) : lowPtrBits p = p % 4 := by
  unfold lowPtrBits
  rw [Nat.mod_eq_of_lt hp]
  exact Nat.and_pow_two_sub_one_eq_mod p 2

/-- C24: for a 64-bit address `p` the emulation computes `low = p AND 3`,
`aligned = p - low` and `index = low >> 1`; `low` is `p mod 4`, `aligned` is a
multiple of 4 with `aligned ≤ p < aligned + 4`, `index` is 0 or 1, and for a
2-byte-aligned `p` the address is `aligned + 2 * index`. -/
theorem C24_subword_address_split (p : Nat) (hp : p < 2 ^ 64) :
    lowPtrBits p = p % 4 ∧
    alignPtr p = p - lowPtrBits p ∧
    elemIndex p = lowPtrBits p / 2 ∧
    alignPtr p % 4 = 0 ∧
    alignPtr p ≤ p ∧ p < alignPtr p + 4 ∧
    (elemIndex p = 0 ∨ elemIndex p = 1) ∧
    (p % 2 = 0 → alignPtr p + 2 * elemIndex p = p) := by
  have hlow := lowPtrBits_eq_mod p hp
  have ha : alignPtr p = p - lowPtrBits p := by
    unfold alignPtr
    rw [hlow, Nat.mod_eq_of_lt hp]
    omega
  have hi : elemIndex p = lowPtrBits p / 2 := by
    unfold elemIndex
    rw [hlow, Nat.shiftRight_eq_div_pow]
    omega
  rw [ha, hi, hlow]
  refine ⟨rfl, rfl, rfl, ?_, ?_, ?_, ?_, ?_⟩ <;> omega

/-- C24 at a concrete input: the address `0x1006` lies in the word at `0x1004`
and is its half 1. -/
theorem C24_subword_address_split_witness :
    lowPtrBits 0x1006 = 0x1006 % 4 ∧
    alignPtr 0x1006 = 0x1006 - lowPtrBits 0x1006 ∧
    elemIndex 0x1006 = lowPtrBits 0x1006 / 2 ∧
    alignPtr 0x1006 % 4 = 0 ∧
    alignPtr 0x1006 ≤ 0x1006 ∧ 0x1006 < alignPtr 0x1006 + 4 ∧
    (elemIndex 0x1006 = 0 ∨ elemIndex 0x1006 = 1) ∧
    (0x1006 % 2 = 0 → alignPtr 0x1006 + 2 * elemIndex 0x1006 = 0x1006) :=
  C24_subword_address_split 0x1006 (by decide)

/-! ### C25 -/

/-- The block loads issued by a successful `rewriteTensorPointerLoad` are those
of `tensorPointerBlockLoad` for the operand index and element width of the
tensor. -/
theorem rewriteTensorPointerLoad_emitted (opIdx elemBits : Nat) (parent : Option DpasLayout)
    (tensorShape blockPtrElems : List Nat) (env : LaneEnv) (rewriter rewriter' : Rewriter)
    (h : rewriteTensorPointerLoad (.dotOperand opIdx parent) tensorShape elemBits
      blockPtrElems env rewriter = .ok (.success, rewriter')) :
    ∃ loads : List BlockLoad,
      rewriter'.emitted =
        rewriter.emitted ++ loads.map (fun ld => { instr := .blockLoad ld, guarded := false }) ∧
      ∀ ld ∈ loads, ∃ elemsPerInstr outerDimWarpId outerDimWarpNum bp outer k,
        ld = tensorPointerBlockLoad opIdx elemBits elemsPerInstr outerDimWarpId outerDimWarpNum
          bp outer k := by
  cases parent with
  | none => simp [rewriteTensorPointerLoad] at h
  | some dpasLayout =>
    simp only [rewriteTensorPointerLoad] at h
    cases hbp : getValuesFromBlockPointerStruct blockPtrElems with
    | none => rw [hbp] at h; simp at h
    | some bp =>
      rw [hbp] at h
      simp only [Except.ok.injEq, Prod.mk.injEq, true_and] at h
      subst h
      refine ⟨_, rfl, ?_⟩
      intro ld hld
      simp only [List.mem_flatMap, List.mem_map, List.mem_range] at hld
      obtain ⟨outer, _, k, _, hk⟩ := hld
      exact ⟨_, _, _, bp, outer, k, hk.symm⟩

/-- C25 as stated fails: the block loads of a right-hand operand with 64-bit
elements carry the transform flag although 64 is not narrower than 32. -/
theorem C25_counterexample :
    ¬ (∀ rewriter', rewriteTensorPointerLoad (.dotOperand 1 (some exampleDpasLayout)) [32, 32] 64
          [0, 0, 64, 64, 64, 1, 4096] (exampleLane 16) Rewriter.initial =
          .ok (.success, rewriter') →
        ∀ e ∈ rewriter'.emitted, ∀ ld, e.instr = .blockLoad ld →
          (ld.vnniTransform = true ↔ ((1 : Nat) = 1 ∧ (64 : Nat) < 32))) := by
  intro h
  have h1 := h _ rfl
    { instr := .blockLoad (tensorPointerBlockLoad 1 64 [16, 16] 1 2
        { base := 4096, baseWidth := 64, baseHeight := 64, rowStride := 64, colStride := 1,
          offsetBaseX := 0, offsetBaseY := 0 } 0 0),
      guarded := false }
    (by decide) _ rfl
  revert h1
  decide

/-- C25 (amended): in every successful lowering of a matrix-operand block load
each issued instruction is a block load whose transform flag is true iff the
operand is not the left-hand operand (operand index other than 0) and the
element width is not 32 bits.  For the operand indices 0 and 1 and the element
widths 8, 16 and 32 this is: the operand is the right-hand operand and the
element width is narrower than 32 bits. -/
theorem C25_layout_reordering_flag (opIdx elemBits : Nat) (dpasLayout : DpasLayout)
    (tensorShape blockPtrElems : List Nat) (env : LaneEnv) (rewriter' : Rewriter)
    (h : rewriteTensorPointerLoad (.dotOperand opIdx (some dpasLayout)) tensorShape elemBits
      blockPtrElems env Rewriter.initial = .ok (.success, rewriter')) :
    ∀ e ∈ rewriter'.emitted, ∃ ld, e.instr = .blockLoad ld ∧
      (ld.vnniTransform = true ↔ (opIdx ≠ 0 ∧ elemBits ≠ 32)) ∧
      ((opIdx = 0 ∨ opIdx = 1) → (elemBits = 8 ∨ elemBits = 16 ∨ elemBits = 32) →
        (ld.vnniTransform = true ↔ (opIdx = 1 ∧ elemBits < 32))) := by
  obtain ⟨loads, hem, hloads⟩ := rewriteTensorPointerLoad_emitted opIdx elemBits
    (some dpasLayout) tensorShape blockPtrElems env Rewriter.initial rewriter' h
  intro e he
  rw [hem] at he
  simp only [Rewriter.initial, List.nil_append, List.mem_map] at he
  obtain ⟨ld, hld, rfl⟩ := he
  obtain ⟨elemsPerInstr, outerDimWarpId, outerDimWarpNum, bp, outer, k, rfl⟩ := hloads ld hld
  refine ⟨_, rfl, ?_, ?_⟩
  · simp [tensorPointerBlockLoad]
  · intro hop hbits
    simp only [tensorPointerBlockLoad, Bool.and_eq_true, Bool.not_eq_true', beq_eq_false_iff_ne,
      bne_iff_ne, ne_eq]
    omega

/-- C25 (amended) at a concrete input: the right-hand operand with 16-bit
elements on the example layout; four block loads are issued. -/
theorem C25_layout_reordering_flag_witness :
    ∃ rewriter', rewriteTensorPointerLoad (.dotOperand 1 (some exampleDpasLayout)) [32, 32] 16
        [0, 0, 64, 64, 64, 1, 4096] (exampleLane 16) Rewriter.initial =
        .ok (.success, rewriter') ∧
      rewriter'.emitted.length = 4 ∧
      ∀ e ∈ rewriter'.emitted, ∃ ld, e.instr = .blockLoad ld ∧
        (ld.vnniTransform = true ↔ ((1 : Nat) ≠ 0 ∧ (16 : Nat) ≠ 32)) ∧
        (((1 : Nat) = 0 ∨ (1 : Nat) = 1) → ((16 : Nat) = 8 ∨ (16 : Nat) = 16 ∨ (16 : Nat) = 32) →
          (ld.vnniTransform = true ↔ ((1 : Nat) = 1 ∧ (16 : Nat) < 32))) :=
  ⟨_, rfl, rfl,
    C25_layout_reordering_flag 1 16 exampleDpasLayout [32, 32] [0, 0, 64, 64, 64, 1, 4096]
      (exampleLane 16) _ rfl⟩

/-! ### C26 -/

/-- A point of the interval of length `E` at `(a * R + m) * E` determines `a`
and `m < R`. -/
theorem tile_index_unique (R E a m a' m' r : Nat) (hm : m < R) (hm' : m' < R)
    (h1 : a * (R * E) + m * E ≤ r) (h2 : r < a * (R * E) + m * E + E)
    (h1' : a' * (R * E) + m' * E ≤ r) (h2' : r < a' * (R * E) + m' * E + E) :
    a = a' ∧ m = m' := by
  have e : ∀ x y : Nat, x * (R * E) + y * E = (x * R + y) * E := by
    intro x y
    ring
  rw [e] at h1 h2 h1' h2'
  have hq : r / E = a * R + m :=
    Nat.div_eq_of_lt_le h1 (by rw [Nat.succ_mul]; exact h2)
  have hq' : r / E = a' * R + m' :=
    Nat.div_eq_of_lt_le h1' (by rw [Nat.succ_mul]; exact h2')
  have heq : a * R + m = a' * R + m' := hq.symm.trans hq'
  have hR : 0 < R := by omega
  have hdiv : ∀ x y : Nat, y < R → (x * R + y) / R = x := by
    intro x y hy
    rw [Nat.add_comm, Nat.add_mul_div_right _ _ hR, Nat.div_eq_of_lt hy, Nat.zero_add]
  have ha : a = a' := by
    rw [← hdiv a m hm, ← hdiv a' m' hm', heq]
  subst ha
  exact ⟨rfl, by omega⟩

/-- The 32-bit offset of a block store is the offset on natural numbers when
the warp grid of `G` warps with its repetitions stays below `2 ^ 32`; the tile
then ends below `2 ^ 32` as well. -/
theorem blockStore_offset_eq (w R E off m G : Nat) (hw : w < G) (hm : m < R)
    (hb : off + G * (R * E) < 2 ^ 32) :
    ((w * (R * E % 2 ^ 32) % 2 ^ 32 + off) % 2 ^ 32 + m * (E % 2 ^ 32) % 2 ^ 32) % 2 ^ 32 =
        off + (w * (R * E) + m * E) ∧
      off + (w * (R * E) + m * E) + E < 2 ^ 32 := by
  have hS : w * (R * E) + R * E ≤ G * (R * E) := by
    have := Nat.mul_le_mul_right (R * E) (show w + 1 ≤ G from hw)
    rw [Nat.add_mul, Nat.one_mul] at this
    exact this
  have hE : m * E + E ≤ R * E := by
    have := Nat.mul_le_mul_right E (show m + 1 ≤ R from hm)
    rw [Nat.add_mul, Nat.one_mul] at this
    exact this
  have e1 : R * E % 2 ^ 32 = R * E := Nat.mod_eq_of_lt (by omega)
  have e2 : w * (R * E) % 2 ^ 32 = w * (R * E) := Nat.mod_eq_of_lt (by omega)
  have e3 : (w * (R * E) + off) % 2 ^ 32 = w * (R * E) + off := Nat.mod_eq_of_lt (by omega)
  have e4 : E % 2 ^ 32 = E := Nat.mod_eq_of_lt (by omega)
  have e5 : m * E % 2 ^ 32 = m * E := Nat.mod_eq_of_lt (by omega)
  have e6 : (w * (R * E) + off + m * E) % 2 ^ 32 = w * (R * E) + off + m * E :=
    Nat.mod_eq_of_lt (by omega)
  rw [e1, e2, e3, e4, e5, e6]
  omega

/-- The block stores issued by a successful `rewriteTensorPointerStore` are
those of `tensorPointerBlockStore` for the repetitions `(m, n)` below the
repetition counts, at the warp coordinate of the lane. -/
theorem rewriteTensorPointerStore_emitted (dpasLayout : DpasLayout) (tensorShape : List Nat)
    (elemBits numElems : Nat) (blockPtrElems vals : List Nat) (env : LaneEnv)
    (rewriter rewriter' : Rewriter)
    (h : rewriteTensorPointerStore (.dpas dpasLayout) tensorShape elemBits numElems
      blockPtrElems vals env rewriter = .ok (.success, rewriter')) :
    ∃ (stores : List BlockStore) (bp : BlockPointerValues),
      rewriter'.emitted =
        rewriter.emitted ++ stores.map (fun st => { instr := .blockStore st, guarded := false }) ∧
      ∀ st ∈ stores, ∃ m n,
        m < (dpasLayout.getDPASRepetitions tensorShape 2).getD 0 0 ∧
        n < (dpasLayout.getDPASRepetitions tensorShape 2).getD 1 0 ∧
        st = tensorPointerBlockStore elemBits dpasLayout.shapeC
          (dpasLayout.getDPASRepetitions tensorShape 2)
          (env.delinearize (env.tid / dpasLayout.warpSize) dpasLayout.warpsPerCTA
            dpasLayout.order)
          (dpasLayout.shapeC.foldl (· * ·) 1 / dpasLayout.warpSize) bp vals m n := by
  simp only [rewriteTensorPointerStore] at h
  cases hbp : getValuesFromBlockPointerStruct blockPtrElems with
  | none => rw [hbp] at h; simp at h
  | some bp =>
    rw [hbp] at h
    by_cases hlen : vals.length = numElems
    · simp only [hlen, ne_eq, not_true_eq_false, if_false, Except.ok.injEq, Prod.mk.injEq,
        true_and] at h
      subst h
      refine ⟨_, bp, rfl, ?_⟩
      intro st hst
      simp only [List.mem_flatMap, List.mem_map, List.mem_range] at hst
      obtain ⟨m, hm, n, hn, hmn⟩ := hst
      exact ⟨m, n, hm, hn, hmn.symm⟩
    · simp [hlen] at h

/-- C26 as stated fails: with the repetition count 65536 and the tile height
65536 the warp stride `R0 * E0 = 2 ^ 32` is cast to the `unsigned` 0, so the
warp rows 0 and 1 issue their first block store at the same `y`. -/
theorem C26_counterexample :
    ¬ ((tensorPointerBlockStore 32 [65536, 16] [65536, 1] [0, 0] 0
            { base := 0, baseWidth := 0, baseHeight := 0, rowStride := 0, colStride := 0,
              offsetBaseX := 0, offsetBaseY := 0 } [] 0 0).y =
          (tensorPointerBlockStore 32 [65536, 16] [65536, 1] [1, 0] 0
            { base := 0, baseWidth := 0, baseHeight := 0, rowStride := 0, colStride := 0,
              offsetBaseX := 0, offsetBaseY := 0 } [] 0 0).y →
        (0 : Nat) = 1) := by
  decide

/-- C26 (amended): for the repetition counts `(R0, R1)`, the instruction tile
`(E0, E1)` with entries `≥ 1`, a warp grid `(G0, G1)` and block offsets with
`offsetBaseY + G0 * R0 * E0 < 2 ^ 32` and `offsetBaseX + G1 * R1 * E1 < 2 ^ 32`,
the block stores of `rewriteTensorPointerStore` of the warps `(warpRow,
warpCol)` of the grid for the repetitions `m < R0`, `n < R1` have their origins,
relative to the block offsets, at `y = warpRow * R0 * E0 + m * E0` and
`x = warpCol * R1 * E1 + n * E1`; `y` determines `(warpRow, m)` and `x`
determines `(warpCol, n)`, and two `E0 x E1` tiles that share an element belong
to the same `(warpRow, warpCol, m, n)`. -/
theorem C26_store_tiles_disjoint (elemBits E0 E1 R0 R1 G0 G1 elemsPerLane : Nat)
    (bp : BlockPointerValues) (vals : List Nat) (hE0 : 1 ≤ E0) (hE1 : 1 ≤ E1)
    (hy : bp.offsetBaseY + G0 * (R0 * E0) < 2 ^ 32)
    (hx : bp.offsetBaseX + G1 * (R1 * E1) < 2 ^ 32) :
    ∀ warpRow warpCol m n warpRow' warpCol' m' n',
      warpRow < G0 → warpCol < G1 → warpRow' < G0 → warpCol' < G1 →
      m < R0 → n < R1 → m' < R0 → n' < R1 →
      ∀ s s' : BlockStore,
        s = tensorPointerBlockStore elemBits [E0, E1] [R0, R1] [warpRow, warpCol]
          elemsPerLane bp vals m n →
        s' = tensorPointerBlockStore elemBits [E0, E1] [R0, R1] [warpRow', warpCol']
          elemsPerLane bp vals m' n' →
        s.y = bp.offsetBaseY + (warpRow * R0 * E0 + m * E0) ∧
        s.x = bp.offsetBaseX + (warpCol * R1 * E1 + n * E1) ∧
        s.tileHeight = E0 ∧ s.tileWidth = E1 ∧
        (s.y = s'.y → warpRow = warpRow' ∧ m = m') ∧
        (s.x = s'.x → warpCol = warpCol' ∧ n = n') ∧
        (∀ row col, s.y ≤ row → row < s.y + s.tileHeight →
          s.x ≤ col → col < s.x + s.tileWidth →
          s'.y ≤ row → row < s'.y + s'.tileHeight →
          s'.x ≤ col → col < s'.x + s'.tileWidth →
          warpRow = warpRow' ∧ warpCol = warpCol' ∧ m = m' ∧ n = n') := by
  intro warpRow warpCol m n warpRow' warpCol' m' n' hwr hwc hwr' hwc' hm hn hm' hn' s s' hs hs'
  have ey : s.y = bp.offsetBaseY + (warpRow * (R0 * E0) + m * E0) := by
    rw [hs]
    exact (blockStore_offset_eq warpRow R0 E0 bp.offsetBaseY m G0 hwr hm hy).1
  have ex : s.x = bp.offsetBaseX + (warpCol * (R1 * E1) + n * E1) := by
    rw [hs]
    exact (blockStore_offset_eq warpCol R1 E1 bp.offsetBaseX n G1 hwc hn hx).1
  have ey' : s'.y = bp.offsetBaseY + (warpRow' * (R0 * E0) + m' * E0) := by
    rw [hs']
    exact (blockStore_offset_eq warpRow' R0 E0 bp.offsetBaseY m' G0 hwr' hm' hy).1
  have ex' : s'.x = bp.offsetBaseX + (warpCol' * (R1 * E1) + n' * E1) := by
    rw [hs']
    exact (blockStore_offset_eq warpCol' R1 E1 bp.offsetBaseX n' G1 hwc' hn' hx).1
  have eh : s.tileHeight = E0 := by rw [hs]; rfl
  have ew : s.tileWidth = E1 := by rw [hs]; rfl
  have eh' : s'.tileHeight = E0 := by rw [hs']; rfl
  have ew' : s'.tileWidth = E1 := by rw [hs']; rfl
  rw [ey, ex, ey', ex', eh, ew, eh', ew']
  refine ⟨by rw [Nat.mul_assoc], by rw [Nat.mul_assoc], rfl, rfl, ?_, ?_, ?_⟩
  · intro h
    exact tile_index_unique R0 E0 warpRow m warpRow' m'
      (warpRow * (R0 * E0) + m * E0) hm hm' (le_refl _) (by omega) (by omega) (by omega)
  · intro h
    exact tile_index_unique R1 E1 warpCol n warpCol' n'
      (warpCol * (R1 * E1) + n * E1) hn hn' (le_refl _) (by omega) (by omega) (by omega)
  · intro row col hy1 hy2 hx1 hx2 hy1' hy2' hx1' hx2'
    have hrow := tile_index_unique R0 E0 warpRow m warpRow' m' (row - bp.offsetBaseY) hm hm'
      (by omega) (by omega) (by omega) (by omega)
    have hcol := tile_index_unique R1 E1 warpCol n warpCol' n' (col - bp.offsetBaseX) hn hn'
      (by omega) (by omega) (by omega) (by omega)
    exact ⟨hrow.1, hcol.1, hrow.2, hcol.2⟩

/-- C26 (amended) at a concrete input: 32-bit elements, the instruction tile
8x16, 2x2 repetitions and the 2x2 warp grid of the example layout, block
offsets (3, 5). -/
theorem C26_store_tiles_disjoint_witness :
    1 ≤ 8 ∧ 1 ≤ 16 ∧ 5 + 2 * (2 * 8) < 2 ^ 32 ∧ 3 + 2 * (2 * 16) < 2 ^ 32 ∧
    ∀ warpRow warpCol m n warpRow' warpCol' m' n',
      warpRow < 2 → warpCol < 2 → warpRow' < 2 → warpCol' < 2 →
      m < 2 → n < 2 → m' < 2 → n' < 2 →
      ∀ s s' : BlockStore,
        s = tensorPointerBlockStore 32 [8, 16] [2, 2] [warpRow, warpCol] 8
          { base := 4096, baseWidth := 64, baseHeight := 32, rowStride := 64, colStride := 1,
            offsetBaseX := 3, offsetBaseY := 5 } (List.range 32) m n →
        s' = tensorPointerBlockStore 32 [8, 16] [2, 2] [warpRow', warpCol'] 8
          { base := 4096, baseWidth := 64, baseHeight := 32, rowStride := 64, colStride := 1,
            offsetBaseX := 3, offsetBaseY := 5 } (List.range 32) m' n' →
        s.y = 5 + (warpRow * 2 * 8 + m * 8) ∧
        s.x = 3 + (warpCol * 2 * 16 + n * 16) ∧
        s.tileHeight = 8 ∧ s.tileWidth = 16 ∧
        (s.y = s'.y → warpRow = warpRow' ∧ m = m') ∧
        (s.x = s'.x → warpCol = warpCol' ∧ n = n') ∧
        (∀ row col, s.y ≤ row → row < s.y + s.tileHeight →
          s.x ≤ col → col < s.x + s.tileWidth →
          s'.y ≤ row → row < s'.y + s'.tileHeight →
          s'.x ≤ col → col < s'.x + s'.tileWidth →
          warpRow = warpRow' ∧ warpCol = warpCol' ∧ m = m' ∧ n = n') :=
  ⟨by decide, by decide, by decide, by decide,
    C26_store_tiles_disjoint 32 8 16 2 2 2 2 8
      { base := 4096, baseWidth := 64, baseHeight := 32, rowStride := 64, colStride := 1,
        offsetBaseX := 3, offsetBaseY := 5 } (List.range 32) (by decide) (by decide)
      (by decide) (by decide)⟩

/-! ### C21 -/

/-- C21 as stated fails: on a 64x64 tensor with the tile (16, 16) and the grid
(1, 1) the balance quotients are equal and doubling the column extent would not
exceed the column-tile count 4, yet the row extent is doubled. -/
theorem C21_counterexample :
    ¬ (64 / (16 * ceil 16 16) / 1 = 64 / (16 * ceil 16 16) / 1 →
        getWarpsPerCTAStepU32 [64, 64] [16, 16] (ceil 16 16) (ceil 16 16) 1 1 =
          some (if 1 * 2 ≤ 64 / 16 then (1, 1 * 2) else (1 * 2, 1))) := by
  decide

/-- C21 (amended): for a tile with entries `≥ 1` whose sum is at most `2 ^ 32`
and a warp count of at most `2 ^ 31`, in a pass through the loop of
`getWarpsPerCTA` (the grid total is below the warp count) in which the two
balance quotients (tensor extent / (tile extent * ratio) / grid extent, the
ratio being the ceiling of the other tile extent over this one) are equal, the
planner doubles the row grid extent (index 0) when it is below the row-tile
count `rows / tileRows`, and the column grid extent (index 1) otherwise. -/
theorem C21_warp_grid_tie_break (rows cols t0 t1 numWarps w0 w1 fuel : Nat)
    (ht0 : 1 ≤ t0) (ht1 : 1 ≤ t1) (ht : t0 + t1 ≤ 2 ^ 32) (hw : numWarps ≤ 2 ^ 31)
    (hw0 : 1 ≤ w0) (hw1 : 1 ≤ w1) (hlt : w0 * w1 < numWarps)
    (htie : rows / (t0 * ceil t1 t0) / w0 = cols / (t1 * ceil t0 t1) / w1) :
    ceilU32 t0 t1 = some (ceil t0 t1) ∧ ceilU32 t1 t0 = some (ceil t1 t0) ∧
    getWarpsPerCTAStepU32 [rows, cols] [t0, t1] (ceil t0 t1) (ceil t1 t0) w0 w1 =
      some (if w0 < rows / t0 then (w0 * 2, w1) else (w0, w1 * 2)) ∧
    getWarpsPerCTALoopU32 [rows, cols] [t0, t1] numWarps (ceil t0 t1) (ceil t1 t0)
        (fuel + 1) w0 w1 =
      (if w0 < rows / t0 then
        getWarpsPerCTALoopU32 [rows, cols] [t0, t1] numWarps (ceil t0 t1) (ceil t1 t0)
          fuel (w0 * 2) w1
      else
        getWarpsPerCTALoopU32 [rows, cols] [t0, t1] numWarps (ceil t0 t1) (ceil t1 t0)
          fuel w0 (w1 * 2)) := by
  obtain ⟨hc0, hc1, hp0, hp1, hn0, hn1⟩ := planner_ratios t0 t1 ht0 ht1 ht
  obtain ⟨hd0, hd1, hd⟩ := doubling_lt numWarps w0 w1 hw hw0 hw1 hlt
  have e0 : t0 ≠ 0 := by omega
  have hv0 : w0 ≠ 0 := by omega
  have hv1 : w1 ≠ 0 := by omega
  have hstep : getWarpsPerCTAStepU32 [rows, cols] [t0, t1] (ceil t0 t1) (ceil t1 t0) w0 w1 =
      some (if w0 < rows / t0 then (w0 * 2, w1) else (w0, w1 * 2)) := by
    unfold getWarpsPerCTAStepU32
    simp only [divChecked, List.getD_cons_zero, List.getD_cons_succ, hp0, hp1, if_neg hn0,
      if_neg hn1, if_neg hv0, if_neg hv1, if_neg e0, Option.bind_eq_bind, Option.some_bind,
      Nat.mod_eq_of_lt hd0, Nat.mod_eq_of_lt hd1]
    rw [if_pos (by rw [htie])]
    by_cases hrow : w0 < rows / t0
    · simp only [if_pos hrow]
    · simp only [if_neg hrow]
  refine ⟨hc0, hc1, hstep, ?_⟩
  rw [getWarpsPerCTALoopU32, Nat.mod_eq_of_lt (by omega), if_neg (by omega), hstep]
  by_cases hrow : w0 < rows / t0
  · simp only [if_pos hrow]
  · simp only [if_neg hrow]

/-- C21 (amended) at a concrete input: the 64x64 tensor with the tile (16, 16)
on the grid (1, 1) with 4 warps. -/
theorem C21_warp_grid_tie_break_witness :
    ceilU32 16 16 = some (ceil 16 16) ∧ ceilU32 16 16 = some (ceil 16 16) ∧
    getWarpsPerCTAStepU32 [64, 64] [16, 16] (ceil 16 16) (ceil 16 16) 1 1 =
      some (if 1 < 64 / 16 then (1 * 2, 1) else (1, 1 * 2)) ∧
    getWarpsPerCTALoopU32 [64, 64] [16, 16] 4 (ceil 16 16) (ceil 16 16) (1 + 1) 1 1 =
      (if 1 < 64 / 16 then
        getWarpsPerCTALoopU32 [64, 64] [16, 16] 4 (ceil 16 16) (ceil 16 16) 1 (1 * 2) 1
      else
        getWarpsPerCTALoopU32 [64, 64] [16, 16] 4 (ceil 16 16) (ceil 16 16) 1 1 (1 * 2)) :=
  C21_warp_grid_tie_break 64 64 16 16 4 1 1 1 (by decide) (by decide) (by decide) (by decide)
    (by decide) (by decide) (by decide) (by decide)

/-! ### C22 -/

/-- C22 as stated fails: with the tile (4294967295, 2), whose entries are
`≥ 1`, both 32-bit ratios wrap to zero and the first pass of the loop for 2
warps divides by zero; the planner returns for no fuel. -/
theorem C22_counterexample :
    ¬ (∃ fuel grid, getWarpsPerCTAU32 fuel [16, 16] [4294967295, 2] 2 = some grid) := by
  rintro ⟨fuel, grid, h⟩
  cases fuel with
  | zero =>
    have hnone : getWarpsPerCTAU32 0 [16, 16] [4294967295, 2] 2 = none := by decide
    rw [hnone] at h
    exact absurd h (by simp)
  | succ fuel =>
    have hnone : getWarpsPerCTAU32 (fuel + 1) [16, 16] [4294967295, 2] 2 = none := by
      simp [getWarpsPerCTAU32, ceilU32, getWarpsPerCTALoopU32, getWarpsPerCTAStepU32,
        divChecked]
    rw [hnone] at h
    exact absurd h (by simp)

/-- C22 (amended): for a 2D tensor shape, a tile shape with entries `≥ 1` whose
sum is at most `2 ^ 32` and a warp count `numWarps ≤ 2 ^ 31`, the loop of
`getWarpsPerCTA` in 32-bit arithmetic returns without dividing by zero after
exactly `⌈log2 numWarps⌉` doublings: it returns the grid `(2 ^ a, 2 ^ b)` with
`a + b = ⌈log2 numWarps⌉` for every fuel of at least `a + b` passes and runs
out of fuel for every smaller one.  Each pass doubles exactly one grid extent,
and the grid total is the least power of two that is `≥ numWarps`. -/
theorem C22_warp_grid_loop_terminates (rows cols t0 t1 numWarps : Nat)
    (ht0 : 1 ≤ t0) (ht1 : 1 ≤ t1) (ht : t0 + t1 ≤ 2 ^ 32) (hw : numWarps ≤ 2 ^ 31) :
    ∃ a b, a + b = Nat.clog 2 numWarps ∧
      (∀ fuel, getWarpsPerCTAU32 fuel [rows, cols] [t0, t1] numWarps =
        if a + b ≤ fuel then some [2 ^ a, 2 ^ b] else none) ∧
      numWarps ≤ 2 ^ a * 2 ^ b ∧
      (∀ j, numWarps ≤ 2 ^ j → 2 ^ a * 2 ^ b ≤ 2 ^ j) ∧
      (∀ w0 w1 r0 r1, 1 ≤ w0 → 1 ≤ w1 → w0 * w1 < numWarps →
        ceilU32 t0 t1 = some r0 → ceilU32 t1 t0 = some r1 →
        getWarpsPerCTAStepU32 [rows, cols] [t0, t1] r0 r1 w0 w1 = some (w0 * 2, w1) ∨
        getWarpsPerCTAStepU32 [rows, cols] [t0, t1] r0 r1 w0 w1 = some (w0, w1 * 2)) := by
  obtain ⟨hc0, hc1, hp0, hp1, hn0, hn1⟩ := planner_ratios t0 t1 ht0 ht1 ht
  obtain ⟨a, b, hret, hge, hleast⟩ :=
    getWarpsPerCTAU32_pow rows cols t0 t1 numWarps ht0 ht1 ht hw
  have hclog : a + b = Nat.clog 2 numWarps := by
    apply Nat.le_antisymm
    · exact hleast _ ((Nat.le_pow_iff_clog_le (by decide)).mpr (le_refl _))
    · exact (Nat.le_pow_iff_clog_le (by decide)).mp hge
  refine ⟨a, b, hclog, hret, by rw [← Nat.pow_add]; exact hge, ?_, ?_⟩
  · intro j hj
    rw [← Nat.pow_add]
    exact Nat.pow_le_pow_right (by decide) (hleast j hj)
  · intro w0 w1 r0 r1 hw0 hw1 hlt hr0 hr1
    rw [hc0] at hr0
    rw [hc1] at hr1
    have hr0' : r0 = ceil t0 t1 := (Option.some.inj hr0).symm
    have hr1' : r1 = ceil t1 t0 := (Option.some.inj hr1).symm
    subst hr0'
    subst hr1'
    obtain ⟨hd0, hd1, _⟩ := doubling_lt numWarps w0 w1 hw hw0 hw1 hlt
    exact getWarpsPerCTAStepU32_doubles [rows, cols] [t0, t1] (ceil t0 t1) (ceil t1 t0) w0 w1
      (by simp; omega)
      (by simp only [List.getD_cons_zero]; rw [hp0]; exact hn0)
      (by simp only [List.getD_cons_succ, List.getD_cons_zero]; rw [hp1]; exact hn1)
      (by omega) (by omega) hd0 hd1

/-- C22 (amended) at a concrete input: the 64x16 tensor with the tile (32, 32)
and 4 warps; the grid is (2, 2) after 2 doublings. -/
theorem C22_warp_grid_loop_terminates_witness :
    1 ≤ 32 ∧ 32 + 32 ≤ 2 ^ 32 ∧ 4 ≤ 2 ^ 31 ∧
    getWarpsPerCTAU32 2 [64, 16] [32, 32] 4 = some [2, 2] ∧
    getWarpsPerCTAU32 1 [64, 16] [32, 32] 4 = none ∧
    ∃ a b, a + b = Nat.clog 2 4 ∧
      (∀ fuel, getWarpsPerCTAU32 fuel [64, 16] [32, 32] 4 =
        if a + b ≤ fuel then some [2 ^ a, 2 ^ b] else none) ∧
      4 ≤ 2 ^ a * 2 ^ b ∧
      (∀ j, 4 ≤ 2 ^ j → 2 ^ a * 2 ^ b ≤ 2 ^ j) ∧
      (∀ w0 w1 r0 r1, 1 ≤ w0 → 1 ≤ w1 → w0 * w1 < 4 →
        ceilU32 32 32 = some r0 → ceilU32 32 32 = some r1 →
        getWarpsPerCTAStepU32 [64, 16] [32, 32] r0 r1 w0 w1 = some (w0 * 2, w1) ∨
        getWarpsPerCTAStepU32 [64, 16] [32, 32] r0 r1 w0 w1 = some (w0, w1 * 2)) :=
  ⟨by decide, by decide, by decide, by decide, by decide,
    C22_warp_grid_loop_terminates 64 16 32 32 4 (by decide) (by decide) (by decide)
      (by decide)⟩

end LoadStoreOpToLLVM
